import Mathlib

/-! TTSS staking client: wire encoding of instructions and derived addresses

A shallow embedding of the JavaScript sources that build the binary payloads sent
to the on-chain staking program:

* `src/utils/staking-helpers/instruction-utils.js` (generic instruction data, primitive encoders),
* `src/shared/utils/transaction.js` (instruction builders),
* `src/shared/constants/*.js` (discriminators, seeds, program id),
* `src/shared/utils/pda.js` (derived addresses),
* `src/direct_migration.js`, `src/direct_migration_final.js` (admin instructions),
* `src/pages/api/admin/*.js`, `src/pages/api/check-pool-info.js`, `src/check-pool-seed.js`,
* `src/shared/utils/error-codes.js`, `src/shared/utils/error-handler.js` (error translation),
* `src/pages/api/staking/prepareUnstaking.js` (penalty of an early unstake),
* `src/shared/utils/transaction-utils.js`, `src/utils/transaction-utils-client.js`
  (serialization of transactions to and from base64 text),
* `src/pages/api/staking/prepareStaking.js`, `src/pages/api/staking/completeStaking.js`
  (estimated rewards), `src/pages/api/staking/getStakingInfo.js` (earned rewards),
* `src/migrate_reward_system_fixed.js` (collection bonus).

Conventions. A Node `Buffer` is a list of bytes, each byte a natural number below 256.
A JavaScript number that holds an integer, or a BigInt, is an `Int`. A function that can
throw returns `Except JsError _`; the transaction utilities return `Except UtilError _`.
Where the arithmetic of doubles matters, a finite JavaScript number is the rational it
denotes and every operation rounds to the nearest double, ties to even.
-/

namespace TTSS

/-! ## JavaScript runtime: errors, values, buffers -/

/-- The exceptions the embedded code can raise. -/
inductive JsError where
  /-- A plain `new Error(message)`. -/
  | error (message : String)
  /-- The `RangeError [ERR_OUT_OF_RANGE]` of the Node buffer writers and readers. -/
  | rangeError
  /-- A `TypeError`, as for `BigInt(undefined)` and `BigInt(null)`. -/
  | typeError
  deriving DecidableEq, Repr

deriving instance DecidableEq for Except

/-- The JavaScript values that reach the option encoder: `undefined` (a missing property),
`null`, and an integer (an integer-valued number or a BigInt). -/
inductive JsValue where
  | undefined
  | null
  | int (v : Int)
  deriving DecidableEq, Repr

/-- JavaScript truthiness: `undefined`, `null` and `0` are falsy. -/
def JsValue.truthy : JsValue → Bool
  | .undefined => false
  | .null => false
  | .int v => v != 0

/-- The expression `a || b`. -/
def JsValue.or (a b : JsValue) : JsValue :=
  if a.truthy then a else b

/-- The call `BigInt(value)`: the integer itself, a `TypeError` for `undefined` and `null`. -/
def toBigInt : JsValue → Except JsError Int
  | .int v => .ok v
  | .undefined => .error .typeError
  | .null => .error .typeError

/-- A Node `Buffer`: its bytes in order, each below 256. -/
abbrev Buffer := List Nat

/-- The call `Buffer.from([...])` on an array of integers: every element is stored modulo 256
(the typed-array conversion to an unsigned byte). -/
def bufferFrom (xs : List Int) : Buffer := xs.map (fun x => (x % 256).toNat)

/-- The call `Buffer.concat(list)`. -/
def bufferConcat (bs : List Buffer) : Buffer := bs.flatten

/-- The eight little-endian bytes of `n`, least significant first. -/
def leBytes64 (n : Nat) : Buffer :=
  [n % 256, n / 256 % 256, n / 256 ^ 2 % 256, n / 256 ^ 3 % 256,
   n / 256 ^ 4 % 256, n / 256 ^ 5 % 256, n / 256 ^ 6 % 256, n / 256 ^ 7 % 256]

/-- The result of `buf = Buffer.alloc(8); buf.writeBigUInt64LE(v)`: the value must lie in
`0 .. 2^64 - 1`, otherwise Node throws a `RangeError` (so a negative value is refused); the
eight bytes written at offset 0 are the little-endian bytes of `v`. -/
def writeBigUInt64LE (v : Int) : Except JsError Buffer :=
  match v with
  | .ofNat n => if n < 2 ^ 64 then .ok (leBytes64 n) else .error .rangeError
  | .negSucc _ => .error .rangeError

/-- The call `buf.readBigUInt64LE(offset)`: a `RangeError` unless eight bytes are available at
`offset`; otherwise the sum of `byte_i * 256^i`. -/
def readBigUInt64LE (buf : Buffer) (offset : Nat) : Except JsError Nat :=
  match buf.drop offset with
  | b0 :: b1 :: b2 :: b3 :: b4 :: b5 :: b6 :: b7 :: _ =>
    .ok (b0 + b1 * 256 + b2 * 256 ^ 2 + b3 * 256 ^ 3
          + b4 * 256 ^ 4 + b5 * 256 ^ 5 + b6 * 256 ^ 6 + b7 * 256 ^ 7)
  | _ => .error .rangeError

/-- The conversion ToInt32 applied to an integer-valued number. -/
def toInt32 (v : Int) : Int :=
  let m := v % 2 ^ 32
  if m < 2 ^ 31 then m else m - 2 ^ 32

/-- The expression `a & b` on integer-valued numbers: both operands go through ToInt32 and
the bitwise and is taken on the 32-bit two-complement patterns. -/
def jsBitAnd (a b : Int) : Int :=
  toInt32 (Nat.land (toInt32 a % 2 ^ 32).toNat (toInt32 b % 2 ^ 32).toNat)

/-- The property names that an object literal inherits from `Object.prototype`: reading one
of them on a table written as an object literal, when the table has no entry of that name,
yields a function or an object, which is truthy and is neither a number, nor an array of
bytes, nor an entry of the table. -/
def OBJECT_PROTOTYPE_KEYS : List String :=
  ["constructor", "__defineGetter__", "__defineSetter__", "hasOwnProperty",
   "__lookupGetter__", "__lookupSetter__", "isPrototypeOf", "propertyIsEnumerable",
   "toString", "valueOf", "__proto__", "toLocaleString"]

/-! ## `shared/constants/discriminators.js` -/

/-- The table `INSTRUCTION_DISCRIMINATORS`, in source order. -/
def INSTRUCTION_DISCRIMINATORS : List (String × Buffer) :=
  [("INITIALIZE", bufferFrom [175, 175, 109, 31, 13, 152, 155, 237]),
   ("STAKE_NFT", bufferFrom [38, 27, 66, 46, 69, 65, 151, 219]),
   ("UNSTAKE_NFT", bufferFrom [17, 182, 24, 211, 101, 138, 50, 163]),
   ("INIT_USER_STAKING_INFO", bufferFrom [228, 148, 161, 162, 20, 86, 73, 202]),
   ("CLAIM_REWARDS", bufferFrom [4, 144, 132, 71, 116, 23, 151, 80]),
   ("FUND_REWARD_POOL", bufferFrom [85, 49, 108, 245, 204, 70, 243, 3]),
   ("INITIALIZE_REWARD_POOL", bufferFrom [139, 189, 60, 130, 44, 211, 218, 99]),
   ("UPDATE_REWARD_RATE", bufferFrom [105, 157, 0, 185, 21, 144, 163, 159]),
   ("UPDATE_TIER_MULTIPLIERS", bufferFrom [25, 132, 162, 53, 130, 129, 248, 23]),
   ("UPDATE_REWARD_PARAMS", bufferFrom [146, 73, 176, 37, 49, 138, 89, 174]),
   ("UPDATE_POOL_SETTINGS", bufferFrom [222, 34, 66, 86, 117, 205, 101, 49]),
   ("PAUSE_POOL", bufferFrom [160, 15, 12, 189, 160, 0, 243, 245]),
   ("UNPAUSE_POOL", bufferFrom [241, 148, 129, 243, 222, 125, 125, 160]),
   ("MIGRATE_STAKE_INFO", bufferFrom [55, 216, 65, 105, 113, 167, 92, 110]),
   ("MIGRATE_USER_STAKING_INFO", bufferFrom [109, 210, 28, 22, 40, 37, 154, 145])]

/-- The table `ACCOUNT_DISCRIMINATORS`, in source order. -/
def ACCOUNT_DISCRIMINATORS : List (String × Buffer) :=
  [("POOL_STATE", bufferFrom [247, 237, 227, 245, 215, 195, 222, 70]),
   ("STAKE_INFO", bufferFrom [66, 62, 68, 70, 108, 179, 183, 235]),
   ("USER_STAKING_INFO", bufferFrom [171, 19, 114, 117, 157, 103, 21, 106])]

/-- The table `EVENT_DISCRIMINATORS`, in source order. -/
def EVENT_DISCRIMINATORS : List (String × Buffer) :=
  [("NFT_STAKED", bufferFrom [150, 229, 155, 99, 88, 181, 254, 61]),
   ("NFT_UNSTAKED", bufferFrom [253, 242, 47, 131, 231, 214, 72, 117]),
   ("REWARDS_CLAIMED", bufferFrom [75, 98, 88, 18, 219, 112, 88, 121]),
   ("COLLECTION_BONUS_UPDATED", bufferFrom [211, 11, 24, 70, 63, 249, 162, 118])]

/-- The property access `TABLE.NAME` on one of the tables above; a name that is not a key
yields the empty buffer here, and every access in the sources names a key. -/
def tableGet (table : List (String × Buffer)) (name : String) : Buffer :=
  (table.lookup name).getD []

/-! ## `utils/staking-helpers/instruction-utils.js` -/

/-- The function `createInstructionData(instructionName, args)`. The table `DISCRIMINATORS`
is imported from `./constants`, which is not among the sources: it is a parameter, the
entries of an object literal with arrays of bytes as values, as the discriminator tables of
the sources are (`none` for a name that is no entry). The property access
`DISCRIMINATORS[instructionName]` yields the entry, or, for a name that is no entry, the
member inherited from `Object.prototype` if the name is one, and `undefined` otherwise. An
inherited member is truthy, so it passes the test `!discriminator`, and `Buffer.from` of it
throws a `TypeError`. -/
def createInstructionData (DISCRIMINATORS : String → Option Buffer)
    (instructionName : String) (args : List Buffer) : Except JsError Buffer :=
  match DISCRIMINATORS instructionName with
  | none =>
    if instructionName ∈ OBJECT_PROTOTYPE_KEYS then .error .typeError
    else .error (.error ("Unknown instruction name: " ++ instructionName))
  | some discriminator =>
    if args.length = 0 then .ok discriminator
    else .ok (bufferConcat (discriminator :: args))

/-- The function `serializeU64(value)`. -/
def serializeU64 (value : Int) : Except JsError Buffer :=
  writeBigUInt64LE value

/-- The function `serializeU8(value)`: `Buffer.from([value & 0xff])`. -/
def serializeU8 (value : Int) : Buffer :=
  bufferFrom [jsBitAnd value 0xff]

/-- The function `serializeBoolean(value)`: `Buffer.from([value ? 1 : 0])`. -/
def serializeBoolean (value : Bool) : Buffer :=
  bufferFrom [if value then 1 else 0]

/-- The `nftTier` argument of `createStakeNftInstructionData`: a string or a number. -/
inductive TierArg where
  | str (s : String)
  | num (v : Int)
  deriving DecidableEq, Repr

/-- The function `createStakeNftInstructionData(stakingPeriod, nftTier, autoCompound)`.
`toUpperCase` is the library method `String.prototype.toUpperCase`, a parameter. -/
def createStakeNftInstructionData (DISCRIMINATORS : String → Option Buffer)
    (toUpperCase : String → String)
    (stakingPeriod : Int) (nftTier : TierArg) (autoCompound : Bool) : Except JsError Buffer :=
  let tierValue : Int :=
    match nftTier with
    | .num v => v
    | .str s =>
      let names := ["COMMON", "RARE", "EPIC", "LEGENDARY"]
      let i := names.indexOf (toUpperCase s)
      let idx : Int := if i < names.length then (i : Int) else -1
      if idx = -1 then 0 else idx
  do
    let period ← serializeU64 stakingPeriod
    createInstructionData DISCRIMINATORS "STAKE_NFT"
      [period, serializeU8 tierValue, serializeBoolean autoCompound]

/-- The function `createUnstakeNftInstructionData()`. -/
def createUnstakeNftInstructionData (DISCRIMINATORS : String → Option Buffer) :
    Except JsError Buffer :=
  createInstructionData DISCRIMINATORS "UNSTAKE_NFT" []

/-- The function `createClaimRewardsInstructionData()`. -/
def createClaimRewardsInstructionData (DISCRIMINATORS : String → Option Buffer) :
    Except JsError Buffer :=
  createInstructionData DISCRIMINATORS "CLAIM_REWARDS" []

/-- The function `createInitUserStakingInfoInstructionData()`. -/
def createInitUserStakingInfoInstructionData (DISCRIMINATORS : String → Option Buffer) :
    Except JsError Buffer :=
  createInstructionData DISCRIMINATORS "INIT_USER_STAKING_INFO" []

/-! ## `direct_migration.js` and `direct_migration_final.js`: encoders -/

/-- The helper `u64ToLEBytes(value)`: `BigInt(value)` written as eight little-endian bytes. -/
def u64ToLEBytes (value : JsValue) : Except JsError Buffer := do
  let bn ← toBigInt value
  writeBigUInt64LE bn

/-- The helper `u8ToBytes(value)`: `Buffer.from([value])`. -/
def u8ToBytes (value : Int) : Buffer := bufferFrom [value]

/-- The helper `encodeOption(value)`: `[0]` when `value === null`, else `[1]` followed by
`u64ToLEBytes(value)`. -/
def encodeOption (value : JsValue) : Except JsError Buffer :=
  if value = JsValue.null then .ok (bufferFrom [0])
  else do
    let bytes ← u64ToLEBytes value
    pure (bufferConcat [bufferFrom [1], bytes])

/-- The local table `DISCRIMINATORS` of the two migration scripts, in source order. -/
def DISCRIMINATORS : List (String × Buffer) :=
  [("initialize", bufferFrom [175, 175, 109, 31, 13, 152, 155, 237]),
   ("updatePoolSettings", bufferFrom [222, 34, 66, 86, 117, 205, 101, 49]),
   ("initializeRewardPool", bufferFrom [139, 189, 60, 130, 44, 211, 218, 99]),
   ("updateRewardParams", bufferFrom [146, 73, 176, 37, 49, 138, 89, 174]),
   ("migrateStakeInfo", bufferFrom [55, 216, 65, 105, 113, 167, 92, 110]),
   ("migrateUserStakingInfo", bufferFrom [109, 210, 28, 22, 40, 37, 154, 145]),
   ("fundRewardPool", bufferFrom [85, 49, 108, 245, 204, 70, 243, 3])]

/-- The `params` object of `updateRewardParams`; a missing property is `undefined`. -/
structure RewardParams where
  timeMultiplierIncrement : JsValue
  timeMultiplierPeriodDays : JsValue
  maxTimeMultiplier : JsValue
  deriving DecidableEq, Repr

/-- The instruction data `data` built inside `updateMaxNftsPerUser` (update pool settings). -/
def updateMaxNftsPerUser_data : Buffer :=
  bufferConcat
    [tableGet DISCRIMINATORS "updatePoolSettings",
     bufferFrom [1], bufferFrom [3], bufferFrom [0], bufferFrom [0]]

/-- The instruction data `data` built inside `initializeRewardPool`. -/
def initializeRewardPool_data : Buffer :=
  bufferConcat [tableGet DISCRIMINATORS "initializeRewardPool"]

/-- The instruction data `data` built inside `updateRewardParams(walletKeypair, params)`:
each parameter goes through `params.x || null` and then `encodeOption`. -/
def updateRewardParams_data (params : RewardParams) : Except JsError Buffer := do
  let increment ← encodeOption (params.timeMultiplierIncrement.or .null)
  let period ← encodeOption (params.timeMultiplierPeriodDays.or .null)
  let max ← encodeOption (params.maxTimeMultiplier.or .null)
  pure (bufferConcat [tableGet DISCRIMINATORS "updateRewardParams", increment, period, max])

/-- The instruction data `data` built inside `initializePool`: the discriminator, then
`u64ToLEBytes(100)` (reward rate) and `u8ToBytes(5)` (emergency fee). -/
def initializePool_data : Except JsError Buffer := do
  let rewardRate ← u64ToLEBytes (.int 100)
  pure (bufferConcat [tableGet DISCRIMINATORS "initialize", rewardRate, u8ToBytes 5])

/-! ## `pages/api/admin/*.js`, `pages/api/check-pool-info.js` -/

/-- The constant `UPDATE_TIER_MULTIPLIERS_DISCRIMINATOR` of `update-tier-multipliers.js`. -/
def UPDATE_TIER_MULTIPLIERS_DISCRIMINATOR : List Int := [25, 132, 162, 53, 130, 129, 248, 23]

/-- The constant `UPDATE_REWARD_RATE_DISCRIMINATOR` of `update-admin-check.js`. -/
def UPDATE_REWARD_RATE_DISCRIMINATOR : List Int := [105, 157, 0, 185, 21, 144, 163, 159]

/-- The buffer `instructionData` built by the handler of `update-tier-multipliers.js` from the
four multipliers of the request body. -/
def updateTierMultipliers_instructionData (common rare epic legendary : Int) :
    Except JsError Buffer := do
  let commonBuf ← writeBigUInt64LE common
  let rareBuf ← writeBigUInt64LE rare
  let epicBuf ← writeBigUInt64LE epic
  let legendaryBuf ← writeBigUInt64LE legendary
  pure (bufferConcat
    [bufferFrom UPDATE_TIER_MULTIPLIERS_DISCRIMINATOR, commonBuf, rareBuf, epicBuf, legendaryBuf])

/-- The buffer `instructionData` built by the handler of `update-admin-check.js`
(update reward rate, with the fixed rate 100). -/
def updateAdminCheck_instructionData : Except JsError Buffer := do
  let rewardRateBuf ← writeBigUInt64LE 100
  pure (bufferConcat [bufferFrom UPDATE_REWARD_RATE_DISCRIMINATOR, rewardRateBuf])

/-- The fields `reward_rate`, `emergency_fee_percent` and `paused` that the handler of
`check-pool-info.js` reads from the account data: `data.slice(40, 48).readBigUInt64LE(0)`,
`data[48]` (`none` for `undefined`) and `data[49] !== 0`. -/
def decodePoolData (data : Buffer) : Except JsError (Nat × Option Nat × Bool) := do
  let rewardRate ← readBigUInt64LE ((data.drop 40).take 8) 0
  let emergencyFeePercent := data[48]?
  let paused := data[49]? != some 0
  pure (rewardRate, emergencyFeePercent, paused)
/-! ## Library model: `bs58`, `PublicKey`, SHA-256, the Ed25519 curve test

The sources call `PublicKey` and `PublicKey.findProgramAddressSync` of `@solana/web3.js`.
The definitions of this section follow the published algorithms of that library and of its
dependencies (`bs58`, SHA-256 of FIPS 180-4, point decoding of RFC 8032). -/

/-- The bytes of `Buffer.from(string)`: the UTF-8 encoding. -/
def utf8 (s : String) : Buffer :=
  s.data.flatMap (fun c => (String.utf8EncodeChar c).map UInt8.toNat)

/-- The base58 alphabet of `bs58`. -/
def base58Alphabet : List Char :=
  "123456789ABCDEFGHJKLMNPQRSTUVWXYZabcdefghijkmnopqrstuvwxyz".data

/-- The big-endian bytes of `n` without leading zero bytes, pushed in front of `acc`. -/
def beBytesAux : Nat → Nat → Buffer → Buffer
  | 0, _, acc => acc
  | fuel + 1, n, acc => if n = 0 then acc else beBytesAux fuel (n / 256) (n % 256 :: acc)

/-- The number written by a list of base58 digits, `none` on a foreign character. -/
def base58Value : List Char → Nat → Option Nat
  | [], acc => some acc
  | c :: cs, acc =>
    let i := base58Alphabet.indexOf c
    if i < 58 then base58Value cs (acc * 58 + i) else none

/-- The call `bs58.decode(string)`: each leading `1` is a zero byte, the rest is a number in
base 58 written as big-endian bytes. -/
def bs58decode (s : String) : Except JsError Buffer :=
  let zeroes := (s.data.takeWhile (fun c => c == '1')).length
  match base58Value (s.data.drop zeroes) 0 with
  | none => .error (.error "Non-base58 character")
  | some n => .ok (List.replicate zeroes 0 ++ beBytesAux s.length n [])

/-- The base58 digits of `n`, most significant first, pushed in front of `acc`. -/
def base58Digits : Nat → Nat → List Char → List Char
  | 0, _, acc => acc
  | fuel + 1, n, acc =>
    if n = 0 then acc else base58Digits fuel (n / 58) (base58Alphabet.getD (n % 58) '1' :: acc)

/-- The call `bs58.encode(bytes)`. -/
def bs58encode (b : Buffer) : String :=
  let zeroes := (b.takeWhile (fun x => x == 0)).length
  String.mk (List.replicate zeroes '1'
    ++ base58Digits (2 * b.length) (b.foldl (fun acc x => acc * 256 + x) 0) [])

/-- A `PublicKey`: 32 bytes. -/
structure PublicKey where
  bytes : Buffer
  size_eq : bytes.length = 32
  deriving DecidableEq

/-- The method `toBuffer()`. -/
def PublicKey.toBuffer (k : PublicKey) : Buffer := k.bytes

/-- The methods `toBase58()` and `toString()`. -/
def PublicKey.toBase58 (k : PublicKey) : String := bs58encode k.bytes

/-- The constructor `new PublicKey(bytes)`: the input must be 32 bytes long. -/
def PublicKey.ofBytes (b : Buffer) : Except JsError PublicKey :=
  if h : b.length = 32 then .ok ⟨b, h⟩ else .error (.error "Invalid public key input")

/-- The constructor `new PublicKey(string)`: the base58 decoding must be 32 bytes long. -/
def newPublicKey (value : String) : Except JsError PublicKey := do
  let decoded ← bs58decode value
  PublicKey.ofBytes decoded

/-- The round constants of SHA-256. -/
def sha256K : List Nat :=
  [0x428a2f98, 0x71374491, 0xb5c0fbcf, 0xe9b5dba5, 0x3956c25b, 0x59f111f1, 0x923f82a4, 0xab1c5ed5,
   0xd807aa98, 0x12835b01, 0x243185be, 0x550c7dc3, 0x72be5d74, 0x80deb1fe, 0x9bdc06a7, 0xc19bf174,
   0xe49b69c1, 0xefbe4786, 0x0fc19dc6, 0x240ca1cc, 0x2de92c6f, 0x4a7484aa, 0x5cb0a9dc, 0x76f988da,
   0x983e5152, 0xa831c66d, 0xb00327c8, 0xbf597fc7, 0xc6e00bf3, 0xd5a79147, 0x06ca6351, 0x14292967,
   0x27b70a85, 0x2e1b2138, 0x4d2c6dfc, 0x53380d13, 0x650a7354, 0x766a0abb, 0x81c2c92e, 0x92722c85,
   0xa2bfe8a1, 0xa81a664b, 0xc24b8b70, 0xc76c51a3, 0xd192e819, 0xd6990624, 0xf40e3585, 0x106aa070,
   0x19a4c116, 0x1e376c08, 0x2748774c, 0x34b0bcb5, 0x391c0cb3, 0x4ed8aa4a, 0x5b9cca4f, 0x682e6ff3,
   0x748f82ee, 0x78a5636f, 0x84c87814, 0x8cc70208, 0x90befffa, 0xa4506ceb, 0xbef9a3f7, 0xc67178f2]

/-- Rotation of a 32-bit word to the right. -/
def rotr32 (x n : Nat) : Nat := (x >>> n ||| x <<< (32 - n)) % 2 ^ 32

/-- The big-endian 32-bit words of a byte sequence. -/
def wordsOfBytes : List Nat → List Nat
  | a :: b :: c :: d :: rest => (a * 2 ^ 24 + b * 2 ^ 16 + c * 2 ^ 8 + d) :: wordsOfBytes rest
  | _ => []

/-- The message schedule: `ws` holds the words so far, newest first; `k` more are added. -/
def sha256Schedule : Nat → List Nat → List Nat
  | 0, ws => ws
  | k + 1, ws =>
    let w2 := ws.getD 1 0
    let w7 := ws.getD 6 0
    let w15 := ws.getD 14 0
    let w16 := ws.getD 15 0
    let s0 := rotr32 w15 7 ^^^ rotr32 w15 18 ^^^ (w15 >>> 3)
    let s1 := rotr32 w2 17 ^^^ rotr32 w2 19 ^^^ (w2 >>> 10)
    sha256Schedule k (((w16 + s0 + w7 + s1) % 2 ^ 32) :: ws)

/-- The eight working words of SHA-256. -/
structure Sha256State where
  a : Nat
  b : Nat
  c : Nat
  d : Nat
  e : Nat
  f : Nat
  g : Nat
  h : Nat

/-- One round of the compression function, on the pair (round constant, schedule word). -/
def sha256Round (s : Sha256State) (kw : Nat × Nat) : Sha256State :=
  let S1 := rotr32 s.e 6 ^^^ rotr32 s.e 11 ^^^ rotr32 s.e 25
  let ch := (s.e &&& s.f) ^^^ ((s.e ^^^ 0xffffffff) &&& s.g)
  let t1 := (s.h + S1 + ch + kw.1 + kw.2) % 2 ^ 32
  let S0 := rotr32 s.a 2 ^^^ rotr32 s.a 13 ^^^ rotr32 s.a 22
  let maj := (s.a &&& s.b) ^^^ (s.a &&& s.c) ^^^ (s.b &&& s.c)
  let t2 := (S0 + maj) % 2 ^ 32
  ⟨(t1 + t2) % 2 ^ 32, s.a, s.b, s.c, (s.d + t1) % 2 ^ 32, s.e, s.f, s.g⟩

/-- The compression of one 64-byte block into the chaining value. -/
def sha256Compress (hs : Sha256State) (block : List Nat) : Sha256State :=
  let w := (sha256Schedule 48 (wordsOfBytes block).reverse).reverse
  let r := (sha256K.zip w).foldl sha256Round hs
  ⟨(hs.a + r.a) % 2 ^ 32, (hs.b + r.b) % 2 ^ 32, (hs.c + r.c) % 2 ^ 32, (hs.d + r.d) % 2 ^ 32,
   (hs.e + r.e) % 2 ^ 32, (hs.f + r.f) % 2 ^ 32, (hs.g + r.g) % 2 ^ 32, (hs.h + r.h) % 2 ^ 32⟩

/-- The `k` low bytes of `n`, most significant first. -/
def beBytes (k : Nat) (n : Nat) : List Nat :=
  (List.range k).reverse.map (fun i => n / 256 ^ i % 256)

/-- The padding of SHA-256: the byte `0x80`, zero bytes up to 56 modulo 64, the bit length. -/
def sha256Pad (msg : Buffer) : Buffer :=
  let l := msg.length
  msg ++ [0x80] ++ List.replicate ((119 - l % 64) % 64) 0 ++ beBytes 8 (8 * l)

/-- The chaining of the compression function over `k` blocks. -/
def sha256Blocks : Nat → List Nat → Sha256State → Sha256State
  | 0, _, s => s
  | k + 1, bs, s =>
    if bs.length < 64 then s else sha256Blocks k (bs.drop 64) (sha256Compress s (bs.take 64))

/-- The hash `sha256(buffer)`: 32 bytes. -/
def sha256 (msg : Buffer) : Buffer :=
  let p := sha256Pad msg
  let s := sha256Blocks (p.length / 64) p
    ⟨0x6a09e667, 0xbb67ae85, 0x3c6ef372, 0xa54ff53a, 0x510e527f, 0x9b05688c, 0x1f83d9ab, 0x5be0cd19⟩
  [s.a, s.b, s.c, s.d, s.e, s.f, s.g, s.h].flatMap (beBytes 4)

/-- The field prime of Ed25519, `2^255 - 19`. -/
def ed25519P : Nat := 2 ^ 255 - 19

/-- The curve constant `d = -121665/121666` modulo the field prime. -/
def ed25519D : Nat :=
  37095705934669439343138083508754565189542113879843219016388785533085940283555

/-- A square root of `-1` modulo the field prime. -/
def ED25519_SQRT_M1 : Nat :=
  19681161376707505956807079304988542015446066515923890162744021073123829784752

/-- Modular exponentiation by squaring; `fuel` bounds the bit length of the exponent. -/
def powMod : Nat → Nat → Nat → Nat → Nat
  | 0, _, _, m => 1 % m
  | fuel + 1, b, e, m =>
    if e = 0 then 1 % m
    else
      let h := powMod fuel (b * b % m) (e / 2) m
      if e % 2 = 1 then b * h % m else h

/-- The little-endian value of a byte sequence. -/
def leValue : List Nat → Nat
  | [] => 0
  | b :: bs => b + 256 * leValue bs

/-- The test `isOnCurve(publicKey)`: the 32 bytes decode to a point of the curve. The
y coordinate is the little-endian value without the top bit and must be below the prime;
`x^2 = (y^2 - 1) / (d y^2 + 1)` must have a root; `x = 0` with the sign bit set is refused. -/
def isOnCurve (publicKey : Buffer) : Bool :=
  let P := ed25519P
  let lastByte := publicKey.getLastD 0
  let y := leValue publicKey % 2 ^ 255
  if P ≤ y then false
  else
    let y2 := y * y % P
    let u := (y2 + P - 1) % P
    let v := (ed25519D * y2 + 1) % P
    let v3 := v * v * v % P
    let v7 := v3 * v3 * v % P
    let pow := powMod 256 (u * v7 % P) ((P - 5) / 8) P
    let x := u * v3 * pow % P
    let vx2 := v * x * x % P
    let useRoot1 := vx2 == u
    let useRoot2 := vx2 == (P - u) % P
    let noRoot := vx2 == (P - u) * ED25519_SQRT_M1 % P
    let x1 := if useRoot2 || noRoot then x * ED25519_SQRT_M1 % P else x
    let x2 := if x1 % 2 = 1 then (P - x1) % P else x1
    if !(useRoot1 || useRoot2) then false
    else if x2 = 0 ∧ 128 ≤ lastByte then false
    else true

/-- The method `PublicKey.createProgramAddressSync(seeds, programId)`: a seed longer than 32
bytes is a `TypeError`; the address is the SHA-256 of the seeds, the program id and the text
`ProgramDerivedAddress`, refused when it lies on the curve. -/
def createProgramAddressSync (seeds : List Buffer) (programId : PublicKey) :
    Except JsError PublicKey :=
  if seeds.any (fun seed => 32 < seed.length) then .error .typeError
  else
    let buffer := bufferConcat seeds ++ programId.toBuffer ++ utf8 "ProgramDerivedAddress"
    let publicKeyBytes := sha256 buffer
    if isOnCurve publicKeyBytes then
      .error (.error "Invalid seeds, address must fall off the curve")
    else PublicKey.ofBytes publicKeyBytes

/-- The loop of `findProgramAddressSync` from the nonce `n` down to 1: the first nonce whose
address is accepted is returned; a `TypeError` is thrown again, other errors move on. -/
def findProgramAddressLoop (seeds : List Buffer) (programId : PublicKey) :
    Nat → Except JsError (PublicKey × Nat)
  | 0 => .error (.error "Unable to find a viable program address nonce")
  | n + 1 =>
    match createProgramAddressSync (seeds ++ [bufferFrom [((n + 1 : Nat) : Int)]]) programId with
    | .ok address => .ok (address, n + 1)
    | .error .typeError => .error .typeError
    | .error _ => findProgramAddressLoop seeds programId n

/-- The method `PublicKey.findProgramAddressSync(seeds, programId)`: the address and its bump,
the nonce searched from 255 downward. -/
def findProgramAddressSync (seeds : List Buffer) (programId : PublicKey) :
    Except JsError (PublicKey × Nat) :=
  findProgramAddressLoop seeds programId 255

/-! ## `shared/constants/program-ids.js`, `shared/constants/seeds.js` -/

/-- The constant `PROGRAM_ID`. -/
def PROGRAM_ID : String := "4SfUyQkbeyz9jeJDsR5XiUf8DATVZJXtGG4JUsYsWzTs"

/-- The constant `POOL_STATE_ADDRESS`. -/
def POOL_STATE_ADDRESS : String := "8cQViUpNWGhw2enYUNyp2WRWXAwdQbZokiATBr1Xc5uP"

/-- The seed `POOL_SEED`: `Buffer.from("pool_state")`. -/
def POOL_SEED : Buffer := utf8 "pool_state"

/-- The seed `STAKE_SEED`. -/
def STAKE_SEED : Buffer := bufferFrom [115, 116, 97, 107, 101]

/-- The seed `ESCROW_SEED`. -/
def ESCROW_SEED : Buffer := bufferFrom [101, 115, 99, 114, 111, 119]

/-- The seed `USER_STAKING_SEED`. -/
def USER_STAKING_SEED : Buffer :=
  bufferFrom [117, 115, 101, 114, 95, 115, 116, 97, 107, 105, 110, 103]

/-- The seed `SOCIAL_SEED`. -/
def SOCIAL_SEED : Buffer := bufferFrom [115, 111, 99, 105, 97, 108]

/-- The seed `PROOF_SEED`. -/
def PROOF_SEED : Buffer := bufferFrom [112, 114, 111, 111, 102]

/-- The seed `VOTE_SEED`. -/
def VOTE_SEED : Buffer := bufferFrom [118, 111, 116, 101]

/-- The seed `REWARD_VAULT_AUTHORITY_SEED`: `Buffer.from("reward_vault_authority")`. -/
def REWARD_VAULT_AUTHORITY_SEED : Buffer := utf8 "reward_vault_authority"

/-! ## `shared/utils/pda.js`

Each helper is given the derivation it calls, `PublicKey.findProgramAddressSync`, as the
argument `derive`, so that what it passes to the derivation can be stated. -/

/-- An address argument of the helpers: a base58 string or a `PublicKey`. -/
inductive KeyArg where
  | str (s : String)
  | key (k : PublicKey)
  deriving DecidableEq

/-- The expression `typeof x === 'string' ? new PublicKey(x) : x`. -/
def KeyArg.toKey : KeyArg → Except JsError PublicKey
  | .str s => newPublicKey s
  | .key k => .ok k

/-- The function `findPoolStatePDA()`. -/
def findPoolStatePDA {α : Type} (derive : List Buffer → PublicKey → Except JsError α) :
    Except JsError α := do
  let programId ← newPublicKey PROGRAM_ID
  derive [POOL_SEED] programId

/-- The function `findStakeInfoPDA(nftMint)`. -/
def findStakeInfoPDA {α : Type} (derive : List Buffer → PublicKey → Except JsError α)
    (nftMint : KeyArg) : Except JsError α := do
  let mintKey ← nftMint.toKey
  let programId ← newPublicKey PROGRAM_ID
  derive [STAKE_SEED, mintKey.toBuffer] programId

/-- The function `findEscrowAuthorityPDA(nftMint)`. -/
def findEscrowAuthorityPDA {α : Type} (derive : List Buffer → PublicKey → Except JsError α)
    (nftMint : KeyArg) : Except JsError α := do
  let mintKey ← nftMint.toKey
  let programId ← newPublicKey PROGRAM_ID
  derive [ESCROW_SEED, mintKey.toBuffer] programId

/-- The function `findUserStakingInfoPDA(userWallet)`. -/
def findUserStakingInfoPDA {α : Type} (derive : List Buffer → PublicKey → Except JsError α)
    (userWallet : KeyArg) : Except JsError α := do
  let walletKey ← userWallet.toKey
  let programId ← newPublicKey PROGRAM_ID
  derive [USER_STAKING_SEED, walletKey.toBuffer] programId

/-- The function `findRewardVaultAuthorityPDA()`. -/
def findRewardVaultAuthorityPDA {α : Type} (derive : List Buffer → PublicKey → Except JsError α) :
    Except JsError α := do
  let programId ← newPublicKey PROGRAM_ID
  derive [REWARD_VAULT_AUTHORITY_SEED] programId

/-- The function `findSocialActivityPDA(userWallet)`. -/
def findSocialActivityPDA {α : Type} (derive : List Buffer → PublicKey → Except JsError α)
    (userWallet : KeyArg) : Except JsError α := do
  let walletKey ← userWallet.toKey
  let programId ← newPublicKey PROGRAM_ID
  derive [SOCIAL_SEED, walletKey.toBuffer] programId

/-- The function `findActivityProofPDA(userWallet, activityId)`. -/
def findActivityProofPDA {α : Type} (derive : List Buffer → PublicKey → Except JsError α)
    (userWallet : KeyArg) (activityId : String) : Except JsError α := do
  let walletKey ← userWallet.toKey
  let programId ← newPublicKey PROGRAM_ID
  derive [PROOF_SEED, walletKey.toBuffer, utf8 activityId] programId

/-- The function `findVotePDA(userWallet, proposalKey)`. -/
def findVotePDA {α : Type} (derive : List Buffer → PublicKey → Except JsError α)
    (userWallet proposalKey : KeyArg) : Except JsError α := do
  let walletKey ← userWallet.toKey
  let proposalPubkey ← proposalKey.toKey
  let programId ← newPublicKey PROGRAM_ID
  derive [VOTE_SEED, walletKey.toBuffer, proposalPubkey.toBuffer] programId

/-! ## `check-pool-seed.js` -/

/-- The two comparisons that `checkPoolState` prints: whether the address derived from the seed
`pool_state` has the text of `targetPDA`, and whether the address derived from the seed `pool`
has it. -/
def checkPoolState_matches : Except JsError (Bool × Bool) := do
  let programId ← newPublicKey "4SfUyQkbeyz9jeJDsR5XiUf8DATVZJXtGG4JUsYsWzTs"
  let (poolStatePDA, _) ← findProgramAddressSync [utf8 "pool_state"] programId
  let (wrongPDA, _) ← findProgramAddressSync [utf8 "pool"] programId
  let targetPDA := "8cQViUpNWGhw2enYUNyp2WRWXAwdQbZokiATBr1Xc5uP"
  pure (poolStatePDA.toBase58 == targetPDA, wrongPDA.toBase58 == targetPDA)

/-! ## `shared/utils/transaction.js` -/

/-- One entry of an instruction's `keys` array. -/
structure AccountMeta where
  pubkey : PublicKey
  isSigner : Bool
  isWritable : Bool
  deriving DecidableEq

/-- A `TransactionInstruction`. -/
structure TransactionInstruction where
  keys : List AccountMeta
  programId : PublicKey
  data : Buffer
  deriving DecidableEq

/-- The library constant `SystemProgram.programId`, `11111111111111111111111111111111`. -/
def SystemProgram_programId : PublicKey := ⟨List.replicate 32 0, by decide⟩

/-- The library constant `TOKEN_PROGRAM_ID`, `TokenkegQfeZyiNwAJbNbGKPFXCWuBvf9Ss623VQ5DA`. -/
def TOKEN_PROGRAM_ID : PublicKey :=
  ⟨[6, 221, 246, 225, 215, 101, 161, 147, 217, 203, 225, 70, 206, 235, 121, 172,
    28, 180, 133, 237, 95, 91, 55, 145, 58, 140, 245, 133, 126, 255, 0, 169], by decide⟩

/-- The library constant `ASSOCIATED_TOKEN_PROGRAM_ID`,
`ATokenGPvbdGVxr1b2hvZbsiqW5xWH25efTNsLJA8knL`. -/
def ASSOCIATED_TOKEN_PROGRAM_ID : PublicKey :=
  ⟨[140, 151, 37, 143, 78, 36, 137, 241, 187, 61, 16, 41, 20, 142, 13, 131,
    11, 90, 19, 153, 218, 255, 16, 132, 4, 142, 123, 216, 219, 233, 248, 89], by decide⟩

/-- The text of the rent sysvar address used by the builders. -/
def SYSVAR_RENT : String := "SysvarRent111111111111111111111111111111111"

/-- The `accounts` argument of the stake and unstake builders. -/
structure StakeAccounts where
  stakeInfo : PublicKey
  escrowTokenAccount : PublicKey
  escrowAuthority : PublicKey
  userTokenAccount : PublicKey
  userStakingInfo : PublicKey

/-- The `accounts` argument of the claim builder. -/
structure ClaimAccounts where
  stakeInfo : PublicKey
  poolState : PublicKey
  userStakingInfo : PublicKey
  rewardVault : PublicKey
  rewardVaultAuthority : PublicKey
  userTokenAccount : PublicKey

/-- The function `createStakeNftInstruction(owner, nftMint, poolState, stakingPeriod, nftTier,
autoCompound, accounts)`. -/
def createStakeNftInstruction (owner nftMint poolState : PublicKey)
    (stakingPeriod nftTier : Int) (autoCompound : Bool) (accounts : StakeAccounts) :
    Except JsError TransactionInstruction := do
  let stakingPeriodBuf ← writeBigUInt64LE stakingPeriod
  let nftTierBuf := bufferFrom [nftTier]
  let autoCompoundBuf := bufferFrom [if autoCompound then 1 else 0]
  let data := bufferConcat
    [tableGet INSTRUCTION_DISCRIMINATORS "STAKE_NFT", stakingPeriodBuf, nftTierBuf, autoCompoundBuf]
  let rent ← newPublicKey SYSVAR_RENT
  let keys : List AccountMeta :=
    [⟨owner, true, true⟩,
     ⟨nftMint, false, false⟩,
     ⟨accounts.stakeInfo, false, true⟩,
     ⟨accounts.escrowTokenAccount, false, true⟩,
     ⟨accounts.escrowAuthority, false, false⟩,
     ⟨accounts.userTokenAccount, false, true⟩,
     ⟨accounts.userStakingInfo, false, true⟩,
     ⟨poolState, false, true⟩,
     ⟨SystemProgram_programId, false, false⟩,
     ⟨TOKEN_PROGRAM_ID, false, false⟩,
     ⟨rent, false, false⟩]
  let programId ← newPublicKey PROGRAM_ID
  pure ⟨keys, programId, data⟩

/-- The function `createUnstakeNftInstruction(owner, nftMint, poolState, accounts)`. -/
def createUnstakeNftInstruction (owner nftMint poolState : PublicKey)
    (accounts : StakeAccounts) : Except JsError TransactionInstruction := do
  let data := tableGet INSTRUCTION_DISCRIMINATORS "UNSTAKE_NFT"
  let rent ← newPublicKey SYSVAR_RENT
  let keys : List AccountMeta :=
    [⟨owner, true, true⟩,
     ⟨nftMint, false, false⟩,
     ⟨accounts.stakeInfo, false, true⟩,
     ⟨accounts.escrowTokenAccount, false, true⟩,
     ⟨accounts.escrowAuthority, false, false⟩,
     ⟨accounts.userTokenAccount, true, true⟩,
     ⟨accounts.userStakingInfo, false, true⟩,
     ⟨poolState, false, true⟩,
     ⟨SystemProgram_programId, false, false⟩,
     ⟨TOKEN_PROGRAM_ID, false, false⟩,
     ⟨ASSOCIATED_TOKEN_PROGRAM_ID, false, false⟩,
     ⟨rent, false, false⟩]
  let programId ← newPublicKey PROGRAM_ID
  pure ⟨keys, programId, data⟩

/-- The function `createClaimRewardsInstruction(user, nftMint, rewardMint, accounts)`. -/
def createClaimRewardsInstruction (user nftMint rewardMint : PublicKey)
    (accounts : ClaimAccounts) : Except JsError TransactionInstruction := do
  let data := tableGet INSTRUCTION_DISCRIMINATORS "CLAIM_REWARDS"
  let rent ← newPublicKey SYSVAR_RENT
  let keys : List AccountMeta :=
    [⟨user, true, true⟩,
     ⟨nftMint, false, false⟩,
     ⟨accounts.stakeInfo, false, true⟩,
     ⟨accounts.poolState, false, true⟩,
     ⟨accounts.userStakingInfo, false, false⟩,
     ⟨accounts.rewardVault, false, true⟩,
     ⟨accounts.rewardVaultAuthority, false, false⟩,
     ⟨accounts.userTokenAccount, false, true⟩,
     ⟨rewardMint, false, false⟩,
     ⟨SystemProgram_programId, false, false⟩,
     ⟨TOKEN_PROGRAM_ID, false, false⟩,
     ⟨ASSOCIATED_TOKEN_PROGRAM_ID, false, false⟩,
     ⟨rent, false, false⟩]
  let programId ← newPublicKey PROGRAM_ID
  pure ⟨keys, programId, data⟩

/-- The function `createInitUserStakingInfoInstruction(user, userStakingInfo)`. -/
def createInitUserStakingInfoInstruction (user userStakingInfo : PublicKey) :
    Except JsError TransactionInstruction := do
  let data := tableGet INSTRUCTION_DISCRIMINATORS "INIT_USER_STAKING_INFO"
  let keys : List AccountMeta :=
    [⟨user, true, true⟩,
     ⟨userStakingInfo, false, true⟩,
     ⟨SystemProgram_programId, false, false⟩]
  let programId ← newPublicKey PROGRAM_ID
  pure ⟨keys, programId, data⟩

/-! ## `shared/utils/error-codes.js` -/

/-- One entry of the error tables: the code name and the message. -/
structure ErrorInfo where
  code : String
  message : String
  deriving DecidableEq, Repr

/-- The table `ERROR_CODES`: program error number, code name and message. -/
def ERROR_CODES : List (Nat × ErrorInfo) :=
  [(6000, ⟨"NotStaked", "NFT가 스테이킹되지 않았습니다"⟩),
   (6001, ⟨"NotOwner", "NFT의 소유자가 아닙니다"⟩),
   (6002, ⟨"NotAdmin", "관리자 권한이 없습니다"⟩),
   (6003, ⟨"PoolPaused", "스테이킹 풀이 일시 중지되었습니다"⟩),
   (6004, ⟨"StakingPeriodNotCompleted", "스테이킹 기간이 아직 완료되지 않았습니다"⟩),
   (6005, ⟨"InvalidNftTier", "유효하지 않은 NFT 등급입니다"⟩),
   (6006, ⟨"InvalidStakingPeriod", "유효하지 않은 스테이킹 기간입니다"⟩),
   (6007, ⟨"MaxNftsExceeded", "사용자당 최대 NFT 수를 초과했습니다"⟩),
   (6008, ⟨"InvalidMint", "유효하지 않은 토큰 민트입니다"⟩),
   (6009, ⟨"InvalidVault", "유효하지 않은 보상 볼트입니다"⟩),
   (6010, ⟨"InsufficientRewardBalance", "보상 잔액이 부족합니다"⟩),
   (6011, ⟨"ClaimTooSoon", "이전 청구 후 너무 빨리 청구를 요청했습니다"⟩),
   (6012, ⟨"ArithmeticError", "계산 오류가 발생했습니다"⟩),
   (6013, ⟨"InvalidVotingParams", "유효하지 않은 투표 매개변수입니다"⟩),
   (6014, ⟨"InsufficientVotingPower", "투표력이 부족합니다"⟩),
   (6015, ⟨"VotingPeriodNotActive", "투표 기간이 활성화되지 않았습니다"⟩),
   (6016, ⟨"AlreadyVoted", "이미 이 제안에 투표했습니다"⟩),
   (6017, ⟨"CannotExecuteProposal", "제안을 실행할 수 없습니다"⟩),
   (6018, ⟨"ProposalAlreadyExecuted", "제안이 이미 실행되었습니다"⟩),
   (6019, ⟨"ProposalAlreadyCancelled", "제안이 이미 취소되었습니다"⟩),
   (6020, ⟨"InvalidProposalStatus", "유효하지 않은 제안 상태입니다"⟩),
   (6021, ⟨"SocialVerificationNotAvailable", "소셜 검증을 사용할 수 없습니다"⟩),
   (6022, ⟨"InvalidVerificationProof", "유효하지 않은 검증 증명입니다"⟩),
   (6023, ⟨"CooldownNotElapsed", "쿨다운 기간이 경과하지 않았습니다"⟩),
   (6024, ⟨"DailyLimitReached", "일일 한도에 도달했습니다"⟩),
   (6025, ⟨"NotAuthorized", "이 작업에 대한 권한이 없습니다"⟩)]

/-- The table `SOLANA_ERROR_CODES`: wallet and network error number, code name and message. -/
def SOLANA_ERROR_CODES : List (Nat × ErrorInfo) :=
  [(4001, ⟨"UserRejected", "사용자가 트랜잭션을 취소했습니다"⟩),
   (4100, ⟨"Unauthorized", "권한이 없는 요청입니다"⟩),
   (4900, ⟨"DisconnectedFromChain", "체인 연결이 끊겼습니다"⟩),
   (4901, ⟨"ChainDisconnected", "체인이 연결되지 않았습니다"⟩),
   (32000, ⟨"UserRejectedRequest", "사용자가 요청을 거부했습니다"⟩),
   (32002, ⟨"MethodNotFound", "지원되지 않는 메서드입니다"⟩),
   (32601, ⟨"MethodNotFound", "지원되지 않는 메서드입니다"⟩),
   (32603, ⟨"InternalError", "내부 오류가 발생했습니다"⟩)]

/-- The table `CLIENT_ERROR_CODES`, keyed by error type. -/
def CLIENT_ERROR_CODES : List (String × ErrorInfo) :=
  [("WalletNotConnected", ⟨"WalletNotConnected", "지갑이 연결되지 않았습니다. 지갑을 연결하세요"⟩),
   ("InsufficientFunds", ⟨"InsufficientFunds", "SOL 잔액이 부족합니다. 지갑에 SOL을 충전하세요"⟩),
   ("NetworkError", ⟨"NetworkError", "Solana 네트워크 연결 실패. 네트워크 연결을 확인하세요"⟩),
   ("BlockhashExpired", ⟨"BlockhashExpired", "트랜잭션 타임아웃. 다시 시도하세요"⟩),
   ("SimulationError", ⟨"SimulationError", "트랜잭션 시뮬레이션 실패. 다시 시도하세요"⟩)]

/-! ## `shared/utils/error-handler.js` -/

/-- The property `error.code`: absent, a number or a string. -/
inductive JsCode where
  | undefined
  | num (v : Int)
  | str (s : String)
  deriving DecidableEq, Repr

/-- JavaScript truthiness of a code: `undefined`, `0` and the empty string are falsy. -/
def JsCode.truthy : JsCode → Bool
  | .undefined => false
  | .num v => v != 0
  | .str s => s != ""

/-- The object `error.error.errorCode`, with its property `number`. -/
structure ErrorCodeObj where
  number : JsValue
  deriving DecidableEq, Repr

/-- The object `error.error`; `errorCode` is `none` when the property is missing. -/
structure AnchorError where
  errorCode : Option ErrorCodeObj
  deriving DecidableEq, Repr

/-- An error object, with the properties that `getErrorMessage` reads; `none` stands for a
missing property. -/
structure ErrorObj where
  error : Option AnchorError
  logs : Option (List String)
  code : JsCode
  message : Option String
  deriving DecidableEq, Repr

/-- The argument of `getErrorMessage`: an object, or a value that is not an object (`null`,
`undefined`, a string, a number), on which every property read yields `undefined`. -/
inductive ErrorArg where
  | nonObject
  | obj (e : ErrorObj)
  deriving DecidableEq, Repr

/-- The method `s.includes(p)`: `p` occurs in `s` as a contiguous substring. -/
def includes (s p : String) : Bool := decide (p.data <:+: s.data)

/-- The lookup `TABLE[key]` for a numeric table and an integer key. -/
def tableLookupInt (table : List (Nat × ErrorInfo)) : Int → Option ErrorInfo
  | .ofNat n => table.lookup n
  | .negSucc _ => none

/-- The value of a property read `TABLE[key]` on an error table, which is written as an
object literal. -/
inductive TableEntry where
  /-- No property of that name: `undefined`. -/
  | absent
  /-- An entry of the table. -/
  | own (info : ErrorInfo)
  /-- A member inherited from `Object.prototype`, a function or an object: it is truthy and
  its property `message` is `undefined`. -/
  | inherited
  deriving DecidableEq, Repr

/-- The lookup `TABLE[code]` for a numeric table and the value of `error.code`: the key is the
decimal text of a number, or the string itself; a string that is no key of the table and
names a member of `Object.prototype` finds that member. -/
def tableLookupCode (table : List (Nat × ErrorInfo)) : JsCode → TableEntry
  | .undefined => .absent
  | .num v =>
    match tableLookupInt table v with
    | some info => .own info
    | none => .absent
  | .str s =>
    match table.find? (fun entry => toString entry.1 == s) with
    | some entry => .own entry.2
    | none => if s ∈ OBJECT_PROTOTYPE_KEYS then .inherited else .absent

/-- The text `Error Number: ` that starts the pattern of the log scan. -/
def errorNumberLead : List Char := "Error Number: ".data

/-- The first capture group of `log.match(/Error Number: (\d+)/)`: the digits that follow the
leftmost occurrence of `Error Number: ` that is followed by a digit; `none` when no position
matches. -/
def matchErrorNumber : List Char → Option (List Char)
  | [] => none
  | c :: cs =>
    let digits := ((c :: cs).drop errorNumberLead.length).takeWhile Char.isDigit
    if errorNumberLead.isPrefixOf (c :: cs) && !digits.isEmpty then some digits
    else matchErrorNumber cs

/-- The value of `parseInt` on a string of decimal digits. -/
def parseDigits (digits : List Char) : Nat :=
  digits.foldl (fun n c => 10 * n + (c.toNat - 48)) 0

/-- The body of the loop over `error.logs`: the message returned for the line `log`, `none`
when the loop goes on to the next line. -/
def logLineMessage (log : String) : Option String :=
  if includes log "Error Code:" then
    match matchErrorNumber log.data with
    | some digits => (ERROR_CODES.lookup (parseDigits digits)).map (fun info => info.message)
    | none => none
  else none

/-- The message that the analysis of `error.message` returns, `none` when no pattern occurs. -/
def messagePatternMessage (message : String) : Option String :=
  if includes message "insufficient funds" || includes message "0x1" then
    (CLIENT_ERROR_CODES.lookup "InsufficientFunds").map (fun info => info.message)
  else if includes message "failed to fetch" || includes message "network" then
    (CLIENT_ERROR_CODES.lookup "NetworkError").map (fun info => info.message)
  else if includes message "blockhash" then
    (CLIENT_ERROR_CODES.lookup "BlockhashExpired").map (fun info => info.message)
  else if includes message "simulation failed" || includes message "SimulationError" then
    (CLIENT_ERROR_CODES.lookup "SimulationError").map (fun info => info.message)
  else none

/-- The fixed text returned when nothing else applies. -/
def UNKNOWN_ERROR_MESSAGE : String := "알 수 없는 오류가 발생했습니다"

/-- The function `getErrorMessage(error)`; `none` stands for the result `undefined`, which
is what `SOLANA_ERROR_CODES[error.code].message` is when the code names an inherited member. -/
def getErrorMessage (error : ErrorArg) : Option String :=
  match error with
  | .nonObject => some UNKNOWN_ERROR_MESSAGE
  | .obj e =>
    let programError : Option ErrorInfo :=
      match e.error with
      | some ⟨some ⟨.int code⟩⟩ => tableLookupInt ERROR_CODES code
      | _ => none
    match programError with
    | some info => some info.message
    | none =>
      match (e.logs.getD []).findSome? logLineMessage with
      | some message => some message
      | none =>
        match (if e.code.truthy then tableLookupCode SOLANA_ERROR_CODES e.code
          else .absent) with
        | .own info => some info.message
        | .inherited => none
        | .absent =>
          let clientError : Option ErrorInfo :=
            match e.code with
            | .str s => CLIENT_ERROR_CODES.lookup s
            | _ => none
          match clientError with
          | some info => some info.message
          | none =>
            let message := e.message.getD ""
            match (if message != "" then messagePatternMessage message else none) with
            | some text => some text
            | none => some (if message != "" then message else UNKNOWN_ERROR_MESSAGE)


/-- Specification of the log scan: `digits` is the first group `Error Number: <digits>` of the
line, that is, the line is `before ++ "Error Number: " ++ digits ++ after` with `digits` a
non-empty run of decimal digits that `after` does not continue, and no earlier position of the
line has `Error Number: ` followed by a digit. -/
def FirstErrorNumber (line digits : List Char) : Prop :=
  ∃ before after, line = before ++ errorNumberLead ++ digits ++ after ∧ digits ≠ [] ∧
    (∀ c ∈ digits, c.isDigit = true) ∧ (∀ c, after.head? = some c → c.isDigit = false) ∧
    ∀ before' d after', line = before' ++ errorNumberLead ++ d :: after' → d.isDigit = true →
      before.length ≤ before'.length

/-! ## JavaScript numbers

A finite JavaScript number is the rational it denotes. An arithmetic operation returns the
IEEE 754 double nearest to the exact result, ties going to the even significand; the model
covers the normal range (magnitudes from `2^-1022` up to the largest double), which holds every
value that the embedded code computes. -/

/-- The number of binary digits of `n`: the least `k` with `n < 2^k`; `fuel` bounds the
recursion and `n` itself is enough. -/
def bitLength : Nat → Nat → Nat
  | 0, _ => 0
  | fuel + 1, n => if n = 0 then 0 else bitLength fuel (n / 2) + 1

/-- The binary exponent of a non-zero rational `a`: the integer `e` with
`2^e ≤ |a| < 2^(e+1)`. -/
def binaryExponent (a : ℚ) : ℤ :=
  let k : ℤ := (bitLength a.num.natAbs a.num.natAbs : ℤ) - (bitLength a.den a.den : ℤ)
  if (2 : ℚ) ^ k ≤ |a| then k else k - 1

/-- Rounding to the nearest integer, ties to the even one. -/
def roundHalfEven (x : ℚ) : ℤ :=
  let f := ⌊x⌋
  if x - f < 1 / 2 then f
  else if 1 / 2 < x - f then f + 1
  else if f % 2 = 0 then f else f + 1

/-- The double nearest to `q`: `q` is scaled to a significand of 53 bits, which is rounded to
the nearest integer, ties to even. -/
def toDouble (q : ℚ) : ℚ :=
  if q = 0 then 0
  else
    let e := binaryExponent q
    roundHalfEven (q / 2 ^ (e - 52)) * 2 ^ (e - 52)


/-- The operation `a + b`. -/
def jsAdd (a b : ℚ) : ℚ := toDouble (a + b)

/-- The operation `a - b`. -/
def jsSub (a b : ℚ) : ℚ := toDouble (a - b)

/-- The operation `a * b`. -/
def jsMul (a b : ℚ) : ℚ := toDouble (a * b)

/-- The operation `a / b` for a divisor that is not zero. A division by zero gives
`Infinity`, `-Infinity` or `NaN`, which are no rationals: a function that can divide by zero
tests the divisor before it comes here. -/
def jsDiv (a b : ℚ) : ℚ := toDouble (a / b)

/-- The function `Math.floor`. -/
def mathFloor (x : ℚ) : ℚ := (⌊x⌋ : ℤ)

/-- The function `Math.round`: the nearest integer, a tie going up. -/
def mathRound (x : ℚ) : ℚ := (⌊x + 1 / 2⌋ : ℤ)

/-! ## `pages/api/staking/prepareUnstaking.js` -/

/-- A row of the table `nft_staking`, with the fields that the reward and penalty functions
read: times in seconds, the period in days; `none` stands for a missing or null field. -/
structure StakingInfo where
  staked_at : ℚ
  release_date : ℚ
  staking_period : ℚ
  earned_so_far : Option ℚ
  daily_reward_rate : Option ℚ

/-- The object returned by `calculateEarlyUnstakingPenalty`. -/
structure PenaltyInfo where
  isPremature : Bool
  earnedRewards : ℚ
  penaltyPercentage : ℚ
  penaltyAmount : ℚ
  finalReward : ℚ
  daysRemaining : ℚ
  deriving DecidableEq

/-- The function `calculateDaysElapsed(startTimestamp, endTimestamp)`. -/
def calculateDaysElapsed (startTimestamp endTimestamp : ℚ) : ℚ :=
  let secondsInDay : ℚ := 24 * 60 * 60
  mathFloor (jsDiv (jsSub endTimestamp startTimestamp) secondsInDay)

/-- The function `calculateEarlyUnstakingPenalty(stakingInfo)`; `now` is the value of
`Math.floor(Date.now() / 1000)`. For `staking_period` 0 the quotient
`elapsedDays / totalDays` is `Infinity`, `-Infinity` or `NaN`: `Math.min(1, Math.max(0, x))`
turns `Infinity` into the ratio 1 and `-Infinity` into 0; `NaN` arises for 0 elapsed days only,
where the test `elapsedDays < 7` overwrites the percentage with 50, whatever the ratio. -/
def calculateEarlyUnstakingPenalty (now : ℚ) (stakingInfo : StakingInfo) : PenaltyInfo :=
  let earned : ℚ := stakingInfo.earned_so_far.getD 0
  if stakingInfo.release_date ≤ now then
    { isPremature := false, earnedRewards := earned, penaltyPercentage := 0, penaltyAmount := 0,
      finalReward := earned, daysRemaining := 0 }
  else
    let daysRemaining := calculateDaysElapsed now stakingInfo.release_date
    let totalDays := stakingInfo.staking_period
    let elapsedDays := calculateDaysElapsed stakingInfo.staked_at now
    let completionRatio : ℚ :=
      if totalDays = 0 then (if 0 < elapsedDays then 1 else 0)
      else min 1 (max 0 (jsDiv elapsedDays totalDays))
    let penaltyPercentage₀ : ℚ :=
      if completionRatio < 1 / 2 then 50
      else mathRound (jsSub 50 (jsMul (jsSub completionRatio (1 / 2)) 100))
    let penaltyPercentage : ℚ := if elapsedDays < 7 then 50 else penaltyPercentage₀
    let earnedRewards := earned
    let penaltyAmount := mathFloor (jsMul earnedRewards (jsDiv penaltyPercentage 100))
    let finalReward := jsSub earnedRewards penaltyAmount
    { isPremature := true, earnedRewards := earnedRewards, penaltyPercentage := penaltyPercentage,
      penaltyAmount := penaltyAmount, finalReward := finalReward, daysRemaining := daysRemaining }

/-! ## Node runtime: base64 text of a buffer -/

/-- The base64 alphabet. -/
def base64Alphabet : List Char :=
  "ABCDEFGHIJKLMNOPQRSTUVWXYZabcdefghijklmnopqrstuvwxyz0123456789+/".data

/-- The character of a six-bit group. -/
def base64Char (i : Nat) : Char := base64Alphabet.getD i 'A'

/-- The characters of `buffer.toString('base64')`: three bytes give four characters, a tail
of one or two bytes is padded with `=`. -/
def base64Encode : Buffer → List Char
  | a :: b :: c :: rest =>
    base64Char (a / 4) :: base64Char (a % 4 * 16 + b / 16) :: base64Char (b % 16 * 4 + c / 64)
      :: base64Char (c % 64) :: base64Encode rest
  | [a, b] => [base64Char (a / 4), base64Char (a % 4 * 16 + b / 16), base64Char (b % 16 * 4), '=']
  | [a] => [base64Char (a / 4), base64Char (a % 4 * 16), '=', '=']
  | [] => []

/-- The call `buffer.toString('base64')`. -/
def toStringBase64 (b : Buffer) : String := String.mk (base64Encode b)

/-- The six-bit group of a character for the Node decoder, which reads the URL-safe
characters `-` and `_` as well; `none` for any other character. -/
def base64Sextet (c : Char) : Option Nat :=
  if c.isUpper then some (c.toNat - 65)
  else if c.isLower then some (c.toNat - 97 + 26)
  else if c.isDigit then some (c.toNat - 48 + 52)
  else if c == '+' || c == '-' then some 62
  else if c == '/' || c == '_' then some 63
  else none

/-- The bytes of a sequence of six-bit groups: four groups give three bytes, a tail of two
or three groups gives one or two bytes, a tail of one group gives none. -/
def base64DecodeSextets : List Nat → Buffer
  | s0 :: s1 :: s2 :: s3 :: rest =>
    (s0 * 4 + s1 / 16) :: (s1 % 16 * 16 + s2 / 4) :: (s2 % 4 * 64 + s3)
      :: base64DecodeSextets rest
  | [s0, s1, s2] => [s0 * 4 + s1 / 16, s1 % 16 * 16 + s2 / 4]
  | [s0, s1] => [s0 * 4 + s1 / 16]
  | _ => []

/-- The six-bit groups the Node decoder reads in a text: it stops at the first `=` and skips
every other character that is not of the alphabet. -/
def sextetsOf (l : List Char) : List Nat :=
  (l.takeWhile (fun c => c != '=')).filterMap base64Sextet

/-- The call `Buffer.from(string, 'base64')`. -/
def bufferFromBase64 (s : String) : Buffer := base64DecodeSextets (sextetsOf s.data)

/-- The character class `[A-Za-z0-9+/]`. -/
def isBase64Char (c : Char) : Bool :=
  c.isUpper || c.isLower || c.isDigit || c == '+' || c == '/'

/-- The test of the regular expression `/^[A-Za-z0-9+/]*={0,2}$/`: after the longest run of
characters of the class, nothing or one or two `=` are left. -/
def base64Regex (s : String) : Bool :=
  let rest := s.data.dropWhile isBase64Char
  rest == [] || rest == ['='] || rest == ['=', '=']

/-- The format the regular expression stands for: characters of the base64 alphabet followed
by at most two `=`. -/
def MatchesBase64Pattern (s : String) : Prop :=
  ∃ body pad, s.data = body ++ pad ∧ (∀ c ∈ body, c ∈ base64Alphabet) ∧
    (pad = [] ∨ pad = ['='] ∨ pad = ['=', '='])


/-! ## `shared/utils/transaction-utils.js` and `utils/transaction-utils-client.js` -/

/-- The argument of `Transaction.serialize`. -/
structure SerializeConfig where
  requireAllSignatures : Bool
  verifySignatures : Bool
  deriving DecidableEq, Repr

/-- The `options` argument of the utilities: each property is a boolean or is missing. -/
structure SerializeOptions where
  requireAllSignatures : Option Bool
  verifySignatures : Option Bool
  deriving DecidableEq, Repr

/-- An entry of `transaction.signatures`: the signature is `null` until the key has signed. -/
structure SignaturePubkeyPair where
  signature : Option Buffer
  publicKey : PublicKey
  deriving DecidableEq

/-- The errors the transaction utilities throw: a plain `new Error(message)`, a `TypeError` of
the runtime, and the error built in the `catch` blocks, which carries the property `code`, the
message of the error caught (`originalError`) and, in the client version, `transactionLength`. -/
inductive UtilError where
  | plain (message : String)
  | typeError
  | enhanced (message code originalMessage : String) (transactionLength : Option Nat)
  deriving DecidableEq, Repr

/-- What `serializeTransaction` reads of an object that has a `serialize` property: the
property `signatures`, missing or an array, and the method `serialize`, which returns a buffer
or throws an error with a message. -/
structure TransactionObject where
  signatures : Option (List SignaturePubkeyPair)
  serialize : SerializeConfig → Except String Buffer

/-- The `transaction` argument of `serializeTransaction`. -/
inductive TransactionArg where
  /-- A value for which `!transaction` holds. -/
  | falsy
  /-- A value that is not an object, or an object without `serialize`. -/
  | notTransaction
  | object (t : TransactionObject)

/-- The message of the error built in the `catch` block of `serializeTransaction`. -/
def serializeErrorMessage (message : String) : String :=
  if includes message "failed to serialize" then
    "트랜잭션 직렬화에 실패했습니다: 형식이 잘못되었습니다"
  else if includes message "not signed" then
    "서명되지 않은 트랜잭션을 직렬화할 수 없습니다 (requireAllSignatures가 true로 설정됨)"
  else if includes message "signature verification failed" then
    "서명 검증에 실패했습니다 (verifySignatures가 true로 설정됨)"
  else "트랜잭션 직렬화 실패" ++ ": " ++ message

/-- The function `serializeTransaction(transaction, options)` of
`shared/utils/transaction-utils.js`. The warnings it prints do not change the result;
`transaction.signatures.every` is a `TypeError` on an object without `signatures`. -/
def serializeTransaction (transaction : TransactionArg) (options : SerializeOptions) :
    Except UtilError String :=
  match transaction with
  | .falsy => .error (.plain "직렬화 실패: 트랜잭션 객체가 없습니다")
  | .notTransaction => .error (.plain "직렬화 실패: 유효한 트랜잭션 객체가 아닙니다")
  | .object t =>
    match t.signatures with
    | none => .error .typeError
    | some _ =>
      let serializationOptions : SerializeConfig :=
        ⟨options.requireAllSignatures.getD false, options.verifySignatures.getD false⟩
      let attempt : Except String String :=
        match t.serialize serializationOptions with
        | .error message => .error message
        | .ok serialized =>
          if serialized.length > 1232 then
            .error ("직렬화된 트랜잭션 크기가 Solana 한도를 초과합니다 ("
              ++ toString serialized.length ++ "/1232 바이트)")
          else .ok (toStringBase64 serialized)
      match attempt with
      | .ok base64 => .ok base64
      | .error message =>
        .error (.enhanced (serializeErrorMessage message) "TRANSACTION_SERIALIZE_ERROR"
          message none)

/-- The function `serializeTransactionForClientSigning(transaction)`. -/
def serializeTransactionForClientSigning (transaction : TransactionArg) :
    Except UtilError String :=
  serializeTransaction transaction ⟨some false, some false⟩

/-- The function `serializeTransactionWithSignatures(transaction)`. -/
def serializeTransactionWithSignatures (transaction : TransactionArg) :
    Except UtilError String :=
  serializeTransaction transaction ⟨some true, some true⟩

/-- The `base64Transaction` argument of `deserializeTransaction`: `undefined`, `null`, a
string, or a value of another type, given by the text of `typeof` and by its truthiness. -/
inductive JsArg where
  | undefined
  | null
  | str (s : String)
  | other (typeName : String) (truthy : Bool)
  deriving DecidableEq, Repr

/-- The truthiness of an argument: `undefined`, `null` and the empty string are falsy. -/
def JsArg.truthy : JsArg → Bool
  | .undefined => false
  | .null => false
  | .str s => s != ""
  | .other _ t => t

/-- The message of the error built in the `catch` block of the server `deserializeTransaction`. -/
def deserializeErrorMessage (message : String) : String :=
  if includes message "index out of bounds" then
    "트랜잭션 데이터 형식이 잘못되었습니다 (인덱스 범위 초과)"
  else if includes message "Invalid buffer" then "유효하지 않은 트랜잭션 데이터 버퍼입니다"
  else if includes message "Unsupported header" then "지원되지 않는 트랜잭션 헤더입니다"
  else if includes message "not a base64 string" then "유효한 Base64 인코딩 문자열이 아닙니다"
  else "트랜잭션 역직렬화 실패" ++ ": " ++ message

/-- The function `deserializeTransaction(base64Transaction)` of
`shared/utils/transaction-utils.js`, over the library call `Transaction.from`, which returns a
transaction or throws an error with a message. -/
def deserializeTransaction {α : Type} (transactionFrom : Buffer → Except String α)
    (base64Transaction : JsArg) : Except UtilError α :=
  if !base64Transaction.truthy then .error (.plain "역직렬화 실패: 트랜잭션 데이터가 없습니다")
  else
    match base64Transaction with
    | .str s =>
      if !base64Regex s then .error (.plain "역직렬화 실패: 유효하지 않은 Base64 형식입니다")
      else
        let buffer := bufferFromBase64 s
        let attempt : Except String α :=
          if buffer.length < 10 then
            .error ("역직렬화 실패: 트랜잭션 데이터가 너무 짧습니다 ("
              ++ toString buffer.length ++ " 바이트)")
          else if buffer.length > 1232 then
            .error ("역직렬화 실패: 트랜잭션 크기가 Solana 한도를 초과합니다 ("
              ++ toString buffer.length ++ "/1232 바이트)")
          else transactionFrom buffer
        match attempt with
        | .ok tx => .ok tx
        | .error message =>
          .error (.enhanced (deserializeErrorMessage message) "TRANSACTION_DESERIALIZE_ERROR"
            message none)
    | .undefined => .error (.plain
        "역직렬화 실패: 트랜잭션은 문자열이어야 합니다. 현재 타입: undefined")
    | .null => .error (.plain "역직렬화 실패: 트랜잭션은 문자열이어야 합니다. 현재 타입: object")
    | .other typeName _ => .error (.plain
        ("역직렬화 실패: 트랜잭션은 문자열이어야 합니다. 현재 타입: " ++ typeName))

/-- The message of the error built in the `catch` block of the client `deserializeTransaction`. -/
def deserializeErrorMessage_client (message : String) : String :=
  if includes message "index out of bounds" then
    "Transaction data is malformed (index out of bounds)"
  else if includes message "Invalid buffer" then "Invalid transaction data buffer"
  else if includes message "Unsupported header" then "Unsupported transaction header"
  else if includes message "not a base64 string" then "Not a valid base64 encoded string"
  else "Failed to deserialize transaction" ++ ": " ++ message

/-- The function `deserializeTransaction(base64Transaction)` of
`utils/transaction-utils-client.js`. The text that passed the regular expression has one
code unit per character, so its `length` is the number of characters. -/
def deserializeTransaction_client {α : Type} (transactionFrom : Buffer → Except String α)
    (base64Transaction : JsArg) : Except UtilError α :=
  if !base64Transaction.truthy then
    .error (.plain "Failed to deserialize: No transaction data provided")
  else
    match base64Transaction with
    | .str s =>
      if !base64Regex s then .error (.plain "Failed to deserialize: Invalid base64 format")
      else
        let buffer := bufferFromBase64 s
        let attempt : Except String α :=
          if buffer.length < 10 then
            .error ("Failed to deserialize: Transaction data too short ("
              ++ toString buffer.length ++ " bytes)")
          else if buffer.length > 1232 then
            .error ("Failed to deserialize: Transaction size exceeds Solana limit ("
              ++ toString buffer.length ++ "/1232 bytes)")
          else transactionFrom buffer
        match attempt with
        | .ok tx => .ok tx
        | .error message =>
          .error (.enhanced (deserializeErrorMessage_client message)
            "TRANSACTION_DESERIALIZE_ERROR" message (some s.length))
    | .undefined => .error (.plain "Failed to deserialize: Expected a string, got undefined")
    | .null => .error (.plain "Failed to deserialize: Expected a string, got object")
    | .other typeName _ => .error (.plain
        ("Failed to deserialize: Expected a string, got " ++ typeName))

/-- The function `serializeTransaction(transaction, options)` of
`utils/transaction-utils-client.js`: a missing option counts as `true`. -/
def serializeTransaction_client (serialize : SerializeConfig → Except String Buffer)
    (options : SerializeOptions) : Except String Buffer :=
  serialize ⟨options.requireAllSignatures.getD true, options.verifySignatures.getD true⟩

/-- The function `isFullySigned(transaction)` of `utils/transaction-utils-client.js`, on the
array `transaction.signatures`. -/
def isFullySigned (signatures : List SignaturePubkeyPair) : Bool :=
  signatures.all (fun signature => signature.signature != none)

/-! ## Library model: the legacy `Transaction` and `Message` of `@solana/web3.js`

The classes `Transaction` and `Message` of `@solana/web3.js` 1.x and the module `shortvec`,
as far as `transaction.serialize(config)` and `Transaction.from(buffer)` go; library code, not
repository code, modelled from the published sources. A transaction here has no `nonceInfo` and
no cached message, as one built with `new Transaction()` and `add`. The account keys of a
message, which the library carries as base58 texts and reads back with `new PublicKey`, are
carried as keys. The collation `localeCompare` of the runtime and the Ed25519 verification
`verify` are arguments. A length is far below `2^31`, where the 32-bit operators of
JavaScript used by `shortvec` agree with the arithmetic on naturals. Where the library would
read `undefined` past the end of its input, the model stops with an error. -/

/-- The loop of `shortvec.encodeLength`: seven bits at a time, low bits first, the bit
`0x80` set on every byte but the last. -/
def encodeLengthAux : Nat → Nat → List Nat
  | 0, len => [len % 128]
  | fuel + 1, len =>
    if len / 128 = 0 then [len % 128] else (len % 128 + 128) :: encodeLengthAux fuel (len / 128)

/-- The function `shortvec.encodeLength(bytes, len)`, as the bytes it pushes. -/
def encodeLength (len : Nat) : List Nat := encodeLengthAux len len

/-- The loop of `shortvec.decodeLength`, with `size` bytes read and `len` the value so far;
`bytes.shift()` on an empty array gives `undefined`, which ends the loop. -/
def decodeLengthAux : List Nat → Nat → Nat → Nat × List Nat
  | [], _, len => (len, [])
  | elem :: rest, size, len =>
    let len' := len + elem % 128 * 128 ^ size
    if elem / 128 % 2 = 0 then (len', rest) else decodeLengthAux rest (size + 1) len'

/-- The function `shortvec.decodeLength(bytes)`: the length and the bytes left. -/
def decodeLength (bytes : List Nat) : Nat × List Nat := decodeLengthAux bytes 0 0

/-- The header of a message. -/
structure MessageHeader where
  numRequiredSignatures : Nat
  numReadonlySignedAccounts : Nat
  numReadonlyUnsignedAccounts : Nat
  deriving DecidableEq, Repr

/-- A `CompiledInstruction`: indices into the account keys, the data as base58 text. -/
structure CompiledInstruction where
  programIdIndex : Nat
  accounts : List Nat
  data : String
  deriving DecidableEq, Repr

/-- A legacy `Message`. -/
structure Message where
  header : MessageHeader
  accountKeys : List PublicKey
  recentBlockhash : String
  instructions : List CompiledInstruction
  deriving DecidableEq

/-- A legacy `Transaction`. -/
structure Transaction where
  signatures : List SignaturePubkeyPair
  feePayer : Option PublicKey
  instructions : List TransactionInstruction
  recentBlockhash : Option String
  deriving DecidableEq

/-- The call `new Transaction()`. -/
def Transaction.new : Transaction := ⟨[], none, [], none⟩

/-- The method `transaction.add(instruction)`. -/
def Transaction.add (tx : Transaction) (instruction : TransactionInstruction) : Transaction :=
  { tx with instructions := tx.instructions ++ [instruction] }

/-- The call `SystemProgram.transfer({fromPubkey, toPubkey, lamports})`: the instruction
index 2 as `u32` and the amount as `u64`, both little-endian. -/
def SystemProgram_transfer (fromPubkey toPubkey : PublicKey) (lamports : Nat) :
    TransactionInstruction :=
  ⟨[⟨fromPubkey, true, true⟩, ⟨toPubkey, false, true⟩], SystemProgram_programId,
    [2, 0, 0, 0] ++ leBytes64 lamports⟩

/-- One step of the culling of duplicate account metas in `compileMessage`: the flags are
merged into the entry with the same key, or the meta is pushed at the end. -/
def mergeMeta (accountMeta : AccountMeta) : List AccountMeta → List AccountMeta
  | [] => [accountMeta]
  | x :: rest =>
    if x.pubkey = accountMeta.pubkey then
      { x with isWritable := x.isWritable || accountMeta.isWritable,
               isSigner := x.isSigner || accountMeta.isSigner } :: rest
    else x :: mergeMeta accountMeta rest

/-- The comparison function of the sort in `compileMessage`: signers first, then writable
accounts, then the base58 texts in the order of `localeCompare`. -/
def compareMetas (localeCompare : String → String → Int) (x y : AccountMeta) : Int :=
  if x.isSigner != y.isSigner then (if x.isSigner then -1 else 1)
  else if x.isWritable != y.isWritable then (if x.isWritable then -1 else 1)
  else localeCompare x.pubkey.toBase58 y.pubkey.toBase58

/-- The step of `compileMessage` that moves the fee payer to the front, as a writable signer. -/
def moveFeePayerFirst (feePayer : PublicKey) (uniqueMetas : List AccountMeta) :
    List AccountMeta :=
  match uniqueMetas.find? (fun x => x.pubkey == feePayer) with
  | some payerMeta =>
    { payerMeta with isSigner := true, isWritable := true }
      :: uniqueMetas.eraseP (fun x => x.pubkey == feePayer)
  | none => ⟨feePayer, true, true⟩ :: uniqueMetas

/-- The entry with the key `publicKey` is made a signer; `none` when there is no such entry. -/
def markSigner (publicKey : PublicKey) : List AccountMeta → Option (List AccountMeta)
  | [] => none
  | x :: rest =>
    if x.pubkey = publicKey then some ({ x with isSigner := true } :: rest)
    else (markSigner publicKey rest).map (fun rest' => x :: rest')

/-- The loop of `compileMessage` over `this.signatures` that refuses unknown signers. -/
def checkSigners : List SignaturePubkeyPair → List AccountMeta → Except String (List AccountMeta)
  | [], uniqueMetas => .ok uniqueMetas
  | signature :: rest, uniqueMetas =>
    match markSigner signature.publicKey uniqueMetas with
    | some uniqueMetas' => checkSigners rest uniqueMetas'
    | none => .error ("unknown signer: " ++ signature.publicKey.toBase58)

/-- The compiled form of one instruction; `indexOf` gives the length of the list for a key
that is absent, where JavaScript gives `-1`. -/
def compileInstruction (accountKeys : List PublicKey) (instruction : TransactionInstruction) :
    CompiledInstruction :=
  ⟨accountKeys.indexOf instruction.programId,
    instruction.keys.map (fun accountMeta => accountKeys.indexOf accountMeta.pubkey),
    bs58encode instruction.data⟩

/-- The start of `compileMessage`: the account metas of the instructions, then one read-only
meta for each program, duplicates culled. -/
def uniqueAccountMetas (instructions : List TransactionInstruction) : List AccountMeta :=
  let programIds := instructions.foldl (fun ids instruction =>
    if ids.contains instruction.programId then ids else ids ++ [instruction.programId]) []
  let accountMetas := instructions.flatMap (fun instruction => instruction.keys)
    ++ programIds.map (fun programId => ⟨programId, false, false⟩)
  accountMetas.foldl (fun metas accountMeta => mergeMeta accountMeta metas) []

/-- The end of `compileMessage`, from the sorted account metas on: the fee payer is moved to
the front, unknown signers are refused, the keys of the signers come first, and the
instructions are compiled to indices, each of which must be found. -/
def compileSortedMetas (tx : Transaction) (recentBlockhash : String) (feePayer : PublicKey)
    (sorted : List AccountMeta) : Except String Message :=
  match checkSigners tx.signatures (moveFeePayerFirst feePayer sorted) with
  | .error e => .error e
  | .ok metas =>
    let signed := metas.filter (fun x => x.isSigner)
    let unsigned := metas.filter (fun x => !x.isSigner)
    let accountKeys := (signed ++ unsigned).map (fun x => x.pubkey)
    let compiledInstructions := tx.instructions.map (compileInstruction accountKeys)
    if compiledInstructions.all (fun instruction =>
        decide (instruction.programIdIndex < accountKeys.length)
          && instruction.accounts.all (fun keyIndex => decide (keyIndex < accountKeys.length)))
    then
      .ok ⟨⟨signed.length, (signed.filter (fun x => !x.isWritable)).length,
          (unsigned.filter (fun x => !x.isWritable)).length⟩,
        accountKeys, recentBlockhash, compiledInstructions⟩
    else .error "Assertion failed"

/-- The method `transaction.compileMessage()`. -/
def compileMessage (localeCompare : String → String → Int) (tx : Transaction) :
    Except String Message :=
  match tx.recentBlockhash with
  | none => .error "Transaction recentBlockhash required"
  | some recentBlockhash =>
    if recentBlockhash = "" then .error "Transaction recentBlockhash required"
    else
      let implicitFeePayer : Option PublicKey :=
        match tx.feePayer with
        | some feePayer => some feePayer
        | none => tx.signatures.head?.map (fun pair => pair.publicKey)
      match implicitFeePayer with
      | none => .error "Transaction fee payer required"
      | some feePayer =>
        compileSortedMetas tx recentBlockhash feePayer
          ((uniqueAccountMetas tx.instructions).insertionSort
            (fun x y => compareMetas localeCompare x y ≤ 0))

/-- The method `transaction._compile()`: the message and the value of `this.signatures`
after the call, which is kept when it lists the signer keys of the message and is replaced
by empty slots for these keys otherwise. -/
def Transaction._compile (localeCompare : String → String → Int) (tx : Transaction) :
    Except String (Message × List SignaturePubkeyPair) :=
  match compileMessage localeCompare tx with
  | .error e => .error e
  | .ok message =>
    let signedKeys := message.accountKeys.take message.header.numRequiredSignatures
    if tx.signatures.map (fun pair => pair.publicKey) = signedKeys then
      .ok (message, tx.signatures)
    else .ok (message, signedKeys.map (fun publicKey => ⟨none, publicKey⟩))

/-- The bytes of one compiled instruction in `message.serialize()`: the program index and
the account indices are written as `u8`, which is a `RangeError` above 255. -/
def encodeInstruction (instruction : CompiledInstruction) : Except String Buffer :=
  match bs58decode instruction.data with
  | .error _ => .error "Non-base58 character"
  | .ok data =>
    if 255 < instruction.programIdIndex ∨ instruction.accounts.any (fun i => decide (255 < i))
    then .error "ERR_OUT_OF_RANGE"
    else .ok ([instruction.programIdIndex] ++ encodeLength instruction.accounts.length
      ++ instruction.accounts ++ encodeLength data.length ++ data)

/-- The bytes of the instructions of a message, one after the other. -/
def encodeInstructions : List CompiledInstruction → Except String Buffer
  | [] => .ok []
  | instruction :: rest =>
    match encodeInstruction instruction with
    | .error e => .error e
    | .ok bytes =>
      match encodeInstructions rest with
      | .error e => .error e
      | .ok restBytes => .ok (bytes ++ restBytes)

/-- The message of the `RangeError` of Node for the write of one byte past the end of the
instruction buffer of 1232 bytes; the writes go byte by byte, so the first offset refused is
1232. -/
def offsetOutOfRangeMessage : String :=
  "The value of \x22offset\x22 is out of range. It must be >= 0 and <= 1231. Received 1232"

/-- The walk of `instructionLayout.encode` over the instruction buffer of `PACKET_DATA_SIZE`,
1232 bytes, from the offset `offset` on: for each instruction the program index, the count of
the account indices, the indices, the count of the data bytes and the data are written in
turn. A single byte (`u8`) that falls outside the buffer is a `RangeError` of Node, a count
(`blob`) that does is a `RangeError` of the layout; `none` when everything fits. -/
def instructionOverflow : Nat → List CompiledInstruction → Option String
  | _, [] => none
  | offset, instruction :: rest =>
    let dataLength : Nat :=
      match bs58decode instruction.data with
      | .ok data => data.length
      | .error _ => 0
    let afterProgram := offset + 1
    let afterCount := afterProgram + (encodeLength instruction.accounts.length).length
    let afterAccounts := afterCount + instruction.accounts.length
    let afterDataCount := afterAccounts + (encodeLength dataLength).length
    let afterData := afterDataCount + dataLength
    if 1232 < afterProgram then some offsetOutOfRangeMessage
    else if 1232 < afterCount then some "encoding overruns Uint8Array"
    else if 1232 < afterAccounts then some offsetOutOfRangeMessage
    else if 1232 < afterDataCount then some "encoding overruns Uint8Array"
    else if 1232 < afterData then some offsetOutOfRangeMessage
    else instructionOverflow afterData rest

/-- The method `message.serialize()`. The instructions are written into a buffer of 1232
bytes after their count, and a write past its end throws; the three header bytes, the account
keys and the 32 bytes of the recent blockhash are written into a buffer of 2048 bytes, where
a key or a blockhash past the end throws; the instruction bytes are copied behind them and the
result is cut at 2048 bytes. A value out of range in an instruction is reported before an
offset out of range. -/
def Message.serialize (message : Message) : Except String Buffer :=
  match encodeInstructions message.instructions with
  | .error e => .error e
  | .ok instructionBytes =>
    match instructionOverflow (encodeLength message.instructions.length).length
        message.instructions with
    | some e => .error e
    | none =>
      match bs58decode message.recentBlockhash with
      | .error _ => .error "Non-base58 character"
      | .ok recentBlockhash =>
        let keysEnd := 3 + (encodeLength message.accountKeys.length).length
          + 32 * message.accountKeys.length
        if 2048 < keysEnd then .error "encoding overruns Uint8Array"
        else if recentBlockhash.length ≠ 32 then
          .error "Blob.encode[recentBlockhash] requires (length 32) Uint8Array as src"
        else if 2048 < keysEnd + 32 then .error "encoding overruns Uint8Array"
        else
          .ok (([message.header.numRequiredSignatures % 256,
              message.header.numReadonlySignedAccounts % 256,
              message.header.numReadonlyUnsignedAccounts % 256]
            ++ encodeLength message.accountKeys.length
            ++ message.accountKeys.flatMap (fun key => key.toBuffer)
            ++ recentBlockhash
            ++ encodeLength message.instructions.length ++ instructionBytes).take 2048)

/-- The method `transaction._verifySignatures(signData, requireAllSignatures)`: an empty
slot fails when all signatures are required, a filled slot when its signature does not
verify. -/
def Transaction._verifySignatures (verify : Buffer → Buffer → PublicKey → Bool)
    (signatures : List SignaturePubkeyPair) (signData : Buffer) (requireAllSignatures : Bool) :
    Bool :=
  signatures.all (fun pair =>
    match pair.signature with
    | none => !requireAllSignatures
    | some signature => verify signature signData pair.publicKey)

/-- The method `transaction._serialize(signData)`: the number of signatures, the signatures
of 64 bytes each, zeros for an empty slot, then the message. -/
def Transaction._serialize (signatures : List SignaturePubkeyPair) (signData : Buffer) :
    Except String Buffer :=
  if ¬ signatures.length < 256 then .error "Assertion failed"
  else if signatures.any (fun pair =>
      match pair.signature with
      | some signature => decide (signature.length ≠ 64)
      | none => false)
  then .error "signature has invalid length"
  else
    let wireTransaction := encodeLength signatures.length
      ++ signatures.flatMap (fun pair => pair.signature.getD (List.replicate 64 0))
      ++ signData
    if wireTransaction.length ≤ 1232 then .ok wireTransaction
    else .error ("Transaction too large: " ++ toString wireTransaction.length ++ " > 1232")

/-- The method `transaction.serialize(config)`: `requireAllSignatures` is read only when
`verifySignatures` is set. -/
def Transaction.serialize (localeCompare : String → String → Int)
    (verify : Buffer → Buffer → PublicKey → Bool) (tx : Transaction) (config : SerializeConfig) :
    Except String Buffer :=
  match tx._compile localeCompare with
  | .error e => .error e
  | .ok (message, signatures) =>
    match message.serialize with
    | .error e => .error e
    | .ok signData =>
      if config.verifySignatures
          && !Transaction._verifySignatures verify signatures signData config.requireAllSignatures
      then .error "Signature verification failed"
      else Transaction._serialize signatures signData

/-- The loop of `Transaction.from` that cuts `count` signatures of 64 bytes off the input. -/
def readSignatures : Nat → List Nat → List String × List Nat
  | 0, bytes => ([], bytes)
  | count + 1, bytes =>
    let r := readSignatures count (bytes.drop 64)
    (bs58encode (bytes.take 64) :: r.1, r.2)

/-- The loop of `Message.from` over the account keys. -/
def readAccountKeys : Nat → List Nat → Except String (List PublicKey × List Nat)
  | 0, bytes => .ok ([], bytes)
  | count + 1, bytes =>
    match PublicKey.ofBytes (bytes.take 32) with
    | .error _ => .error "Invalid public key input"
    | .ok key =>
      match readAccountKeys count (bytes.drop 32) with
      | .error e => .error e
      | .ok (keys, rest) => .ok (key :: keys, rest)

/-- The loop of `Message.from` over the instructions. -/
def readInstructions : Nat → List Nat → Except String (List CompiledInstruction × List Nat)
  | 0, bytes => .ok ([], bytes)
  | count + 1, bytes =>
    match bytes with
    | [] => .error "end of input"
    | programIdIndex :: bytes1 =>
      let accountCount := decodeLength bytes1
      let accounts := accountCount.2.take accountCount.1
      let dataLength := decodeLength (accountCount.2.drop accountCount.1)
      let data := bs58encode (dataLength.2.take dataLength.1)
      match readInstructions count (dataLength.2.drop dataLength.1) with
      | .error e => .error e
      | .ok (instructions, rest) => .ok (⟨programIdIndex, accounts, data⟩ :: instructions, rest)

/-- The function `Message.from(buffer)`. -/
def messageFrom (buffer : List Nat) : Except String Message :=
  match buffer with
  | numRequiredSignatures :: numReadonlySignedAccounts :: numReadonlyUnsignedAccounts :: bytes =>
    if numRequiredSignatures ≠ numRequiredSignatures % 128 then
      .error "Versioned messages must be deserialized with VersionedMessage.deserialize()"
    else
      let accountCount := decodeLength bytes
      match readAccountKeys accountCount.1 accountCount.2 with
      | .error e => .error e
      | .ok (accountKeys, bytes2) =>
        let instructionCount := decodeLength (bytes2.drop 32)
        match readInstructions instructionCount.1 instructionCount.2 with
        | .error e => .error e
        | .ok (instructions, _) =>
          .ok ⟨⟨numRequiredSignatures, numReadonlySignedAccounts, numReadonlyUnsignedAccounts⟩,
            accountKeys, bs58encode (bytes2.take 32), instructions⟩
  | [] => .error "Versioned messages must be deserialized with VersionedMessage.deserialize()"
  | _ => .error "end of input"

/-- The method `message.isAccountSigner(index)`. -/
def Message.isAccountSigner (message : Message) (index : Nat) : Bool :=
  index < message.header.numRequiredSignatures

/-- The method `message.isAccountWritable(index)`. -/
def Message.isAccountWritable (message : Message) (index : Nat) : Bool :=
  let numSignedAccounts : Int := message.header.numRequiredSignatures
  if message.header.numRequiredSignatures ≤ index then
    let unsignedAccountIndex : Int := index - numSignedAccounts
    let numUnsignedAccounts : Int := message.accountKeys.length - numSignedAccounts
    let numWritableUnsignedAccounts : Int :=
      numUnsignedAccounts - message.header.numReadonlyUnsignedAccounts
    unsignedAccountIndex < numWritableUnsignedAccounts
  else
    let numWritableSignedAccounts : Int :=
      numSignedAccounts - message.header.numReadonlySignedAccounts
    (index : Int) < numWritableSignedAccounts

/-- The application of a function that can throw to each element of an array, in order. -/
def traverse {α β : Type} (f : α → Except String β) : List α → Except String (List β)
  | [] => .ok []
  | a :: rest =>
    match f a with
    | .error e => .error e
    | .ok b =>
      match traverse f rest with
      | .error e => .error e
      | .ok bs => .ok (b :: bs)

/-- The signature slot that `Transaction.populate` builds from the base58 text of a signature
at the position `index`: the text of 64 zero bytes is an empty slot. -/
def populateSignature (message : Message) (entry : String × Nat) :
    Except String SignaturePubkeyPair :=
  match message.accountKeys[entry.2]? with
  | none => .error "end of input"
  | some publicKey =>
    if entry.1 = bs58encode (List.replicate 64 0) then .ok ⟨none, publicKey⟩
    else
      match bs58decode entry.1 with
      | .error _ => .error "Non-base58 character"
      | .ok signature => .ok ⟨some signature, publicKey⟩

/-- The account meta that `Transaction.populate` builds for an account index. -/
def populateKey (message : Message) (signatures : List SignaturePubkeyPair) (account : Nat) :
    Except String AccountMeta :=
  match message.accountKeys[account]? with
  | none => .error "end of input"
  | some pubkey =>
    .ok ⟨pubkey,
      signatures.any (fun keyObj => keyObj.publicKey.toBase58 == pubkey.toBase58)
        || message.isAccountSigner account,
      message.isAccountWritable account⟩

/-- The instruction that `Transaction.populate` builds from a compiled instruction. -/
def populateInstruction (message : Message) (signatures : List SignaturePubkeyPair)
    (instruction : CompiledInstruction) : Except String TransactionInstruction :=
  match traverse (populateKey message signatures) instruction.accounts with
  | .error e => .error e
  | .ok keys =>
    match message.accountKeys[instruction.programIdIndex]? with
    | none => .error "end of input"
    | some programId =>
      match bs58decode instruction.data with
      | .error _ => .error "Non-base58 character"
      | .ok data => .ok ⟨keys, programId, data⟩

/-- The function `Transaction.populate(message, signatures)`. -/
def Transaction.populate (message : Message) (signatures : List String) :
    Except String Transaction :=
  match traverse (populateSignature message) (signatures.zip (List.range signatures.length)) with
  | .error e => .error e
  | .ok pairs =>
    match traverse (populateInstruction message pairs) message.instructions with
    | .error e => .error e
    | .ok instructions =>
      .ok ⟨pairs,
        if 0 < message.header.numRequiredSignatures then message.accountKeys.head? else none,
        instructions, some message.recentBlockhash⟩

/-- The function `Transaction.from(buffer)`. -/
def transactionFrom (buffer : Buffer) : Except String Transaction :=
  let signatureCount := decodeLength buffer
  let signatures := readSignatures signatureCount.1 signatureCount.2
  match messageFrom signatures.2 with
  | .error e => .error e
  | .ok message => Transaction.populate message signatures.1

/-- A library transaction as the argument of `serializeTransaction`. -/
def Transaction.toArg (localeCompare : String → String → Int)
    (verify : Buffer → Buffer → PublicKey → Bool) (tx : Transaction) : TransactionArg :=
  .object ⟨some tx.signatures, tx.serialize localeCompare verify⟩

/-- The wallet `fromWallet` of the tests, `5ZLH7FGCXLPZveEf3AoQKJpnYF2LzUcJccW3y15DiprA`. -/
def fromWallet : PublicKey :=
  ⟨[67, 183, 33, 136, 7, 161, 136, 63, 217, 42, 51, 172, 250, 77, 122, 220,
    93, 231, 93, 130, 16, 163, 128, 239, 89, 130, 176, 157, 157, 196, 236, 103], by decide⟩

/-- The wallet `toWallet` of the tests, `qNfZ9QHYyu5dDDMvVAZ1hE55JX4GfUYQyfvLzZKBZi3`. -/
def toWallet : PublicKey :=
  ⟨[12, 100, 96, 14, 133, 215, 73, 186, 250, 63, 105, 25, 49, 252, 98, 42,
    108, 107, 220, 153, 199, 116, 97, 120, 31, 158, 113, 140, 180, 144, 55, 60], by decide⟩

/-- The function `createTestTransaction()` of the tests followed by the setting of the fee
payer and of the recent blockhash: one transfer of 1000000 lamports, nothing signed. -/
def createTestTransaction : Transaction :=
  { Transaction.new.add (SystemProgram_transfer fromWallet toWallet 1000000) with
    feePayer := some fromWallet,
    recentBlockhash := some "EGJScpJKZToCQxwn3TXfoVBnLRzjKhvXRQtdNxWuFiG7" }

/-- The transaction of the test `rejects transactions exceeding size limit`: the test
transaction with 100 more transfers, of `1000 + i` lamports for `i` from 0 to 99. -/
def createOversizeTestTransaction : Transaction :=
  (List.range 100).foldl
    (fun tx i => tx.add (SystemProgram_transfer fromWallet toWallet (1000 + i)))
    createTestTransaction

/-- The keys a transaction mentions: the fee payer, the keys of the signature slots, and the
program and the accounts of each instruction. -/
def Transaction.publicKeys (tx : Transaction) : List PublicKey :=
  tx.feePayer.toList ++ tx.signatures.map (fun pair => pair.publicKey)
    ++ tx.instructions.flatMap (fun instruction =>
      instruction.programId :: instruction.keys.map (fun accountMeta => accountMeta.pubkey))

/-- The typing of a transaction: the keys and the signatures, which the library holds in
byte arrays, are made of bytes. -/
def Transaction.WellTyped (tx : Transaction) : Prop :=
  (∀ key ∈ tx.publicKeys, ∀ x ∈ key.bytes, x < 256) ∧
  (∀ pair ∈ tx.signatures, ∀ signature, pair.signature = some signature →
    ∀ x ∈ signature, x < 256)

/-! ## `pages/api/staking/prepareStaking.js`, `pages/api/staking/completeStaking.js` -/

/-- The object literal `dailyRewardsByTier` of `calculateEstimatedRewards`. -/
def dailyRewardsByTier : List (String × ℚ) :=
  [("LEGENDARY", 200), ("EPIC", 100), ("RARE", 50), ("COMMON", 25)]

/-- The expression `dailyRewardsByTier[nftTier] || dailyRewardsByTier.COMMON`: the rate of an
own key, the rate of `COMMON` for a name that is no property of the object, and `none` for an
inherited member, which is kept as it is and makes every product `NaN`. -/
def tierBaseRate (nftTier : String) : Option ℚ :=
  match dailyRewardsByTier.lookup nftTier with
  | some rate => if rate ≠ 0 then some rate else dailyRewardsByTier.lookup "COMMON"
  | none =>
    if nftTier ∈ OBJECT_PROTOTYPE_KEYS then none else dailyRewardsByTier.lookup "COMMON"

/-- The variable `multiplier` of `calculateEstimatedRewards`; the literals `1.2`, `1.4` and
`1.7` denote the doubles nearest to them. -/
def timeMultiplier (stakingPeriod : ℤ) : ℚ :=
  if stakingPeriod ≥ 365 then 2
  else if stakingPeriod ≥ 180 then toDouble (17 / 10)
  else if stakingPeriod ≥ 90 then toDouble (7 / 5)
  else if stakingPeriod ≥ 30 then toDouble (6 / 5)
  else 1

/-- The object returned by `calculateEstimatedRewards`; `none` stands for `NaN`, and for the
inherited member in `baseRate`. -/
structure EstimatedRewards where
  baseRate : Option ℚ
  totalRewards : Option ℚ
  dailyRewards : List (Option ℚ)
  averageDailyReward : Option ℚ
  longTermBonus : ℚ
  deriving DecidableEq

/-- The function `calculateEstimatedRewards(nftTier, stakingPeriod)` of `prepareStaking.js`,
for a tier name and an integer-valued period. -/
def calculateEstimatedRewards (nftTier : String) (stakingPeriod : ℤ) : EstimatedRewards :=
  let baseRate := tierBaseRate nftTier
  let multiplier := timeMultiplier stakingPeriod
  let totalRewards :=
    baseRate.map (fun rate => mathFloor (jsMul (jsMul rate stakingPeriod) multiplier))
  let dailyRewards :=
    List.replicate (min stakingPeriod 7).toNat
      (baseRate.map (fun rate => mathFloor (jsMul rate multiplier)))
  let averageDailyReward :=
    if stakingPeriod = 0 then none else totalRewards.map (fun total => jsDiv total stakingPeriod)
  let longTermBonus := mathFloor (jsMul (jsSub multiplier 1) 100)
  { baseRate := baseRate, totalRewards := totalRewards, dailyRewards := dailyRewards,
    averageDailyReward := averageDailyReward, longTermBonus := longTermBonus }

/-- The function `calculateEstimatedRewards(nftTier, stakingPeriod)` of `completeStaking.js`,
which has its own table of rates and its own thresholds. -/
def calculateEstimatedRewards_completeStaking (nftTier : String) (stakingPeriod : ℤ) :
    EstimatedRewards :=
  let dailyRewardsByTier : List (String × ℚ) :=
    [("LEGENDARY", 200), ("EPIC", 100), ("RARE", 50), ("COMMON", 25)]
  let baseRate : Option ℚ :=
    match dailyRewardsByTier.lookup nftTier with
    | some rate => if rate ≠ 0 then some rate else dailyRewardsByTier.lookup "COMMON"
    | none =>
      if nftTier ∈ OBJECT_PROTOTYPE_KEYS then none else dailyRewardsByTier.lookup "COMMON"
  let multiplier : ℚ :=
    if stakingPeriod ≥ 365 then 2
    else if stakingPeriod ≥ 180 then toDouble (17 / 10)
    else if stakingPeriod ≥ 90 then toDouble (7 / 5)
    else if stakingPeriod ≥ 30 then toDouble (6 / 5)
    else 1
  let totalRewards :=
    baseRate.map (fun rate => mathFloor (jsMul (jsMul rate stakingPeriod) multiplier))
  let dailyRewards :=
    List.replicate (min stakingPeriod 7).toNat
      (baseRate.map (fun rate => mathFloor (jsMul rate multiplier)))
  let averageDailyReward :=
    if stakingPeriod = 0 then none else totalRewards.map (fun total => jsDiv total stakingPeriod)
  let longTermBonus := mathFloor (jsMul (jsSub multiplier 1) 100)
  { baseRate := baseRate, totalRewards := totalRewards, dailyRewards := dailyRewards,
    averageDailyReward := averageDailyReward, longTermBonus := longTermBonus }

/-! ## `pages/api/staking/getStakingInfo.js` -/

/-- The function `calculateEarnedRewards(stakingInfo)`; `now` is the value of
`Math.floor(Date.now() / 1000)`. -/
def calculateEarnedRewards (now : ℚ) (stakingInfo : StakingInfo) : ℚ :=
  let startTime := stakingInfo.staked_at
  let dailyRate : ℚ := stakingInfo.daily_reward_rate.getD 0
  let endTime := min now stakingInfo.release_date
  let daysElapsed := jsDiv (jsSub endTime startTime) (24 * 60 * 60)
  let totalRewards := jsMul dailyRate daysElapsed
  mathFloor totalRewards

/-! ## `migrate_reward_system_fixed.js` -/

/-- The variable `collectionBonus` computed in `migrateUserStakingInfoAccounts` from
`stakedCount`, a field of type `u8`. -/
def collectionBonus (stakedCount : Nat) : Nat :=
  if stakedCount ≥ 3 then 2000
  else if stakedCount = 2 then 1000
  else 0

/-! ## `shared/utils/error-handler.js`: the API response -/

/-- The text of a failed instruction with a custom program error, as the Solana runtime
writes it: the code in hexadecimal after `custom program error: 0x`. -/
def customProgramErrorText (code : Nat) : String :=
  "custom program error: 0x" ++ String.mk (Nat.toDigits 16 code)

/-- The `error` argument of `createApiResponse`: omitted (or `undefined`), in which case the
default `null` is taken, `null`, an object, or a string or a number. -/
inductive ApiErrorArg where
  | omitted
  | null
  | obj (e : ErrorObj)
  | str (s : String)
  | num (v : Int)
  deriving DecidableEq, Repr

/-- The property `error` of a response: a code and a message, each a string or a number; the
message is `undefined` when `getErrorMessage` returns `undefined`. -/
structure ApiError where
  code : JsCode
  message : JsCode
  deriving DecidableEq, Repr

/-- The object returned by `createApiResponse`; `none` stands for `null`. -/
structure ApiResponse (α : Type) where
  success : Bool
  message : String
  data : Option α
  error : Option ApiError

/-- The function `createApiResponse(success, message, data, error)`: for a failure the
operator `typeof` yields `object` for an object and for `null`, and the read of `error.code`
on `null` is a `TypeError`. -/
def createApiResponse {α : Type} (success : Bool) (message : String) (data : Option α)
    (error : ApiErrorArg) : Except JsError (ApiResponse α) :=
  let error : ApiErrorArg := if error = .omitted then .null else error
  let dataField : Option α := if success then data else none
  if !success then
    match error with
    | .omitted => .error .typeError
    | .null => .error .typeError
    | .obj e =>
      .ok ⟨success, message, dataField,
        some ⟨if e.code.truthy then e.code else .str "UNKNOWN",
          match getErrorMessage (.obj e) with
          | some text => .str text
          | none => .undefined⟩⟩
    | .str s => .ok ⟨success, message, dataField, some ⟨.str "UNKNOWN", .str s⟩⟩
    | .num v => .ok ⟨success, message, dataField, some ⟨.str "UNKNOWN", .num v⟩⟩
  else .ok ⟨success, message, dataField, none⟩

/-! ## `direct_migration.js`: the stated layout of the reward parameters -/

/-- The encoding that the specification states for one parameter of `updateRewardParams`:
the byte 0 for a parameter that is 0, `null` or missing, the byte 1 and the eight
little-endian bytes of the value otherwise. -/
def rewardParamBlock (value : JsValue) : Buffer :=
  match value with
  | .int v => if v = 0 then [0] else 1 :: leBytes64 v.toNat
  | _ => [0]

/-! ## Auxiliary facts -/

/-- The program id decodes to a public key. -/
theorem newPublicKey_PROGRAM_ID :
    newPublicKey PROGRAM_ID = .ok
      ⟨[51, 38, 23, 211, 31, 132, 31, 147, 254, 3, 193, 113, 149, 157, 107, 89,
        90, 235, 32, 255, 181, 109, 254, 143, 45, 34, 177, 189, 156, 227, 76, 34], by decide⟩ := by
  decide!

/-- The rent sysvar address decodes to a public key. -/
theorem newPublicKey_SYSVAR_RENT :
    newPublicKey SYSVAR_RENT = .ok
      ⟨[6, 167, 213, 23, 25, 44, 92, 81, 33, 140, 201, 76, 61, 74, 241, 127,
        88, 218, 238, 8, 155, 161, 253, 68, 227, 219, 217, 138, 0, 0, 0, 0], by decide⟩ := by
  decide!

/-- The bytes of `leBytes64 n` are `n / 256^i % 256` for `i = 0 .. 7`. -/
theorem leBytes64_eq_range (n : Nat) :
    leBytes64 n = (List.range 8).map (fun i => n / 256 ^ i % 256) := by
  simp [leBytes64, List.range, List.range.loop]

/-- Writing a natural number below `2^64` succeeds. -/
theorem writeBigUInt64LE_natCast (n : Nat) (h : n < 2 ^ 64) :
    writeBigUInt64LE (n : Int) = .ok (leBytes64 n) := by
  show (if n < 2 ^ 64 then Except.ok (leBytes64 n) else Except.error JsError.rangeError) = _
  rw [if_pos h]

/-- A value outside `0 .. 2^64 - 1` is refused. -/
theorem writeBigUInt64LE_outOfRange (v : Int) (h : v < 0 ∨ 2 ^ 64 ≤ v) :
    writeBigUInt64LE v = .error .rangeError := by
  cases v with
  | ofNat n =>
    have hn : ¬ n < 2 ^ 64 := by
      rcases h with h | h
      · exact absurd h (by simp)
      · have : (2 : Int) ^ 64 ≤ (n : Int) := h
        have : 2 ^ 64 ≤ n := by exact_mod_cast this
        omega
    show (if n < 2 ^ 64 then Except.ok (leBytes64 n) else Except.error JsError.rangeError) = _
    rw [if_neg hn]
  | negSucc n => rfl

/-- The helper `u64ToLEBytes` on a natural number below `2^64`. -/
theorem u64ToLEBytes_natCast (n : Nat) (h : n < 2 ^ 64) :
    u64ToLEBytes (.int n) = .ok (leBytes64 n) := by
  rw [← writeBigUInt64LE_natCast n h]
  rfl

/-- The function `Buffer.from` keeps a byte. -/
theorem bufferFrom_byte (t : Nat) (h : t < 256) : bufferFrom [(t : Int)] = [t] := by
  have : ((t : Int) % 256).toNat = t := by omega
  simp [bufferFrom, this]

/-- The function `serializeU8` stores its argument modulo 256. -/
theorem serializeU8_eq_mod (v : Int) : serializeU8 v = [(v % 256).toNat] := by
  have hmask : ((toInt32 0xff) % 2 ^ 32).toNat = 2 ^ 8 - 1 := by decide
  have hland : ∀ x : Nat, Nat.land x (2 ^ 8 - 1) = x % 2 ^ 8 :=
    fun x => Nat.and_pow_two_sub_one_eq_mod x 8
  have hsmall : ∀ x : Nat, toInt32 ((x % 2 ^ 8 : Nat) : Int) = ((x % 2 ^ 8 : Nat) : Int) := by
    intro x
    have hx : x % 2 ^ 8 < 2 ^ 8 := Nat.mod_lt _ (by decide)
    simp only [toInt32]
    split <;> omega
  have hv : (((toInt32 v % 2 ^ 32).toNat % 2 ^ 8 : Nat) : Int) % 256 = v % 256 := by
    simp only [toInt32]
    split <;> omega
  simp only [serializeU8, jsBitAnd, hmask, hland, hsmall, bufferFrom, List.map, hv]

/-- The eight little-endian bytes are bytes. -/
theorem leBytes64_lt (n : Nat) : ∀ x ∈ leBytes64 n, x < 256 := by
  intro x hx
  simp only [leBytes64, List.mem_cons, List.mem_singleton, List.not_mem_nil, or_false] at hx
  rcases hx with h | h | h | h | h | h | h | h <;> subst h <;> exact Nat.mod_lt _ (by decide)

/-- Reading back the eight little-endian bytes of a value below `2^64` gives the value. -/
theorem readBigUInt64LE_leBytes64 (n : Nat) (h : n < 2 ^ 64) (rest : Buffer) :
    readBigUInt64LE (leBytes64 n ++ rest) 0 = .ok n := by
  simp only [readBigUInt64LE, leBytes64, List.drop_zero, List.cons_append, List.nil_append]
  congr 1
  norm_num at h ⊢
  omega

/-- The option encoder on a present natural number below `2^64`. -/
theorem encodeOption_natCast (v : Nat) (hv : v < 2 ^ 64) :
    encodeOption (.int v) = .ok (1 :: (List.range 8).map (fun i => v / 256 ^ i % 256)) := by
  have hne : JsValue.int (v : Int) ≠ JsValue.null := by intro h; cases h
  rw [encodeOption, if_neg hne, u64ToLEBytes_natCast v hv, leBytes64_eq_range]
  rfl

/-- The generic builder on a name with an entry: the entry, then the arguments in order. -/
theorem createInstructionData_body (D : String → Option Buffer) (name : String)
    (args : List Buffer) (d : Buffer) (hd : D name = some d) :
    createInstructionData D name args = .ok (d ++ args.flatten) := by
  rw [createInstructionData, hd]
  cases args with
  | nil => simp
  | cons a rest => simp [bufferConcat]

/-! ## The claims -/

/-- C1: for every staking period `p` below `2^64`, tier byte `t` below 256 and boolean `a`,
`createStakeNftInstruction` returns an instruction whose data is the 18 bytes
`[38,27,66,46,69,65,151,219]`, then `p` as 8 little-endian bytes, then `t`, then 1 or 0 for `a`. -/
theorem createStakeNftInstruction_data (owner nftMint poolState : PublicKey)
    (accounts : StakeAccounts) (p t : Nat) (a : Bool) (hp : p < 2 ^ 64) (ht : t < 256) :
    ∃ ix, createStakeNftInstruction owner nftMint poolState p t a accounts = .ok ix ∧
      ix.data = [38, 27, 66, 46, 69, 65, 151, 219]
        ++ (List.range 8).map (fun i => p / 256 ^ i % 256) ++ [t] ++ [if a then 1 else 0] ∧
      ix.data.length = 18 := by
  have hd : tableGet INSTRUCTION_DISCRIMINATORS "STAKE_NFT"
      = [38, 27, 66, 46, 69, 65, 151, 219] := by decide
  have ha : bufferFrom [if a then 1 else 0] = [if a then 1 else 0] := by cases a <;> decide
  rw [createStakeNftInstruction, writeBigUInt64LE_natCast p hp, newPublicKey_SYSVAR_RENT,
    newPublicKey_PROGRAM_ID, hd, ha, bufferFrom_byte t ht, leBytes64_eq_range]
  refine ⟨_, rfl, ?_, ?_⟩
  · simp [bufferConcat]
  · simp [bufferConcat]

/-- C1, at period 30, tier 2 and auto-compound on. -/
theorem createStakeNftInstruction_data_witness :
    ∃ ix, createStakeNftInstruction SystemProgram_programId TOKEN_PROGRAM_ID
        ASSOCIATED_TOKEN_PROGRAM_ID ((30 : Nat) : Int) ((2 : Nat) : Int) true
        ⟨TOKEN_PROGRAM_ID, TOKEN_PROGRAM_ID, TOKEN_PROGRAM_ID, TOKEN_PROGRAM_ID,
          TOKEN_PROGRAM_ID⟩ = .ok ix ∧
      ix.data = [38, 27, 66, 46, 69, 65, 151, 219, 30, 0, 0, 0, 0, 0, 0, 0, 2, 1] ∧
      ix.data.length = 18 :=
  createStakeNftInstruction_data SystemProgram_programId TOKEN_PROGRAM_ID
    ASSOCIATED_TOKEN_PROGRAM_ID ⟨TOKEN_PROGRAM_ID, TOKEN_PROGRAM_ID, TOKEN_PROGRAM_ID,
      TOKEN_PROGRAM_ID, TOKEN_PROGRAM_ID⟩ 30 2 true (by decide) (by decide)

/-- C3: `encodeOption(null)` is the single byte 0, and for every u64 value `v`, zero included,
`encodeOption(v)` is the 9 bytes made of the presence byte 1 and `v` as 8 little-endian bytes. -/
theorem encodeOption_spec (v : Nat) (hv : v < 2 ^ 64) :
    encodeOption .null = .ok [0] ∧
    encodeOption (.int v) = .ok (1 :: (List.range 8).map (fun i => v / 256 ^ i % 256)) ∧
    (1 :: (List.range 8).map (fun i => v / 256 ^ i % 256)).length = 9 := by
  exact ⟨by decide, encodeOption_natCast v hv, by simp⟩

/-- C3, at the present value zero. -/
theorem encodeOption_spec_witness :
    encodeOption .null = .ok [0] ∧
    encodeOption (.int ((0 : Nat) : Int)) = .ok [1, 0, 0, 0, 0, 0, 0, 0, 0] ∧
    ([1, 0, 0, 0, 0, 0, 0, 0, 0] : Buffer).length = 9 :=
  encodeOption_spec 0 (by decide)

/-- C2: for non-zero values `inc`, `period`, `max` below `2^64`, the data built by
`updateRewardParams` is the 35 bytes made of the discriminator `[146,73,176,37,49,138,89,174]`
and three blocks, each the presence byte 1 and the value as 8 little-endian bytes, in the order
increment, period, max. -/
theorem updateRewardParams_data_present (inc period max : Nat)
    (hinc : inc ≠ 0) (hperiod : period ≠ 0) (hmax : max ≠ 0)
    (hinc64 : inc < 2 ^ 64) (hperiod64 : period < 2 ^ 64) (hmax64 : max < 2 ^ 64) :
    updateRewardParams_data ⟨.int inc, .int period, .int max⟩
      = .ok ([146, 73, 176, 37, 49, 138, 89, 174]
          ++ (1 :: (List.range 8).map (fun i => inc / 256 ^ i % 256))
          ++ (1 :: (List.range 8).map (fun i => period / 256 ^ i % 256))
          ++ (1 :: (List.range 8).map (fun i => max / 256 ^ i % 256))) ∧
    ([146, 73, 176, 37, 49, 138, 89, 174]
          ++ (1 :: (List.range 8).map (fun i => inc / 256 ^ i % 256))
          ++ (1 :: (List.range 8).map (fun i => period / 256 ^ i % 256))
          ++ (1 :: (List.range 8).map (fun i => max / 256 ^ i % 256))).length = 35 := by
  have hor : ∀ n : Nat, n ≠ 0 → (JsValue.int (n : Int)).or .null = .int (n : Int) := by
    intro n hn
    have : (n : Int) ≠ 0 := by exact_mod_cast hn
    simp [JsValue.or, JsValue.truthy, this]
  have henc : ∀ n : Nat, n < 2 ^ 64 →
      encodeOption (.int (n : Int)) = .ok (1 :: (List.range 8).map (fun i => n / 256 ^ i % 256)) :=
    fun n hn => (encodeOption_natCast n hn)
  have hd : tableGet DISCRIMINATORS "updateRewardParams"
      = [146, 73, 176, 37, 49, 138, 89, 174] := by decide
  refine ⟨?_, by simp⟩
  rw [updateRewardParams_data, hor inc hinc, hor period hperiod, hor max hmax,
    henc inc hinc64, henc period hperiod64, henc max hmax64, hd]
  simp [bufferConcat, bind, Except.bind, pure, Except.pure]

/-- C2, at the values (500, 30, 5000) of the migration scripts. -/
theorem updateRewardParams_data_present_witness :
    updateRewardParams_data ⟨.int ((500 : Nat) : Int), .int ((30 : Nat) : Int),
        .int ((5000 : Nat) : Int)⟩
      = .ok [146, 73, 176, 37, 49, 138, 89, 174,
             1, 244, 1, 0, 0, 0, 0, 0, 0,
             1, 30, 0, 0, 0, 0, 0, 0, 0,
             1, 136, 19, 0, 0, 0, 0, 0, 0] ∧
    ([146, 73, 176, 37, 49, 138, 89, 174,
             1, 244, 1, 0, 0, 0, 0, 0, 0,
             1, 30, 0, 0, 0, 0, 0, 0, 0,
             1, 136, 19, 0, 0, 0, 0, 0, 0] : Buffer).length = 35 :=
  updateRewardParams_data_present 500 30 5000 (by decide) (by decide) (by decide)
    (by decide) (by decide) (by decide)

/-- C4: `serializeU8(b)` is the one byte `b`; `serializeU64(n)` is 8 bytes whose little-endian
value is `n`; `serializeBoolean(f)` is one byte that is non-zero exactly when `f` is true; and
the decoding of `check-pool-info.js` (`readBigUInt64LE`, `data[48]`, `data[49] !== 0`) applied to
the three encodings, placed after the 40 bytes that precede them in the account, returns `n`,
`b` and `f`. -/
theorem primitive_roundtrip (b n : Nat) (f : Bool) (pre : Buffer)
    (hb : b < 256) (hn : n < 2 ^ 64) (hpre : pre.length = 40) :
    serializeU8 b = [b] ∧
    (∃ bytes, serializeU64 n = .ok bytes ∧ bytes.length = 8 ∧ (∀ x ∈ bytes, x < 256) ∧
      ((List.range 8).map (fun i => bytes.getD i 0 * 256 ^ i)).sum = n ∧
      readBigUInt64LE bytes 0 = .ok n) ∧
    (∃ x, serializeBoolean f = [x] ∧ (x ≠ 0 ↔ f = true)) ∧
    (do let bytes ← serializeU64 n
        decodePoolData (pre ++ bytes ++ serializeU8 b ++ serializeBoolean f))
      = .ok (n, some b, f) := by
  have h8 : serializeU8 b = [b] := by
    rw [serializeU8_eq_mod]
    have : ((b : Int) % 256).toNat = b := by omega
    rw [this]
  have h64 : serializeU64 n = .ok (leBytes64 n) := writeBigUInt64LE_natCast n hn
  have hbool : serializeBoolean f = [if f then 1 else 0] := by cases f <;> decide
  have hrd : readBigUInt64LE (leBytes64 n) 0 = .ok n := by
    have := readBigUInt64LE_leBytes64 n hn []
    rwa [List.append_nil] at this
  refine ⟨h8, ⟨leBytes64 n, h64, rfl, leBytes64_lt n, ?_, hrd⟩, ?_, ?_⟩
  · simp only [leBytes64, List.range, List.range.loop, List.map, List.getD_cons_zero,
      List.getD_cons_succ, List.sum_cons, List.sum_nil]
    norm_num at hn ⊢
    omega
  · refine ⟨if f then 1 else 0, hbool, ?_⟩
    cases f <;> simp
  · rw [h64, h8, hbool]
    show decodePoolData (pre ++ leBytes64 n ++ [b] ++ [if f then 1 else 0]) = _
    have hdrop : ((pre ++ leBytes64 n ++ [b] ++ [if f then 1 else 0]).drop 40).take 8
        = leBytes64 n := by
      rw [List.append_assoc, List.append_assoc, List.drop_left' hpre]
      rfl
    have h48 : (pre ++ leBytes64 n ++ [b] ++ [if f then 1 else 0])[48]? = some b := by
      rw [List.append_assoc, List.append_assoc, List.getElem?_append_right (by omega), hpre]
      rfl
    have h49 : (pre ++ leBytes64 n ++ [b] ++ [if f then 1 else 0])[49]?
        = some (if f then 1 else 0) := by
      rw [List.append_assoc, List.append_assoc, List.getElem?_append_right (by omega), hpre]
      rfl
    rw [decodePoolData, hdrop, hrd, h48, h49]
    cases f <;> rfl

/-- C4, at the byte 200, the largest u64 value and the flag true, after 40 zero bytes. -/
theorem primitive_roundtrip_witness :
    serializeU8 ((200 : Nat) : Int) = [200] ∧
    (∃ bytes, serializeU64 ((18446744073709551615 : Nat) : Int) = .ok bytes ∧ bytes.length = 8 ∧
      (∀ x ∈ bytes, x < 256) ∧
      ((List.range 8).map (fun i => bytes.getD i 0 * 256 ^ i)).sum = 18446744073709551615 ∧
      readBigUInt64LE bytes 0 = .ok 18446744073709551615) ∧
    (∃ x, serializeBoolean true = [x] ∧ (x ≠ 0 ↔ true = true)) ∧
    (do let bytes ← serializeU64 ((18446744073709551615 : Nat) : Int)
        decodePoolData (List.replicate 40 0 ++ bytes ++ serializeU8 ((200 : Nat) : Int)
          ++ serializeBoolean true))
      = .ok (18446744073709551615, some 200, true) :=
  primitive_roundtrip 200 18446744073709551615 true (List.replicate 40 0)
    (by decide) (by decide) (by decide)

/-- C8: the discriminator tables hold 15 instruction entries, 3 account entries and 4 event
entries under distinct names; every entry is 8 bytes long, and the 15 instruction
discriminators are pairwise different. -/
theorem discriminator_tables_shape :
    INSTRUCTION_DISCRIMINATORS.length = 15 ∧ ACCOUNT_DISCRIMINATORS.length = 3 ∧
    EVENT_DISCRIMINATORS.length = 4 ∧
    (INSTRUCTION_DISCRIMINATORS.map Prod.fst).Nodup ∧
    (ACCOUNT_DISCRIMINATORS.map Prod.fst).Nodup ∧
    (EVENT_DISCRIMINATORS.map Prod.fst).Nodup ∧
    (∀ e ∈ INSTRUCTION_DISCRIMINATORS ++ ACCOUNT_DISCRIMINATORS ++ EVENT_DISCRIMINATORS,
      e.2.length = 8 ∧ ∀ x ∈ e.2, x < 256) ∧
    (INSTRUCTION_DISCRIMINATORS.map Prod.snd).Nodup := by
  decide

/-- C9: on the shared instruction table the name `constructor`, which is no entry of the
table, makes `createInstructionData` throw a `TypeError`, not `Unknown instruction name`: a
name without entry that names a member inherited from `Object.prototype` passes the test
`!discriminator`. Every other name without entry gives `Unknown instruction name: name`; the
function throws exactly when the name has no entry; and for a name with the entry `d` the
result is `d` followed by the argument buffers in the given order, so for an 8-byte `d` its
length is 8 plus the sum of the argument lengths. -/
theorem createInstructionData_inherited_name (D : String → Option Buffer) (name : String)
    (args : List Buffer) :
    (createInstructionData (fun n => INSTRUCTION_DISCRIMINATORS.lookup n) "constructor" []
        = .error .typeError ∧
      INSTRUCTION_DISCRIMINATORS.lookup "constructor" = none) ∧
    (D name = none → name ∈ OBJECT_PROTOTYPE_KEYS →
      createInstructionData D name args = .error .typeError) ∧
    (D name = none → name ∉ OBJECT_PROTOTYPE_KEYS →
      createInstructionData D name args
        = .error (.error ("Unknown instruction name: " ++ name))) ∧
    ((∃ e, createInstructionData D name args = .error e) ↔ D name = none) ∧
    (∀ d, D name = some d →
      createInstructionData D name args = .ok (d ++ args.flatten) ∧
      (d.length = 8 → (d ++ args.flatten).length = 8 + (args.map List.length).sum)) := by
  have hsome : ∀ d, D name = some d →
      createInstructionData D name args = .ok (d ++ args.flatten) :=
    fun d hd => createInstructionData_body D name args d hd
  have hinherited : D name = none → name ∈ OBJECT_PROTOTYPE_KEYS →
      createInstructionData D name args = .error .typeError := by
    intro hd hk
    rw [createInstructionData, hd]
    simp only [hk, if_true]
  have hunknown : D name = none → name ∉ OBJECT_PROTOTYPE_KEYS →
      createInstructionData D name args
        = .error (.error ("Unknown instruction name: " ++ name)) := by
    intro hd hk
    rw [createInstructionData, hd]
    simp only [hk, if_false]
  refine ⟨⟨by decide, by decide⟩, hinherited, hunknown, ⟨?_, fun h => ?_⟩, ?_⟩
  · rintro ⟨e, h⟩
    cases hd : D name with
    | none => rfl
    | some d => rw [hsome d hd] at h; cases h
  · by_cases hk : name ∈ OBJECT_PROTOTYPE_KEYS
    · exact ⟨_, hinherited h hk⟩
    · exact ⟨_, hunknown h hk⟩
  · intro d hd
    refine ⟨hsome d hd, fun h8 => ?_⟩
    rw [List.length_append, h8, List.length_flatten]

/-- C9, on the shared instruction table: the name `STAKE_NFT` with two argument buffers, a
name that is neither in the table nor inherited, and the inherited name `toString`. -/
theorem createInstructionData_inherited_name_witness :
    createInstructionData (fun n => INSTRUCTION_DISCRIMINATORS.lookup n) "STAKE_NFT" [[7, 9], [1]]
      = .ok [38, 27, 66, 46, 69, 65, 151, 219, 7, 9, 1] ∧
    ([38, 27, 66, 46, 69, 65, 151, 219, 7, 9, 1] : Buffer).length = 8 + 3 ∧
    createInstructionData (fun n => INSTRUCTION_DISCRIMINATORS.lookup n) "STAKE" []
      = .error (.error "Unknown instruction name: STAKE") ∧
    createInstructionData (fun n => INSTRUCTION_DISCRIMINATORS.lookup n) "toString" [[1]]
      = .error .typeError :=
  ⟨((createInstructionData_inherited_name (fun n => INSTRUCTION_DISCRIMINATORS.lookup n)
      "STAKE_NFT" [[7, 9], [1]]).2.2.2.2 [38, 27, 66, 46, 69, 65, 151, 219] (by decide)).1,
   ((createInstructionData_inherited_name (fun n => INSTRUCTION_DISCRIMINATORS.lookup n)
      "STAKE_NFT" [[7, 9], [1]]).2.2.2.2 [38, 27, 66, 46, 69, 65, 151, 219] (by decide)).2
      (by decide),
   (createInstructionData_inherited_name (fun n => INSTRUCTION_DISCRIMINATORS.lookup n) "STAKE"
      []).2.2.1 (by decide) (by decide),
   (createInstructionData_inherited_name (fun n => INSTRUCTION_DISCRIMINATORS.lookup n)
      "toString" [[1]]).2.1 (by decide) (by decide)⟩

/-- C5: whatever the derivation does, each helper hands it the protocol's seed tuple and the
program id `4SfUyQkbeyz9jeJDsR5XiUf8DATVZJXtGG4JUsYsWzTs`: `findPoolStatePDA` the single seed
`pool_state`, `findStakeInfoPDA` the seeds `stake` and the 32 bytes of the mint,
`findEscrowAuthorityPDA` the seeds `escrow` and the mint, `findUserStakingInfoPDA` the seeds
`user_staking` and the 32 bytes of the wallet, `findRewardVaultAuthorityPDA` the single seed
`reward_vault_authority`, each in that order. -/
theorem pda_seed_tuples {α : Type} (derive : List Buffer → PublicKey → Except JsError α)
    (nftMint userWallet : KeyArg) :
    ∃ programId, newPublicKey PROGRAM_ID = .ok programId ∧
      programId.toBase58 = "4SfUyQkbeyz9jeJDsR5XiUf8DATVZJXtGG4JUsYsWzTs" ∧
      findPoolStatePDA derive = derive [utf8 "pool_state"] programId ∧
      findStakeInfoPDA derive nftMint
        = (do let mint ← nftMint.toKey; derive [utf8 "stake", mint.toBuffer] programId) ∧
      findEscrowAuthorityPDA derive nftMint
        = (do let mint ← nftMint.toKey; derive [utf8 "escrow", mint.toBuffer] programId) ∧
      findUserStakingInfoPDA derive userWallet
        = (do let wallet ← userWallet.toKey
              derive [utf8 "user_staking", wallet.toBuffer] programId) ∧
      findRewardVaultAuthorityPDA derive = derive [utf8 "reward_vault_authority"] programId ∧
      (∀ k : PublicKey, k.toBuffer.length = 32) := by
  have hstake : STAKE_SEED = utf8 "stake" := by decide
  have hescrow : ESCROW_SEED = utf8 "escrow" := by decide
  have huser : USER_STAKING_SEED = utf8 "user_staking" := by decide
  refine ⟨_, newPublicKey_PROGRAM_ID, by decide!, ?_, ?_, ?_, ?_, ?_, fun k => k.size_eq⟩
  · rw [findPoolStatePDA, newPublicKey_PROGRAM_ID]
    rfl
  · rw [findStakeInfoPDA, newPublicKey_PROGRAM_ID, hstake]
    rfl
  · rw [findEscrowAuthorityPDA, newPublicKey_PROGRAM_ID, hescrow]
    rfl
  · rw [findUserStakingInfoPDA, newPublicKey_PROGRAM_ID, huser]
    rfl
  · rw [findRewardVaultAuthorityPDA, newPublicKey_PROGRAM_ID]
    rfl

set_option maxRecDepth 100000 in
/-- C6: `findPoolStatePDA()` returns, for the program id
`4SfUyQkbeyz9jeJDsR5XiUf8DATVZJXtGG4JUsYsWzTs` and the single seed `pool_state`, the address
`8cQViUpNWGhw2enYUNyp2WRWXAwdQbZokiATBr1Xc5uP` with bump 253, which is the constant
`POOL_STATE_ADDRESS`; the result is a fixed value, the same at every call, and the comparison
of `check-pool-seed.js` finds the target address under the seed `pool_state` and not under the
seed `pool`. -/
theorem findPoolStatePDA_fixture :
    ∃ address, findPoolStatePDA findProgramAddressSync = .ok (address, 253) ∧
      address.toBase58 = "8cQViUpNWGhw2enYUNyp2WRWXAwdQbZokiATBr1Xc5uP" ∧
      address.toBase58 = POOL_STATE_ADDRESS ∧
      newPublicKey POOL_STATE_ADDRESS = .ok address ∧
      checkPoolState_matches = .ok (true, false) := by
  refine ⟨⟨[113, 19, 179, 233, 166, 193, 162, 207, 24, 184, 116, 179, 160, 197, 112, 108,
    237, 207, 141, 138, 72, 168, 19, 168, 210, 211, 117, 34, 135, 69, 55, 6], by decide⟩,
    ?_, ?_, ?_, ?_, ?_⟩
  · decide!
  · decide!
  · decide!
  · decide!
  · decide!

/-- C7, refuted as stated: the data that `initializePool` builds for the initialize instruction
is 17 bytes, the discriminator followed by the reward rate 100 as a u64 and the fee byte 5, and
so it is not the bare discriminator. -/
theorem initializePool_data_has_arguments :
    initializePool_data
      = .ok [175, 175, 109, 31, 13, 152, 155, 237, 100, 0, 0, 0, 0, 0, 0, 0, 5] ∧
    ¬ initializePool_data = .ok (tableGet DISCRIMINATORS "initialize") := by
  decide

/-- C7, amended: the builders for unstake, claim-rewards, init-user-record and
initialize-reward-pool emit exactly the 8-byte discriminator of their instruction; the builders
for initialize, update-tier-multipliers and update-reward-rate put arguments after it: the u64
reward rate 100 and the fee byte 5, four u64 multipliers, and the u64 rate 100. -/
theorem builders_data_after_discriminator (owner nftMint poolState user rewardMint
    userStakingInfo : PublicKey) (sa : StakeAccounts) (ca : ClaimAccounts)
    (D : String → Option Buffer) (common rare epic legendary : Nat)
    (hc : common < 2 ^ 64) (hr : rare < 2 ^ 64) (he : epic < 2 ^ 64) (hl : legendary < 2 ^ 64) :
    (∃ ix, createUnstakeNftInstruction owner nftMint poolState sa = .ok ix ∧
      ix.data = [17, 182, 24, 211, 101, 138, 50, 163]) ∧
    (∃ ix, createClaimRewardsInstruction user nftMint rewardMint ca = .ok ix ∧
      ix.data = [4, 144, 132, 71, 116, 23, 151, 80]) ∧
    (∃ ix, createInitUserStakingInfoInstruction user userStakingInfo = .ok ix ∧
      ix.data = [228, 148, 161, 162, 20, 86, 73, 202]) ∧
    (∀ d, D "UNSTAKE_NFT" = some d → createUnstakeNftInstructionData D = .ok d) ∧
    (∀ d, D "CLAIM_REWARDS" = some d → createClaimRewardsInstructionData D = .ok d) ∧
    (∀ d, D "INIT_USER_STAKING_INFO" = some d →
      createInitUserStakingInfoInstructionData D = .ok d) ∧
    initializeRewardPool_data = [139, 189, 60, 130, 44, 211, 218, 99] ∧
    initializePool_data = .ok ([175, 175, 109, 31, 13, 152, 155, 237]
      ++ (List.range 8).map (fun i => 100 / 256 ^ i % 256) ++ [5]) ∧
    updateTierMultipliers_instructionData common rare epic legendary
      = .ok ([25, 132, 162, 53, 130, 129, 248, 23]
          ++ (List.range 8).map (fun i => common / 256 ^ i % 256)
          ++ (List.range 8).map (fun i => rare / 256 ^ i % 256)
          ++ (List.range 8).map (fun i => epic / 256 ^ i % 256)
          ++ (List.range 8).map (fun i => legendary / 256 ^ i % 256)) ∧
    updateAdminCheck_instructionData = .ok ([105, 157, 0, 185, 21, 144, 163, 159]
      ++ (List.range 8).map (fun i => 100 / 256 ^ i % 256)) := by
  have hplain : ∀ n d, D n = some d → createInstructionData D n [] = .ok d := by
    intro n d hd
    rw [createInstructionData, hd]
    rfl
  refine ⟨?_, ?_, ?_, hplain _, hplain _, hplain _, by decide, by decide, ?_, by decide⟩
  · have hd : tableGet INSTRUCTION_DISCRIMINATORS "UNSTAKE_NFT"
        = [17, 182, 24, 211, 101, 138, 50, 163] := by decide
    rw [createUnstakeNftInstruction, newPublicKey_SYSVAR_RENT, newPublicKey_PROGRAM_ID, hd]
    exact ⟨_, rfl, rfl⟩
  · have hd : tableGet INSTRUCTION_DISCRIMINATORS "CLAIM_REWARDS"
        = [4, 144, 132, 71, 116, 23, 151, 80] := by decide
    rw [createClaimRewardsInstruction, newPublicKey_SYSVAR_RENT, newPublicKey_PROGRAM_ID, hd]
    exact ⟨_, rfl, rfl⟩
  · have hd : tableGet INSTRUCTION_DISCRIMINATORS "INIT_USER_STAKING_INFO"
        = [228, 148, 161, 162, 20, 86, 73, 202] := by decide
    rw [createInitUserStakingInfoInstruction, newPublicKey_PROGRAM_ID, hd]
    exact ⟨_, rfl, rfl⟩
  · have hd : bufferFrom UPDATE_TIER_MULTIPLIERS_DISCRIMINATOR
        = [25, 132, 162, 53, 130, 129, 248, 23] := by decide
    rw [updateTierMultipliers_instructionData, writeBigUInt64LE_natCast common hc,
      writeBigUInt64LE_natCast rare hr, writeBigUInt64LE_natCast epic he,
      writeBigUInt64LE_natCast legendary hl, hd]
    simp [bufferConcat, bind, Except.bind, pure, Except.pure, leBytes64_eq_range]

/-- C7 amended, at the tier multipliers 100, 200, 400 and 800. -/
theorem builders_data_after_discriminator_witness :
    updateTierMultipliers_instructionData ((100 : Nat) : Int) ((200 : Nat) : Int)
        ((400 : Nat) : Int) ((800 : Nat) : Int)
      = .ok [25, 132, 162, 53, 130, 129, 248, 23, 100, 0, 0, 0, 0, 0, 0, 0,
          200, 0, 0, 0, 0, 0, 0, 0, 144, 1, 0, 0, 0, 0, 0, 0, 32, 3, 0, 0, 0, 0, 0, 0] ∧
    createUnstakeNftInstructionData (fun n => INSTRUCTION_DISCRIMINATORS.lookup n)
      = .ok [17, 182, 24, 211, 101, 138, 50, 163] :=
  have h := builders_data_after_discriminator SystemProgram_programId TOKEN_PROGRAM_ID
    ASSOCIATED_TOKEN_PROGRAM_ID SystemProgram_programId TOKEN_PROGRAM_ID
    ASSOCIATED_TOKEN_PROGRAM_ID
    ⟨TOKEN_PROGRAM_ID, TOKEN_PROGRAM_ID, TOKEN_PROGRAM_ID, TOKEN_PROGRAM_ID, TOKEN_PROGRAM_ID⟩
    ⟨TOKEN_PROGRAM_ID, TOKEN_PROGRAM_ID, TOKEN_PROGRAM_ID, TOKEN_PROGRAM_ID, TOKEN_PROGRAM_ID,
      TOKEN_PROGRAM_ID⟩
    (fun n => INSTRUCTION_DISCRIMINATORS.lookup n) 100 200 400 800
    (by decide) (by decide) (by decide) (by decide)
  ⟨h.2.2.2.2.2.2.2.2.1, h.2.2.2.1 _ (by decide)⟩

/-- C10, refuted as stated: the tier value 256, outside `0..255`, is not rejected;
`serializeU8`, `createStakeNftInstructionData` and `createStakeNftInstruction` return a buffer
whose tier byte is 0. -/
theorem stake_tier_256_accepted :
    serializeU8 256 = [0] ∧
    createStakeNftInstructionData (fun n => INSTRUCTION_DISCRIMINATORS.lookup n) String.toUpper
        30 (.num 256) false
      = .ok [38, 27, 66, 46, 69, 65, 151, 219, 30, 0, 0, 0, 0, 0, 0, 0, 0, 0] ∧
    (createStakeNftInstruction SystemProgram_programId TOKEN_PROGRAM_ID
        ASSOCIATED_TOKEN_PROGRAM_ID 30 256 false
        ⟨TOKEN_PROGRAM_ID, TOKEN_PROGRAM_ID, TOKEN_PROGRAM_ID, TOKEN_PROGRAM_ID,
          TOKEN_PROGRAM_ID⟩).map (fun ix => ix.data)
      = .ok [38, 27, 66, 46, 69, 65, 151, 219, 30, 0, 0, 0, 0, 0, 0, 0, 0, 0] := by
  decide!

/-- C10, amended: no range check is made on the tier. For every integer tier value `v`, inside
or outside `0..255`, and every period below `2^64`, `serializeU8`,
`createStakeNftInstructionData` and `createStakeNftInstruction` return a buffer, and the tier
byte they emit is `v` modulo 256. -/
theorem stake_tier_stored_modulo_256 (owner nftMint poolState : PublicKey)
    (accounts : StakeAccounts) (D : String → Option Buffer) (toUpperCase : String → String)
    (d : Buffer) (p : Nat) (v : Int) (a : Bool) (hd : D "STAKE_NFT" = some d)
    (hp : p < 2 ^ 64) :
    serializeU8 v = [(v % 256).toNat] ∧
    createStakeNftInstructionData D toUpperCase p (.num v) a
      = .ok (d ++ (List.range 8).map (fun i => p / 256 ^ i % 256)
          ++ [(v % 256).toNat] ++ [if a then 1 else 0]) ∧
    (∃ ix, createStakeNftInstruction owner nftMint poolState p v a accounts = .ok ix ∧
      ix.data = [38, 27, 66, 46, 69, 65, 151, 219]
        ++ (List.range 8).map (fun i => p / 256 ^ i % 256)
        ++ [(v % 256).toNat] ++ [if a then 1 else 0]) := by
  have ha : bufferFrom [if a then 1 else 0] = [if a then 1 else 0] := by cases a <;> decide
  have hb : serializeBoolean a = [if a then 1 else 0] := ha
  refine ⟨serializeU8_eq_mod v, ?_, ?_⟩
  · have h64 : serializeU64 (p : Int) = .ok (leBytes64 p) := writeBigUInt64LE_natCast p hp
    have hcid : createInstructionData D "STAKE_NFT"
        [leBytes64 p, serializeU8 v, serializeBoolean a]
        = .ok (d ++ [leBytes64 p, serializeU8 v, serializeBoolean a].flatten) :=
      ((createInstructionData_body D "STAKE_NFT" _ d hd))
    show (serializeU64 (p : Int) >>= fun period =>
      createInstructionData D "STAKE_NFT" [period, serializeU8 v, serializeBoolean a]) = _
    rw [h64]
    show createInstructionData D "STAKE_NFT"
      [leBytes64 p, serializeU8 v, serializeBoolean a] = _
    rw [hcid, serializeU8_eq_mod, hb, leBytes64_eq_range]
    simp
  · have hdisc : tableGet INSTRUCTION_DISCRIMINATORS "STAKE_NFT"
        = [38, 27, 66, 46, 69, 65, 151, 219] := by decide
    have ht : bufferFrom [v] = [(v % 256).toNat] := rfl
    rw [createStakeNftInstruction, writeBigUInt64LE_natCast p hp, newPublicKey_SYSVAR_RENT,
      newPublicKey_PROGRAM_ID, hdisc, ha, ht, leBytes64_eq_range]
    refine ⟨_, rfl, ?_⟩
    simp [bufferConcat]

/-- C10 amended, at the tier values 300 and -1 with the shared instruction table. -/
theorem stake_tier_stored_modulo_256_witness :
    (serializeU8 300 = [44] ∧
      createStakeNftInstructionData (fun n => INSTRUCTION_DISCRIMINATORS.lookup n) String.toUpper
          ((30 : Nat) : Int) (.num 300) true
        = .ok [38, 27, 66, 46, 69, 65, 151, 219, 30, 0, 0, 0, 0, 0, 0, 0, 44, 1]) ∧
    serializeU8 (-1) = [255] :=
  ⟨⟨(stake_tier_stored_modulo_256 SystemProgram_programId TOKEN_PROGRAM_ID
      ASSOCIATED_TOKEN_PROGRAM_ID
      ⟨TOKEN_PROGRAM_ID, TOKEN_PROGRAM_ID, TOKEN_PROGRAM_ID, TOKEN_PROGRAM_ID, TOKEN_PROGRAM_ID⟩
      (fun n => INSTRUCTION_DISCRIMINATORS.lookup n) String.toUpper
      [38, 27, 66, 46, 69, 65, 151, 219] 30 300 true (by decide) (by decide)).1,
    (stake_tier_stored_modulo_256 SystemProgram_programId TOKEN_PROGRAM_ID
      ASSOCIATED_TOKEN_PROGRAM_ID
      ⟨TOKEN_PROGRAM_ID, TOKEN_PROGRAM_ID, TOKEN_PROGRAM_ID, TOKEN_PROGRAM_ID, TOKEN_PROGRAM_ID⟩
      (fun n => INSTRUCTION_DISCRIMINATORS.lookup n) String.toUpper
      [38, 27, 66, 46, 69, 65, 151, 219] 30 300 true (by decide) (by decide)).2.1⟩,
   (stake_tier_stored_modulo_256 SystemProgram_programId TOKEN_PROGRAM_ID
      ASSOCIATED_TOKEN_PROGRAM_ID
      ⟨TOKEN_PROGRAM_ID, TOKEN_PROGRAM_ID, TOKEN_PROGRAM_ID, TOKEN_PROGRAM_ID, TOKEN_PROGRAM_ID⟩
      (fun n => INSTRUCTION_DISCRIMINATORS.lookup n) String.toUpper
      [38, 27, 66, 46, 69, 65, 151, 219] 30 (-1) true (by decide) (by decide)).1⟩

/-! ## Auxiliary facts: error translation -/

/-- The test made at one position of the scan. -/
theorem errorNumber_here_iff (l : List Char) :
    (errorNumberLead.isPrefixOf l
        && !((l.drop errorNumberLead.length).takeWhile Char.isDigit).isEmpty) = true ↔
      ∃ d rest, l = errorNumberLead ++ d :: rest ∧ d.isDigit = true := by
  rw [Bool.and_eq_true, List.isPrefixOf_iff_prefix]
  constructor
  · rintro ⟨⟨t, rfl⟩, h2⟩
    rw [List.drop_left] at h2
    cases t with
    | nil => simp at h2
    | cons d rest =>
      refine ⟨d, rest, rfl, ?_⟩
      by_contra hd
      simp [List.takeWhile, hd] at h2
  · rintro ⟨d, rest, rfl, hd⟩
    refine ⟨⟨_, rfl⟩, ?_⟩
    rw [List.drop_left]
    simp [List.takeWhile, hd]

/-- The digits taken at a matching position. -/
theorem takeWhile_digits_append (ds after : List Char) (hds : ∀ c ∈ ds, c.isDigit = true)
    (hafter : ∀ c, after.head? = some c → c.isDigit = false) :
    (ds ++ after).takeWhile Char.isDigit = ds := by
  induction ds with
  | nil =>
    cases after with
    | nil => rfl
    | cons c rest =>
      have := hafter c rfl
      simp [List.takeWhile, this]
  | cons d ds ih =>
    have hd : d.isDigit = true := hds d (List.mem_cons_self _ _)
    have ih' := ih (fun c hc => hds c (List.mem_cons_of_mem _ hc))
    rw [List.cons_append, List.takeWhile_cons, if_pos hd, ih']

/-- The scan returns exactly the first group of the line. -/
theorem matchErrorNumber_eq_some_iff (l ds : List Char) :
    matchErrorNumber l = some ds ↔ FirstErrorNumber l ds := by
  induction l with
  | nil =>
    constructor
    · intro h; simp [matchErrorNumber] at h
    · rintro ⟨a, b, h, -⟩
      have : ([] : List Char).length = (a ++ errorNumberLead ++ ds ++ b).length := by rw [← h]
      simp [errorNumberLead] at this
      omega
  | cons c cs ih =>
    by_cases hhere : (errorNumberLead.isPrefixOf (c :: cs)
        && !(((c :: cs).drop errorNumberLead.length).takeWhile Char.isDigit).isEmpty) = true
    · have hm : matchErrorNumber (c :: cs)
          = some (((c :: cs).drop errorNumberLead.length).takeWhile Char.isDigit) := by
        rw [matchErrorNumber]; simp only [hhere, if_true]
      obtain ⟨d, rest, hl, hd⟩ := (errorNumber_here_iff _).1 hhere
      rw [hm]
      constructor
      · intro h
        have hds : ((c :: cs).drop errorNumberLead.length).takeWhile Char.isDigit = ds := by
          injection h
        refine ⟨[], ((c :: cs).drop errorNumberLead.length).dropWhile Char.isDigit, ?_, ?_, ?_,
          ?_, ?_⟩
        · rw [← hds, List.nil_append, List.append_assoc, List.takeWhile_append_dropWhile]
          rw [hl, List.drop_left]
        · rw [← hds, hl, List.drop_left]
          simp [List.takeWhile, hd]
        · intro x hx
          rw [← hds] at hx
          exact (List.mem_takeWhile_imp hx)
        · intro x hx
          have := List.head?_dropWhile_not Char.isDigit ((c :: cs).drop errorNumberLead.length)
          rw [hx] at this
          simpa using this
        · intro a' d' b' _ _
          exact Nat.zero_le _
      · rintro ⟨a, b, h, hne, hdig, hafter, hmin⟩
        have ha : a = [] := by
          have := hmin [] d rest (by rw [hl]; rfl) hd
          exact List.length_eq_zero.1 (Nat.le_zero.1 this)
        subst ha
        rw [h, List.nil_append, List.append_assoc, List.drop_left,
          takeWhile_digits_append ds b hdig hafter]
    · have hm : matchErrorNumber (c :: cs) = matchErrorNumber cs := by
        rw [matchErrorNumber]; simp only [hhere, Bool.false_eq_true, if_false]
      rw [hm, ih]
      have hnot : ¬ ∃ d rest, c :: cs = errorNumberLead ++ d :: rest ∧ d.isDigit = true :=
        fun h => hhere ((errorNumber_here_iff _).2 h)
      constructor
      · rintro ⟨a, b, h, hne, hdig, hafter, hmin⟩
        refine ⟨c :: a, b, by rw [h]; rfl, hne, hdig, hafter, ?_⟩
        intro a' d' b' h' hd'
        cases a' with
        | nil => exact absurd ⟨d', b', h', hd'⟩ hnot
        | cons x a'' =>
          have hcs : cs = a'' ++ errorNumberLead ++ d' :: b' := by
            simp only [List.cons_append] at h'
            exact (List.cons.inj h').2
          have := hmin a'' d' b' hcs hd'
          simp only [List.length_cons]
          omega
      · rintro ⟨a, b, h, hne, hdig, hafter, hmin⟩
        cases a with
        | nil =>
          exfalso
          cases ds with
          | nil => exact hne rfl
          | cons d ds' =>
            exact hnot ⟨d, ds' ++ b, by rw [h]; simp, hdig d (List.mem_cons_self _ _)⟩
        | cons x a0 =>
          have hx : c = x ∧ cs = a0 ++ errorNumberLead ++ ds ++ b := by
            simp only [List.cons_append] at h
            exact List.cons.inj h
          refine ⟨a0, b, hx.2, hne, hdig, hafter, ?_⟩
          intro a' d' b' h' hd'
          have := hmin (c :: a') d' b' (by rw [h']; rfl) hd'
          simp only [List.length_cons] at this
          omega

/-- A line whose groups name no table entry makes the loop go on. -/
theorem logLineMessage_eq_none (l : String)
    (h : "Error Code:".data <:+: l.data → ∀ ds, FirstErrorNumber l.data ds →
      ERROR_CODES.lookup (parseDigits ds) = none) :
    logLineMessage l = none := by
  unfold logLineMessage includes
  by_cases hc : "Error Code:".data <:+: l.data
  · simp only [hc, decide_True, if_true]
    cases hm : matchErrorNumber l.data with
    | none => rfl
    | some ds =>
      have := h hc ds ((matchErrorNumber_eq_some_iff _ _).1 hm)
      simp [this]
  · simp [hc]

/-- A line that has `Error Code:` and whose first group names a table entry ends the loop. -/
theorem logLineMessage_eq_some (l : String) (ds : List Char) (info : ErrorInfo)
    (hc : "Error Code:".data <:+: l.data) (hds : FirstErrorNumber l.data ds)
    (hinfo : ERROR_CODES.lookup (parseDigits ds) = some info) :
    logLineMessage l = some info.message := by
  unfold logLineMessage includes
  simp only [hc, decide_True, if_true]
  rw [(matchErrorNumber_eq_some_iff _ _).2 hds]
  simp [hinfo]

/-! ## Auxiliary facts: rounding to doubles, elapsed days, the penalty formula -/

theorem bitLength_spec (fuel n : Nat) (h : n ≤ fuel) :
    n < 2 ^ bitLength fuel n ∧ (n ≠ 0 → 2 ^ (bitLength fuel n - 1) ≤ n) := by
  induction fuel generalizing n with
  | zero =>
    have : n = 0 := by omega
    subst this
    simp [bitLength]
  | succ fuel ih =>
    by_cases hn : n = 0
    · subst hn
      simp [bitLength]
    · have hle : n / 2 ≤ fuel := by omega
      obtain ⟨h1, h2⟩ := ih (n / 2) hle
      simp only [bitLength, hn, if_false, Nat.add_sub_cancel]
      refine ⟨?_, fun _ => ?_⟩
      · rw [Nat.pow_succ]
        omega
      · by_cases h0 : n / 2 = 0
        · have hb : bitLength fuel (n / 2) = 0 := by
            rw [h0]
            cases fuel <;> simp [bitLength]
          rw [hb]
          simp
          omega
        · have h3 := h2 h0
          have hpos : 0 < bitLength fuel (n / 2) := by
            rcases Nat.eq_zero_or_pos (bitLength fuel (n / 2)) with h | h
            · rw [h] at h1
              omega
            · exact h
          have : 2 ^ bitLength fuel (n / 2) = 2 * 2 ^ (bitLength fuel (n / 2) - 1) := by
            rw [← Nat.pow_succ']
            congr 1
            omega
          omega

theorem binaryExponent_spec (q : ℚ) (hq : q ≠ 0) :
    (2 : ℚ) ^ binaryExponent q ≤ |q| ∧ |q| < (2 : ℚ) ^ (binaryExponent q + 1) := by
  have hnum : q.num.natAbs ≠ 0 := by
    simpa using Rat.num_ne_zero.2 hq
  have hden : q.den ≠ 0 := q.den_nz
  obtain ⟨hn1, hn2⟩ := bitLength_spec q.num.natAbs q.num.natAbs le_rfl
  obtain ⟨hd1, hd2⟩ := bitLength_spec q.den q.den le_rfl
  have hn2 := hn2 hnum
  have hd2 := hd2 hden
  set bn := bitLength q.num.natAbs q.num.natAbs with hbn
  set bd := bitLength q.den q.den with hbd
  have habs : |q| = (q.num.natAbs : ℚ) / (q.den : ℚ) := by
    rw [Nat.cast_natAbs, Int.cast_abs]
    conv_lhs => rw [← Rat.num_div_den q]
    rw [abs_div, Nat.abs_cast]
  have hdpos : (0 : ℚ) < (q.den : ℚ) := by exact_mod_cast Nat.pos_of_ne_zero hden
  have hbnpos : 0 < bn := by
    rcases Nat.eq_zero_or_pos bn with h | h
    · rw [h] at hn1; omega
    · exact h
  have hbdpos : 0 < bd := by
    rcases Nat.eq_zero_or_pos bd with h | h
    · rw [h] at hd1; omega
    · exact h
  -- bounds in ℚ
  have e1 : (q.num.natAbs : ℚ) < 2 ^ bn := by exact_mod_cast hn1
  have e2 : (2 : ℚ) ^ (bn - 1) ≤ (q.num.natAbs : ℚ) := by exact_mod_cast hn2
  have e3 : (q.den : ℚ) < 2 ^ bd := by exact_mod_cast hd1
  have e4 : (2 : ℚ) ^ (bd - 1) ≤ (q.den : ℚ) := by exact_mod_cast hd2
  have two_pos : ∀ k : ℤ, (0 : ℚ) < 2 ^ k := fun k => zpow_pos (by norm_num) k
  have hk1 : (2 : ℚ) ^ (((bn : ℤ) - (bd : ℤ)) + 1) = 2 ^ bn / 2 ^ (bd - 1) := by
    have : ((bn : ℤ) - (bd : ℤ)) + 1 = (bn : ℤ) - ((bd - 1 : ℕ) : ℤ) := by omega
    rw [this, zpow_sub₀ (by norm_num), zpow_natCast, zpow_natCast]
  have hk0 : (2 : ℚ) ^ (((bn : ℤ) - (bd : ℤ)) - 1) = 2 ^ (bn - 1) / 2 ^ bd := by
    have : ((bn : ℤ) - (bd : ℤ)) - 1 = ((bn - 1 : ℕ) : ℤ) - (bd : ℤ) := by omega
    rw [this, zpow_sub₀ (by norm_num), zpow_natCast, zpow_natCast]
  have upper : |q| < (2 : ℚ) ^ (((bn : ℤ) - (bd : ℤ)) + 1) := by
    rw [hk1, habs, div_lt_div_iff₀ hdpos (by positivity)]
    calc (q.num.natAbs : ℚ) * 2 ^ (bd - 1) < 2 ^ bn * 2 ^ (bd - 1) := by
          apply mul_lt_mul_of_pos_right e1 (by positivity)
      _ ≤ 2 ^ bn * (q.den : ℚ) := by
          apply mul_le_mul_of_nonneg_left e4 (by positivity)
  have lower : (2 : ℚ) ^ (((bn : ℤ) - (bd : ℤ)) - 1) ≤ |q| := by
    rw [hk0, habs, div_le_div_iff₀ (by positivity) hdpos]
    calc (2 : ℚ) ^ (bn - 1) * (q.den : ℚ) ≤ (q.num.natAbs : ℚ) * (q.den : ℚ) := by
          apply mul_le_mul_of_nonneg_right e2 (le_of_lt hdpos)
      _ ≤ (q.num.natAbs : ℚ) * 2 ^ bd := by
          apply mul_le_mul_of_nonneg_left (le_of_lt e3) (by positivity)
  unfold binaryExponent
  simp only [← hbn, ← hbd]
  split
  · rename_i h
    exact ⟨h, upper⟩
  · rename_i h
    refine ⟨lower, ?_⟩
    rw [sub_add_cancel]
    exact lt_of_not_le h

theorem roundHalfEven_cases (x : ℚ) :
    roundHalfEven x = ⌊x⌋ ∧ x - ⌊x⌋ ≤ 1 / 2 ∨ roundHalfEven x = ⌊x⌋ + 1 ∧ 1 / 2 ≤ x - ⌊x⌋ := by
  unfold roundHalfEven
  simp only
  split
  · left; exact ⟨rfl, by linarith⟩
  · rename_i h1
    split
    · right; exact ⟨rfl, by linarith⟩
    · rename_i h2
      have : x - ⌊x⌋ = 1 / 2 := le_antisymm (not_lt.1 h2) (not_lt.1 h1)
      split
      · left; exact ⟨rfl, by linarith⟩
      · right; exact ⟨rfl, by linarith⟩

theorem le_roundHalfEven (x : ℚ) (m : ℤ) (h : (m : ℚ) ≤ x) : m ≤ roundHalfEven x := by
  have hf : m ≤ ⌊x⌋ := Int.le_floor.2 h
  rcases roundHalfEven_cases x with ⟨h1, _⟩ | ⟨h1, _⟩ <;> omega

theorem roundHalfEven_le (x : ℚ) (m : ℤ) (h : x ≤ (m : ℚ)) : roundHalfEven x ≤ m := by
  rcases roundHalfEven_cases x with ⟨h1, _⟩ | ⟨h1, h2⟩
  · have : (⌊x⌋ : ℚ) ≤ x := Int.floor_le x
    have : ((⌊x⌋ : ℤ) : ℚ) ≤ (m : ℚ) := by linarith
    have : ⌊x⌋ ≤ m := by exact_mod_cast this
    omega
  · have : ((⌊x⌋ : ℤ) : ℚ) < (m : ℚ) := by linarith
    have : ⌊x⌋ < m := by exact_mod_cast this
    omega

theorem abs_roundHalfEven_sub_le (x : ℚ) : |(roundHalfEven x : ℚ) - x| ≤ 1 / 2 := by
  have hf1 : (⌊x⌋ : ℚ) ≤ x := Int.floor_le x
  have hf2 : x < ⌊x⌋ + 1 := Int.lt_floor_add_one x
  rw [abs_le]
  rcases roundHalfEven_cases x with ⟨h1, h2⟩ | ⟨h1, h2⟩
  · rw [h1]; constructor <;> linarith
  · rw [h1]; push_cast; constructor <;> linarith

/-- A dyadic number `n / 2^k` on the grid of `q` (that is, `|q| < 2^(53-k)`) that lies below
`q` lies below the double nearest to `q`, and the same from above. -/
theorem toDouble_mono_dyadic (q : ℚ) (n : ℤ) (k : ℕ) (hq' : |q| * 2 ^ k < 2 ^ 53) :
    ((n : ℚ) / 2 ^ k ≤ q → (n : ℚ) / 2 ^ k ≤ toDouble q) ∧
    (q ≤ (n : ℚ) / 2 ^ k → toDouble q ≤ (n : ℚ) / 2 ^ k) := by
  have hq : |q| < 2 ^ ((53 : ℤ) - k) := by
    rw [zpow_sub₀ (by norm_num), zpow_natCast, lt_div_iff₀ (by positivity)]
    exact_mod_cast hq'
  by_cases h0 : q = 0
  · subst h0
    simp [toDouble]
  · obtain ⟨he1, he2⟩ := binaryExponent_spec q h0
    set e := binaryExponent q with he
    have hlt : (2 : ℚ) ^ e < 2 ^ ((53 : ℤ) - k) := lt_of_le_of_lt he1 hq
    have helt : e < 53 - (k : ℤ) := (zpow_lt_zpow_iff_right₀ (by norm_num : (1 : ℚ) < 2)).1 hlt
    obtain ⟨j, hj⟩ : ∃ j : ℕ, (j : ℤ) = -(k : ℤ) - (e - 52) := ⟨(-(k : ℤ) - (e - 52)).toNat, by omega⟩
    have hu : (0 : ℚ) < 2 ^ (e - 52) := zpow_pos (by norm_num) _
    have hgrid : (n : ℚ) / 2 ^ k = ((n * 2 ^ j : ℤ) : ℚ) * 2 ^ (e - 52) := by
      push_cast
      rw [mul_assoc, ← zpow_natCast (2 : ℚ) j, ← zpow_add₀ (by norm_num : (2 : ℚ) ≠ 0), hj]
      rw [show -(k : ℤ) - (e - 52) + (e - 52) = -(k : ℤ) by ring, zpow_neg, zpow_natCast]
      rfl
    have hfl : toDouble q = (roundHalfEven (q / 2 ^ (e - 52)) : ℚ) * 2 ^ (e - 52) := by
      simp only [toDouble, h0, if_false, ← he]
    rw [hfl, hgrid]
    constructor
    · intro h
      have : ((n * 2 ^ j : ℤ) : ℚ) ≤ q / 2 ^ (e - 52) := by
        rw [le_div_iff₀ hu]; exact h
      have := le_roundHalfEven _ _ this
      have : ((n * 2 ^ j : ℤ) : ℚ) ≤ (roundHalfEven (q / 2 ^ (e - 52)) : ℚ) := by exact_mod_cast this
      exact mul_le_mul_of_nonneg_right this (le_of_lt hu)
    · intro h
      have : q / 2 ^ (e - 52) ≤ ((n * 2 ^ j : ℤ) : ℚ) := by
        rw [div_le_iff₀ hu]; exact h
      have := roundHalfEven_le _ _ this
      have : (roundHalfEven (q / 2 ^ (e - 52)) : ℚ) ≤ ((n * 2 ^ j : ℤ) : ℚ) := by exact_mod_cast this
      exact mul_le_mul_of_nonneg_right this (le_of_lt hu)

/-- The relative error of the rounding is at most `2^-53`. -/
theorem abs_toDouble_sub_le (q : ℚ) : |toDouble q - q| ≤ |q| / 2 ^ 53 := by
  by_cases h0 : q = 0
  · subst h0
    simp [toDouble]
  · obtain ⟨he1, he2⟩ := binaryExponent_spec q h0
    set e := binaryExponent q with he
    have hu : (0 : ℚ) < 2 ^ (e - 52) := zpow_pos (by norm_num) _
    have hfl : toDouble q = (roundHalfEven (q / 2 ^ (e - 52)) : ℚ) * 2 ^ (e - 52) := by
      simp only [toDouble, h0, if_false, ← he]
    have hq : q = q / 2 ^ (e - 52) * 2 ^ (e - 52) := by
      field_simp
    have h1 := abs_roundHalfEven_sub_le (q / 2 ^ (e - 52))
    have : toDouble q - q
        = ((roundHalfEven (q / 2 ^ (e - 52)) : ℚ) - q / 2 ^ (e - 52)) * 2 ^ (e - 52) := by
      rw [hfl, sub_mul, ← hq]
    rw [this, abs_mul, abs_of_pos hu]
    have h2 : (2 : ℚ) ^ (e - 52) = 2 ^ e / 2 ^ 52 := by
      rw [zpow_sub₀ (by norm_num)]; norm_num
    calc |(roundHalfEven (q / 2 ^ (e - 52)) : ℚ) - q / 2 ^ (e - 52)| * 2 ^ (e - 52)
        ≤ 1 / 2 * 2 ^ (e - 52) := mul_le_mul_of_nonneg_right h1 (le_of_lt hu)
      _ = 2 ^ e / 2 ^ 53 := by rw [h2]; ring
      _ ≤ |q| / 2 ^ 53 := by
          apply div_le_div_of_nonneg_right he1 (by positivity)


/-- An integer below `q` lies below the double nearest to `q`, and the same from above, for
`|q| < 2^53`. -/
theorem toDouble_mono_int (q : ℚ) (n : ℤ) (hq : |q| < 2 ^ 53) :
    ((n : ℚ) ≤ q → (n : ℚ) ≤ toDouble q) ∧ (q ≤ (n : ℚ) → toDouble q ≤ (n : ℚ)) := by
  have h := toDouble_mono_dyadic q n 0 (by simpa using hq)
  simpa using h

/-- An integer of magnitude below `2^53` is a double. -/
theorem toDouble_intCast (n : ℤ) (hn : |(n : ℚ)| < 2 ^ 53) : toDouble (n : ℚ) = n := by
  have h := toDouble_mono_int (n : ℚ) n hn
  exact le_antisymm (h.2 le_rfl) (h.1 le_rfl)

/-- The value `1/2` is a double. -/
theorem toDouble_half : toDouble (1 / 2) = 1 / 2 := by
  have h := toDouble_mono_dyadic (1 / 2) 1 1 (by rw [abs_of_pos (by norm_num)]; norm_num)
  have h1 : ((1 : ℤ) : ℚ) / 2 ^ 1 = 1 / 2 := by norm_num
  rw [h1] at h
  exact le_antisymm (h.2 le_rfl) (h.1 le_rfl)

/-- The floor of a rounded quotient of integers is the floor of the exact quotient. -/
theorem floor_toDouble_div (a : ℤ) (b : ℕ) (hb : 0 < b) (ha : |(a : ℚ)| < 2 ^ 53) :
    ⌊toDouble ((a : ℚ) / b)⌋ = ⌊(a : ℚ) / b⌋ := by
  have hbq : (0 : ℚ) < b := by exact_mod_cast hb
  have hb1 : (1 : ℚ) ≤ b := by exact_mod_cast hb
  have habs : |(a : ℚ) / b| ≤ |(a : ℚ)| := by
    rw [abs_div, abs_of_pos hbq]
    exact div_le_self (abs_nonneg _) hb1
  have hq : |(a : ℚ) / b| < 2 ^ 53 := lt_of_le_of_lt habs ha
  set n := ⌊(a : ℚ) / b⌋ with hn
  have h1 : (n : ℚ) ≤ (a : ℚ) / b := Int.floor_le _
  have h2 : (a : ℚ) / b < n + 1 := Int.lt_floor_add_one _
  rw [Int.floor_eq_iff]
  refine ⟨(toDouble_mono_int _ n hq).1 h1, ?_⟩
  -- the exact quotient is at least `1/b` below `n + 1`
  have h3 : (a : ℚ) < (n + 1) * b := by rwa [div_lt_iff₀ hbq] at h2
  have h4 : a < (n + 1) * (b : ℤ) := by exact_mod_cast h3
  have h5 : a + 1 ≤ (n + 1) * (b : ℤ) := h4
  have h6 : (a : ℚ) + 1 ≤ (n + 1) * b := by exact_mod_cast h5
  have h7 : (a : ℚ) / b + 1 / b ≤ n + 1 := by
    rw [← add_div, div_le_iff₀ hbq]; exact h6
  have herr := abs_toDouble_sub_le ((a : ℚ) / b)
  have h8 : |(a : ℚ) / b| / 2 ^ 53 < 1 / b := by
    rw [abs_div, abs_of_pos hbq, div_div, div_lt_div_iff₀ (by positivity) hbq]
    calc |(a : ℚ)| * b < 2 ^ 53 * b := mul_lt_mul_of_pos_right ha hbq
      _ = 1 * (b * 2 ^ 53) := by ring
  have h9 := (abs_le.1 herr).2
  linarith

/-- The function `calculateDaysElapsed` on integer times is the whole number of days. -/
theorem calculateDaysElapsed_int (a b : ℤ) (h : |((b - a : ℤ) : ℚ)| < 2 ^ 53) :
    calculateDaysElapsed a b = ((⌊((b - a : ℤ) : ℚ) / 86400⌋ : ℤ) : ℚ) := by
  unfold calculateDaysElapsed jsDiv jsSub mathFloor
  have h1 : ((b : ℚ) - (a : ℚ)) = ((b - a : ℤ) : ℚ) := by push_cast; ring
  rw [h1, toDouble_intCast _ h]
  have h2 : (24 * 60 * 60 : ℚ) = ((86400 : ℕ) : ℚ) := by norm_num
  simp only [h2]
  rw [floor_toDouble_div _ 86400 (by norm_num) h]
  norm_num

/-- The rounded linear formula stays between 0 and 50 for a ratio between `1/2` and 1. -/
theorem penalty_formula_bounds (r : ℚ) (h1 : 1 / 2 ≤ r) (h2 : r ≤ 1) :
    0 ≤ mathRound (jsSub 50 (jsMul (jsSub r (1 / 2)) 100)) ∧
    mathRound (jsSub 50 (jsMul (jsSub r (1 / 2)) 100)) ≤ 50 := by
  unfold mathRound jsSub jsMul
  -- the difference
  have hd := toDouble_mono_dyadic (r - 1 / 2) 0 0 (by
    have : |r - 1 / 2| ≤ 1 / 2 := by rw [abs_le]; constructor <;> linarith
    calc |r - 1 / 2| * 2 ^ _ ≤ 1 / 2 * 2 ^ _ := mul_le_mul_of_nonneg_right this (by positivity)
      _ < _ := by norm_num)
  have hd' := toDouble_mono_dyadic (r - 1 / 2) 1 1 (by
    have : |r - 1 / 2| ≤ 1 / 2 := by rw [abs_le]; constructor <;> linarith
    calc |r - 1 / 2| * 2 ^ _ ≤ 1 / 2 * 2 ^ _ := mul_le_mul_of_nonneg_right this (by positivity)
      _ < _ := by norm_num)
  have d0 : 0 ≤ toDouble (r - 1 / 2) := by
    have := hd.1 (by norm_num; linarith)
    simpa using this
  have d1 : toDouble (r - 1 / 2) ≤ 1 / 2 := by
    have := hd'.2 (by norm_num; linarith)
    simpa using this
  set d := toDouble (r - 1 / 2)
  have hy : |d * 100| < 2 ^ 53 := by
    rw [abs_of_nonneg (by positivity)]
    calc d * 100 ≤ 1 / 2 * 100 := by linarith
      _ < _ := by norm_num
  have y0 : 0 ≤ toDouble (d * 100) := by
    have := (toDouble_mono_int (d * 100) 0 hy).1 (by simp; positivity)
    simpa using this
  have y1 : toDouble (d * 100) ≤ 50 := by
    have := (toDouble_mono_int (d * 100) 50 hy).2 (by push_cast; linarith)
    simpa using this
  set y := toDouble (d * 100)
  have hx : |50 - y| < 2 ^ 53 := by
    rw [abs_of_nonneg (by linarith)]
    calc 50 - y ≤ 50 := by linarith
      _ < _ := by norm_num
  have x0 : 0 ≤ toDouble (50 - y) := by
    have := (toDouble_mono_int (50 - y) 0 hx).1 (by simp; linarith)
    simpa using this
  have x1 : toDouble (50 - y) ≤ 50 := by
    have := (toDouble_mono_int (50 - y) 50 hx).2 (by push_cast; linarith)
    simpa using this
  set x := toDouble (50 - y)
  constructor
  · have : (0 : ℤ) ≤ ⌊x + 1 / 2⌋ := Int.floor_nonneg.2 (by linarith)
    exact_mod_cast this
  · have : ⌊x + 1 / 2⌋ ≤ (50 : ℤ) := by
      have : ⌊x + 1 / 2⌋ < (51 : ℤ) := by
        rw [Int.floor_lt]; push_cast; linarith
      omega
    exact_mod_cast this

/-- The rounded linear formula is 0 at the ratio 1. -/
theorem penalty_formula_one : mathRound (jsSub 50 (jsMul (jsSub 1 (1 / 2)) 100)) = 0 := by
  unfold mathRound jsSub jsMul
  have h1 : (1 : ℚ) - 1 / 2 = 1 / 2 := by norm_num
  rw [h1, toDouble_half]
  have h2 : (1 / 2 : ℚ) * 100 = ((50 : ℤ) : ℚ) := by norm_num
  rw [h2, toDouble_intCast _ (by norm_num)]
  have h3 : (50 : ℚ) - ((50 : ℤ) : ℚ) = ((0 : ℤ) : ℚ) := by norm_num
  rw [h3, toDouble_intCast _ (by norm_num)]
  norm_num

/-- The penalty percentage of a premature unstake with a period that is not 0, as the
function computes it. -/
theorem penaltyPercentage_premature (now : ℚ) (s : StakingInfo) (h : ¬ s.release_date ≤ now)
    (hp : s.staking_period ≠ 0) :
    (calculateEarlyUnstakingPenalty now s).penaltyPercentage
      = if calculateDaysElapsed s.staked_at now < 7 then 50
        else if min 1 (max 0 (jsDiv (calculateDaysElapsed s.staked_at now) s.staking_period))
            < 1 / 2 then 50
        else mathRound (jsSub 50 (jsMul (jsSub (min 1 (max 0
          (jsDiv (calculateDaysElapsed s.staked_at now) s.staking_period))) (1 / 2)) 100)) := by
  simp only [calculateEarlyUnstakingPenalty, h, hp, if_false]

/-- The penalty percentage once the release date is reached. -/
theorem penaltyPercentage_completed (now : ℚ) (s : StakingInfo) (h : s.release_date ≤ now) :
    (calculateEarlyUnstakingPenalty now s).penaltyPercentage = 0 := by
  simp only [calculateEarlyUnstakingPenalty, h, if_true]

/-! ## The claims on error translation and on the unstaking penalty -/

/-- C16: for every code `c` of the table `ERROR_CODES`, whose keys are 6000 to 6025,
`getErrorMessage` applied to an error whose `error.errorCode.number` is `c` returns the message
of the entry `c`, whatever the fields `logs`, `code` and `message` of the error are. -/
theorem getErrorMessage_program_code (c : Nat) (info : ErrorInfo)
    (logs : Option (List String)) (code : JsCode) (message : Option String)
    (hc : ERROR_CODES.lookup c = some info) :
    getErrorMessage (.obj ⟨some ⟨some ⟨.int c⟩⟩, logs, code, message⟩) = some info.message ∧
    ERROR_CODES.map Prod.fst = List.range' 6000 26 := by
  refine ⟨?_, by decide⟩
  have h : tableLookupInt ERROR_CODES (c : Int) = some info := hc
  simp only [getErrorMessage, h]

/-- C16, at the code 6004 with logs, a wallet code and a message present. -/
theorem getErrorMessage_program_code_witness :
    getErrorMessage (.obj ⟨some ⟨some ⟨.int ((6004 : Nat) : Int)⟩⟩,
        some ["Program log: Error Code: NotOwner. Error Number: 6001."], .num 4001,
        some "insufficient funds"⟩)
      = some
        (ErrorInfo.mk "StakingPeriodNotCompleted" "스테이킹 기간이 아직 완료되지 않았습니다").message ∧
    ERROR_CODES.map Prod.fst = List.range' 6000 26 :=
  getErrorMessage_program_code 6004 _ _ _ _ (by decide)

/-- C17, refuted as stated: a log line that holds `Error Number: 6004` without the text
`Error Code:` is not resolved through the table; with nothing else in the error the fixed
fallback text is returned. -/
theorem getErrorMessage_log_without_error_code :
    getErrorMessage (.obj ⟨none, some ["Program log: Error Number: 6004"], .undefined, none⟩)
      = some "알 수 없는 오류가 발생했습니다" ∧
    ERROR_CODES.lookup 6004 = some ⟨"StakingPeriodNotCompleted",
      "스테이킹 기간이 아직 완료되지 않았습니다"⟩ := by
  decide

/-- C17, amended: for an error without structured program code and with log lines, if some line
contains `Error Code:` and its first group `Error Number: <digits>` is the number of a table
entry, and no earlier line is of that kind, `getErrorMessage` returns the message of that
entry. -/
theorem getErrorMessage_from_logs (e : ErrorObj) (pre post : List String) (line : String)
    (digits : List Char) (info : ErrorInfo)
    (hcode : e.error = none)
    (hlogs : e.logs = some (pre ++ line :: post))
    (hline : "Error Code:".data <:+: line.data)
    (hdigits : FirstErrorNumber line.data digits)
    (hinfo : ERROR_CODES.lookup (parseDigits digits) = some info)
    (hpre : ∀ l ∈ pre, "Error Code:".data <:+: l.data → ∀ ds, FirstErrorNumber l.data ds →
      ERROR_CODES.lookup (parseDigits ds) = none) :
    getErrorMessage (.obj e) = some info.message := by
  have hfind : (pre ++ line :: post).findSome? logLineMessage = some info.message := by
    rw [List.findSome?_append]
    have hnone : pre.findSome? logLineMessage = none := by
      rw [List.findSome?_eq_none_iff]
      exact fun l hl => logLineMessage_eq_none l (hpre l hl)
    rw [hnone, List.findSome?_cons, logLineMessage_eq_some line digits info hline hdigits hinfo]
    rfl
  obtain ⟨err, logs, code, message⟩ := e
  simp only at hcode hlogs
  subst hcode hlogs
  simp only [getErrorMessage, Option.getD_some, hfind]

/-- C17 amended, on two log lines of a failed unstake. -/
theorem getErrorMessage_from_logs_witness :
    getErrorMessage (.obj ⟨none,
        some (["Program log: Instruction: UnstakeNft"]
          ++ "Program log: AnchorError occurred. Error Code: StakingPeriodNotCompleted. Error Number: 6004. Error Message: Staking period not completed."
            :: ["Program failed"]),
        .undefined, none⟩)
      = some
        (ErrorInfo.mk "StakingPeriodNotCompleted" "스테이킹 기간이 아직 완료되지 않았습니다").message :=
  getErrorMessage_from_logs _ ["Program log: Instruction: UnstakeNft"] ["Program failed"]
    "Program log: AnchorError occurred. Error Code: StakingPeriodNotCompleted. Error Number: 6004. Error Message: Staking period not completed."
    "6004".data _ rfl rfl (by decide) ((matchErrorNumber_eq_some_iff _ _).1 (by decide))
    (by decide)
    (by
      intro l hl hc
      rw [List.mem_singleton] at hl
      subst hl
      exact absurd hc (by decide))

/-- C18, refuted as stated: an error whose message is the empty string, as `new Error()` has,
and an error that is not an object match nothing, and the fixed fallback text is returned in
place of the payload; and for an error whose code is `constructor`, which is no key of any
table, the result is `undefined` and the message `boom` is dropped. -/
theorem getErrorMessage_empty_message_replaced :
    getErrorMessage (.obj ⟨none, none, .undefined, some ""⟩)
      = some "알 수 없는 오류가 발생했습니다" ∧
    getErrorMessage (.obj ⟨none, none, .undefined, none⟩) = some "알 수 없는 오류가 발생했습니다" ∧
    getErrorMessage .nonObject = some "알 수 없는 오류가 발생했습니다" ∧
    getErrorMessage (.obj ⟨none, none, .str "constructor", some "boom"⟩) = none := by
  decide

/-- C18, amended: for an error object that matches none of the code tables, log patterns or
message patterns and whose message is a non-empty string, `getErrorMessage` returns that
message unchanged; a code that names a member inherited from `Object.prototype` counts as a
match of the wallet table, since the lookup finds that member. -/
theorem getErrorMessage_keeps_message (e : ErrorObj) (m : String)
    (hmessage : e.message = some m) (hm : m ≠ "")
    (hprogram : ∀ c, e.error = some ⟨some ⟨.int c⟩⟩ → tableLookupInt ERROR_CODES c = none)
    (hlogs : ∀ l ∈ e.logs.getD [], "Error Code:".data <:+: l.data →
      ∀ ds, FirstErrorNumber l.data ds → ERROR_CODES.lookup (parseDigits ds) = none)
    (hsolana : tableLookupCode SOLANA_ERROR_CODES e.code = .absent)
    (hclient : ∀ s, e.code = .str s → CLIENT_ERROR_CODES.lookup s = none)
    (hpatterns : ∀ p ∈ ["insufficient funds", "0x1", "failed to fetch", "network", "blockhash",
      "simulation failed", "SimulationError"], ¬ p.data <:+: m.data) :
    getErrorMessage (.obj e) = some m := by
  obtain ⟨err, logs, code, message⟩ := e
  simp only at hmessage hprogram hlogs hsolana hclient
  subst hmessage
  have h1 : (match err with
      | some ⟨some ⟨.int c⟩⟩ => tableLookupInt ERROR_CODES c
      | _ => none) = none := by
    split
    · exact hprogram _ rfl
    · rfl
  have h2 : (logs.getD []).findSome? logLineMessage = none := by
    rw [List.findSome?_eq_none_iff]
    exact fun l hl => logLineMessage_eq_none l (hlogs l hl)
  have h3 : (if code.truthy then tableLookupCode SOLANA_ERROR_CODES code else .absent)
      = .absent := by
    split
    · exact hsolana
    · rfl
  have h4 : (match code with
      | .str s => CLIENT_ERROR_CODES.lookup s
      | _ => none) = none := by
    split
    · exact hclient _ rfl
    · rfl
  have h5 : messagePatternMessage m = none := by
    have hp : ∀ p ∈ ["insufficient funds", "0x1", "failed to fetch", "network", "blockhash",
        "simulation failed", "SimulationError"], includes m p = false := by
      intro p hp
      simp only [includes, decide_eq_false_iff_not]
      exact hpatterns p hp
    simp only [messagePatternMessage, hp _ (by decide : "insufficient funds" ∈ _),
      hp "0x1" (by decide), hp "failed to fetch" (by decide), hp "network" (by decide),
      hp "blockhash" (by decide), hp "simulation failed" (by decide),
      hp "SimulationError" (by decide), Bool.or_self, Bool.false_eq_true, if_false]
  have hne : (m != "") = true := by simpa using hm
  simp only [getErrorMessage, h1, h2, h3, h4, Option.getD_some, hne, if_true, h5]

/-- C18 amended, at an error that carries only the message `Transaction was not confirmed`. -/
theorem getErrorMessage_keeps_message_witness :
    getErrorMessage (.obj ⟨none, some ["Program log: Instruction: StakeNft"], .num 17,
      some "Transaction was not confirmed"⟩) = some "Transaction was not confirmed" :=
  getErrorMessage_keeps_message _ _ rfl (by decide) (by intro c h; cases h)
    (by
      intro l hl hc
      rw [Option.getD_some, List.mem_singleton] at hl
      subst hl
      exact absurd hc (by decide))
    (by decide) (by intro s h; cases h) (by decide)

/-- C19: for every stake record with integer times and `staking_period > 0` and every
current time, the penalty percentage lies between 0 and 50; and for a record as
`completeStaking.js` writes it, with `release_date = staked_at + staking_period * 86400`, it
is 0 whenever the elapsed whole days are at least `staking_period`. For every record, written
so or not, it is 0 whenever the current time has reached `release_date`, it is 0 whenever the
elapsed whole days are at least `staking_period` and at least 7, and it is 50 whenever the
release date is not reached and fewer than 7 whole days have elapsed. -/
theorem penaltyPercentage_bounds (stakedAt releaseDate period now : ℤ) (earned rate : Option ℚ)
    (hperiod : 0 < period) (hrange : |((now - stakedAt : ℤ) : ℚ)| < 2 ^ 53) :
    0 ≤ (calculateEarlyUnstakingPenalty now
        ⟨stakedAt, releaseDate, period, earned, rate⟩).penaltyPercentage ∧
    (calculateEarlyUnstakingPenalty now
        ⟨stakedAt, releaseDate, period, earned, rate⟩).penaltyPercentage ≤ 50 ∧
    (releaseDate = stakedAt + period * 86400 →
      period ≤ ⌊((now - stakedAt : ℤ) : ℚ) / 86400⌋ →
      (calculateEarlyUnstakingPenalty now
        ⟨stakedAt, releaseDate, period, earned, rate⟩).penaltyPercentage = 0) ∧
    (releaseDate ≤ now → (calculateEarlyUnstakingPenalty now
        ⟨stakedAt, releaseDate, period, earned, rate⟩).penaltyPercentage = 0) ∧
    (period ≤ ⌊((now - stakedAt : ℤ) : ℚ) / 86400⌋ →
      7 ≤ ⌊((now - stakedAt : ℤ) : ℚ) / 86400⌋ →
      (calculateEarlyUnstakingPenalty now
        ⟨stakedAt, releaseDate, period, earned, rate⟩).penaltyPercentage = 0) ∧
    (now < releaseDate → ⌊((now - stakedAt : ℤ) : ℚ) / 86400⌋ < 7 →
      (calculateEarlyUnstakingPenalty now
        ⟨stakedAt, releaseDate, period, earned, rate⟩).penaltyPercentage = 50) := by
  set s : StakingInfo := ⟨stakedAt, releaseDate, period, earned, rate⟩ with hs
  set E := ⌊((now - stakedAt : ℤ) : ℚ) / 86400⌋ with hE
  have hdays : calculateDaysElapsed s.staked_at now = (E : ℚ) :=
    calculateDaysElapsed_int stakedAt now hrange
  have hpne : s.staking_period ≠ 0 := by
    have : (0 : ℚ) < (period : ℚ) := by exact_mod_cast hperiod
    exact ne_of_gt this
  by_cases hrel : s.release_date ≤ (now : ℚ)
  · have h0 := penaltyPercentage_completed now s hrel
    rw [h0]
    refine ⟨le_rfl, by norm_num, fun _ _ => rfl, fun _ => rfl, fun _ _ => rfl, fun h _ => ?_⟩
    exfalso
    have h1 : (releaseDate : ℚ) ≤ now := hrel
    have h2 : (now : ℚ) < releaseDate := by exact_mod_cast h
    linarith
  · have hpen := penaltyPercentage_premature now s hrel hpne
    rw [hdays] at hpen
    have hzero : period ≤ E → 7 ≤ E →
        (calculateEarlyUnstakingPenalty now s).penaltyPercentage = 0 := by
      intro hpE h7
      have h7q : ¬ (E : ℚ) < 7 := by
        have : (7 : ℚ) ≤ (E : ℚ) := by exact_mod_cast h7
        linarith
      have hpq : (0 : ℚ) < (period : ℚ) := by exact_mod_cast hperiod
      have hp1 : (1 : ℚ) ≤ (period : ℚ) := by exact_mod_cast hperiod
      have hEp : (period : ℚ) ≤ (E : ℚ) := by exact_mod_cast hpE
      have hEle : (E : ℚ) ≤ ((now - stakedAt : ℤ) : ℚ) / 86400 := Int.floor_le _
      have hdpos : (0 : ℚ) ≤ ((now - stakedAt : ℤ) : ℚ) := by
        have : (0 : ℚ) ≤ ((now - stakedAt : ℤ) : ℚ) / 86400 := by linarith
        have := mul_nonneg this (by norm_num : (0 : ℚ) ≤ 86400)
        rwa [div_mul_cancel₀ _ (by norm_num : (86400 : ℚ) ≠ 0)] at this
      have hElt : (E : ℚ) < 2 ^ 53 := by
        have h1 : ((now - stakedAt : ℤ) : ℚ) / 86400 ≤ ((now - stakedAt : ℤ) : ℚ) :=
          div_le_self hdpos (by norm_num)
        have h2 := (abs_lt.1 hrange).2
        linarith
      have hratio : |(E : ℚ) / period| < 2 ^ 53 := by
        rw [abs_of_nonneg (by positivity)]
        calc (E : ℚ) / period ≤ E := div_le_self (by linarith) hp1
          _ < _ := hElt
      have hone : (1 : ℚ) ≤ jsDiv (E : ℚ) s.staking_period := by
        have := (toDouble_mono_int ((E : ℚ) / period) 1 hratio).1 (by
          rw [Int.cast_one, le_div_iff₀ hpq]; linarith)
        simpa [jsDiv, hs] using this
      have hr : min 1 (max 0 (jsDiv (E : ℚ) s.staking_period)) = 1 := by
        rw [max_eq_right (by linarith), min_eq_left hone]
      rw [hpen, if_neg h7q, hr, if_neg (by norm_num), penalty_formula_one]
    have hbounds : 0 ≤ (calculateEarlyUnstakingPenalty now s).penaltyPercentage ∧
        (calculateEarlyUnstakingPenalty now s).penaltyPercentage ≤ 50 := by
      rw [hpen]
      split
      · norm_num
      · split
        · norm_num
        · rename_i hlt
          exact penalty_formula_bounds _ (not_lt.1 hlt) (min_le_left _ _)
    refine ⟨hbounds.1, hbounds.2, fun hcons hpE => ?_, fun h => ?_, hzero, fun _ h7 => ?_⟩
    · exfalso
      apply hrel
      have hEle : (E : ℚ) ≤ ((now - stakedAt : ℤ) : ℚ) / 86400 := Int.floor_le _
      have hEp : (period : ℚ) ≤ (E : ℚ) := by exact_mod_cast hpE
      have h1 : (period : ℚ) * 86400 ≤ ((now - stakedAt : ℤ) : ℚ) := by
        have := le_trans hEp hEle
        rwa [le_div_iff₀ (by norm_num : (0 : ℚ) < 86400)] at this
      have h2 : (releaseDate : ℚ) = stakedAt + period * 86400 := by exact_mod_cast hcons
      simp only [hs]
      rw [h2]
      push_cast at h1
      linarith
    · exact absurd (by simpa [hs] using (by exact_mod_cast h : (releaseDate : ℚ) ≤ now)) hrel
    · have h7q : (E : ℚ) < 7 := by exact_mod_cast h7
      rw [hpen, if_pos h7q]

/-- C19, at a 30-day stake written with `release_date = staked_at + 30 * 86400`: the bounds
after 20 whole days, and the percentage 0 after 30 whole days. -/
theorem penaltyPercentage_bounds_witness :
    (0 ≤ (calculateEarlyUnstakingPenalty ((1728000 : ℤ) : ℚ)
        ⟨((0 : ℤ) : ℚ), ((2592000 : ℤ) : ℚ), ((30 : ℤ) : ℚ), none, none⟩).penaltyPercentage ∧
     (calculateEarlyUnstakingPenalty ((1728000 : ℤ) : ℚ)
        ⟨((0 : ℤ) : ℚ), ((2592000 : ℤ) : ℚ), ((30 : ℤ) : ℚ), none, none⟩).penaltyPercentage
        ≤ 50) ∧
    (calculateEarlyUnstakingPenalty ((2592000 : ℤ) : ℚ)
        ⟨((0 : ℤ) : ℚ), ((2592000 : ℤ) : ℚ), ((30 : ℤ) : ℚ), none, none⟩).penaltyPercentage = 0 :=
  ⟨⟨(penaltyPercentage_bounds 0 2592000 30 1728000 none none (by decide)
      (by norm_num)).1,
    (penaltyPercentage_bounds 0 2592000 30 1728000 none none (by decide)
      (by norm_num)).2.1⟩,
   (penaltyPercentage_bounds 0 2592000 30 2592000 none none (by decide)
      (by norm_num)).2.2.1 (by norm_num) (by
        rw [Int.le_floor]
        norm_num)⟩

set_option maxRecDepth 100000 in
/-- C20: at the period of 40 days with 31 elapsed whole days the exact value
`100 * (1 - 31/40)` is `22.5`, whose nearest integer with halves rounded up is 23, and
`calculateEarlyUnstakingPenalty` returns the penalty percentage 22. -/
theorem penaltyPercentage_tie_rounds_down :
    (calculateEarlyUnstakingPenalty 2678400 ⟨0, 3456000, 40, none, none⟩).penaltyPercentage = 22 ∧
    ⌊((2678400 - 0 : ℤ) : ℚ) / 86400⌋ = 31 ∧
    (100 * (1 - min 1 ((31 : ℚ) / 40)) = 45 / 2) ∧
    ⌊100 * (1 - min 1 ((31 : ℚ) / 40)) + 1 / 2⌋ = 23 := by
  decide!

/-! ## Facts on base64 -/

theorem base64Char_mem (i : Nat) : base64Char i ∈ base64Alphabet := by
  unfold base64Char
  by_cases h : i < base64Alphabet.length
  · rw [List.getD_eq_getElem _ _ h]
    exact List.getElem_mem h
  · rw [List.getD_eq_default _ _ (not_lt.1 h)]
    decide

theorem base64Alphabet_spec : ∀ c ∈ base64Alphabet,
    isBase64Char c = true ∧ (c != '=') = true ∧ (base64Sextet c).isSome = true := by
  decide

theorem isBase64Char_iff (c : Char) : isBase64Char c = true ↔ c ∈ base64Alphabet := by
  constructor
  · intro h
    have hc : c = Char.ofNat c.toNat := (Char.ofNat_toNat c).symm
    simp only [isBase64Char, Char.isUpper, Char.isLower, Char.isDigit, Bool.or_eq_true,
      Bool.and_eq_true, decide_eq_true_eq, beq_iff_eq] at h
    rcases h with (((h | h) | h) | h) | h
    · have ha : 65 ≤ c.toNat := h.1
      have hb : c.toNat ≤ 90 := h.2
      rw [hc]
      generalize c.toNat = n at ha hb
      interval_cases n <;> decide
    · have ha : 97 ≤ c.toNat := h.1
      have hb : c.toNat ≤ 122 := h.2
      rw [hc]
      generalize c.toNat = n at ha hb
      interval_cases n <;> decide
    · have ha : 48 ≤ c.toNat := h.1
      have hb : c.toNat ≤ 57 := h.2
      rw [hc]
      generalize c.toNat = n at ha hb
      interval_cases n <;> decide
    · subst h; decide
    · subst h; decide
  · intro h
    exact (base64Alphabet_spec c h).1

theorem base64Sextet_base64Char : ∀ i < 64, base64Sextet (base64Char i) = some i := by
  decide

/-- The characters of the encoding before the padding. -/
theorem base64Encode_shape (b : Buffer) : ∃ body pad, base64Encode b = body ++ pad ∧
    (∀ c ∈ body, c ∈ base64Alphabet) ∧ (pad = [] ∨ pad = ['='] ∨ pad = ['=', '=']) := by
  induction b using base64Encode.induct with
  | case1 a b c rest ih =>
    obtain ⟨body, pad, h, hb, hp⟩ := ih
    refine ⟨base64Char (a / 4) :: base64Char (a % 4 * 16 + b / 16)
      :: base64Char (b % 16 * 4 + c / 64) :: base64Char (c % 64) :: body, pad,
      by simp [base64Encode, h], ?_, hp⟩
    intro x hx
    simp only [List.mem_cons] at hx
    rcases hx with rfl | rfl | rfl | rfl | hx
    · exact base64Char_mem _
    · exact base64Char_mem _
    · exact base64Char_mem _
    · exact base64Char_mem _
    · exact hb x hx
  | case2 a b =>
    refine ⟨[base64Char (a / 4), base64Char (a % 4 * 16 + b / 16), base64Char (b % 16 * 4)],
      ['='], by simp [base64Encode], ?_, Or.inr (Or.inl rfl)⟩
    intro x hx
    simp only [List.mem_cons, List.mem_singleton, List.not_mem_nil, or_false] at hx
    rcases hx with rfl | rfl | rfl <;> exact base64Char_mem _
  | case3 a =>
    refine ⟨[base64Char (a / 4), base64Char (a % 4 * 16)], ['=', '='],
      by simp [base64Encode], ?_, Or.inr (Or.inr rfl)⟩
    intro x hx
    simp only [List.mem_cons, List.mem_singleton, List.not_mem_nil, or_false] at hx
    rcases hx with rfl | rfl <;> exact base64Char_mem _
  | case4 => exact ⟨[], [], rfl, by simp, Or.inl rfl⟩

theorem dropWhile_isBase64Char (body pad : List Char) (hb : ∀ c ∈ body, c ∈ base64Alphabet)
    (hp : pad = [] ∨ pad = ['='] ∨ pad = ['=', '=']) :
    (body ++ pad).dropWhile isBase64Char = pad := by
  induction body with
  | nil => rcases hp with rfl | rfl | rfl <;> rfl
  | cons c cs ih =>
    have hc := (isBase64Char_iff c).2 (hb c (List.mem_cons_self _ _))
    rw [List.cons_append, List.dropWhile_cons, if_pos hc]
    exact ih (fun x hx => hb x (List.mem_cons_of_mem _ hx))

/-- The regular expression accepts exactly the strings made of characters of the alphabet
followed by at most two `=`. -/
theorem base64Regex_iff (s : String) : base64Regex s = true ↔ MatchesBase64Pattern s := by
  constructor
  · intro h
    refine ⟨s.data.takeWhile isBase64Char, s.data.dropWhile isBase64Char,
      (List.takeWhile_append_dropWhile _ _).symm, ?_, ?_⟩
    · intro c hc
      exact (isBase64Char_iff c).1 (List.mem_takeWhile_imp hc)
    · unfold base64Regex at h
      simp only [Bool.or_eq_true, beq_iff_eq] at h
      rcases h with (h | h) | h
      · exact Or.inl h
      · exact Or.inr (Or.inl h)
      · exact Or.inr (Or.inr h)
  · rintro ⟨body, pad, hs, hb, hp⟩
    unfold base64Regex
    rw [hs, dropWhile_isBase64Char body pad hb hp]
    rcases hp with rfl | rfl | rfl <;> rfl

theorem base64Regex_toStringBase64 (b : Buffer) : base64Regex (toStringBase64 b) = true :=
  (base64Regex_iff _).2 (base64Encode_shape b)

theorem sextetsOf_base64Char (i : Nat) (cs : List Char) :
    sextetsOf (base64Char i :: cs) = (if i < 64 then i else 0) :: sextetsOf cs := by
  have hmem := base64Char_mem i
  obtain ⟨_, h2, _⟩ := base64Alphabet_spec _ hmem
  unfold sextetsOf
  rw [List.takeWhile_cons, if_pos h2, List.filterMap_cons]
  split_ifs with h
  · rw [base64Sextet_base64Char i h]
  · have : base64Char i = base64Char 0 := by
      unfold base64Char
      rw [List.getD_eq_default _ _ (by simpa [base64Alphabet] using not_lt.1 h)]
      rfl
    rw [this, base64Sextet_base64Char 0 (by decide)]

theorem sextetsOf_pad (cs : List Char) : sextetsOf ('=' :: cs) = [] := by
  simp [sextetsOf]

/-- Decoding the text of a buffer gives back as many bytes as the buffer has. -/
theorem length_bufferFromBase64_toStringBase64 (b : Buffer) :
    (bufferFromBase64 (toStringBase64 b)).length = b.length := by
  show (base64DecodeSextets (sextetsOf (base64Encode b))).length = b.length
  induction b using base64Encode.induct with
  | case1 a b c rest ih =>
    simp only [base64Encode, sextetsOf_base64Char, base64DecodeSextets, List.length_cons, ih]
  | case2 a b =>
    simp [base64Encode, sextetsOf_base64Char, sextetsOf_pad, base64DecodeSextets]
  | case3 a =>
    simp [base64Encode, sextetsOf_base64Char, sextetsOf_pad, base64DecodeSextets]
  | case4 => rfl

/-- Decoding the text of a buffer of bytes gives the buffer back. -/
theorem bufferFromBase64_toStringBase64 (b : Buffer) (hb : ∀ x ∈ b, x < 256) :
    bufferFromBase64 (toStringBase64 b) = b := by
  show base64DecodeSextets (sextetsOf (base64Encode b)) = b
  induction b using base64Encode.induct with
  | case1 a b c rest ih =>
    have ha := hb a (by simp)
    have hb' := hb b (by simp)
    have hc := hb c (by simp)
    have ih' := ih (fun x hx => hb x (by simp [hx]))
    simp only [base64Encode, sextetsOf_base64Char, base64DecodeSextets, ih']
    rw [if_pos (by omega), if_pos (by omega), if_pos (by omega), if_pos (by omega)]
    congr 1
    · omega
    congr 1
    · omega
    congr 1
    omega
  | case2 a b =>
    have ha := hb a (by simp)
    have hb' := hb b (by simp)
    simp only [base64Encode, sextetsOf_base64Char, sextetsOf_pad, base64DecodeSextets]
    rw [if_pos (by omega), if_pos (by omega), if_pos (by omega)]
    congr 1
    · omega
    congr 1
    omega
  | case3 a =>
    have ha := hb a (by simp)
    simp only [base64Encode, sextetsOf_base64Char, sextetsOf_pad, base64DecodeSextets]
    rw [if_pos (by omega), if_pos (by omega)]
    congr 1
    omega
  | case4 => rfl


/-! ## Facts on the texts of numbers -/

theorem toDigitsCore_isDigit (fuel n : Nat) (ds : List Char)
    (h : ∀ c ∈ ds, c.isDigit = true) :
    ∀ c ∈ Nat.toDigitsCore 10 fuel n ds, c.isDigit = true := by
  induction fuel generalizing n ds with
  | zero => simpa [Nat.toDigitsCore] using h
  | succ fuel ih =>
    have hd : ∀ c ∈ (Nat.digitChar (n % 10) :: ds), c.isDigit = true := by
      intro c hc
      rcases List.mem_cons.1 hc with rfl | hc
      · have : n % 10 < 10 := Nat.mod_lt _ (by decide)
        generalize n % 10 = k at this
        interval_cases k <;> decide
      · exact h c hc
    unfold Nat.toDigitsCore
    dsimp only
    split_ifs
    · exact hd
    · exact ih _ _ hd

/-- The decimal text of a natural number is made of digits. -/
theorem natToString_isDigit (n : Nat) : ∀ c ∈ (toString n).data, c.isDigit = true :=
  toDigitsCore_isDigit _ _ [] (by simp)

/-- A text that lacks a character of the pattern does not include the pattern. -/
theorem includes_eq_false (s p : String) (c : Char) (hp : c ∈ p.data) (hs : c ∉ s.data) :
    includes s p = false := by
  unfold includes
  rw [decide_eq_false_iff_not]
  intro h
  exact hs (h.subset hp)

/-- The message of the size error passes the three tests of the `catch` block. -/
theorem serializeErrorMessage_size (n : Nat) :
    serializeErrorMessage ("직렬화된 트랜잭션 크기가 Solana 한도를 초과합니다 ("
        ++ toString n ++ "/1232 바이트)")
      = "트랜잭션 직렬화 실패" ++ ": " ++ ("직렬화된 트랜잭션 크기가 Solana 한도를 초과합니다 ("
        ++ toString n ++ "/1232 바이트)") := by
  have hmem : ∀ c : Char, c.isDigit = false →
      c ∉ "직렬화된 트랜잭션 크기가 Solana 한도를 초과합니다 (".data → c ∉ "/1232 바이트)".data →
      c ∉ ("직렬화된 트랜잭션 크기가 Solana 한도를 초과합니다 ("
        ++ toString n ++ "/1232 바이트)").data := by
    intro c hc h1 h2 hmem
    rw [String.data_append, String.data_append, List.mem_append, List.mem_append] at hmem
    rcases hmem with (h | h) | h
    · exact h1 h
    · have := natToString_isDigit n c h
      rw [hc] at this
      exact absurd this (by decide)
    · exact h2 h
  unfold serializeErrorMessage
  rw [includes_eq_false _ "failed to serialize" 'f' (by decide)
      (hmem 'f' (by decide) (by decide) (by decide)),
    includes_eq_false _ "not signed" 't' (by decide)
      (hmem 't' (by decide) (by decide) (by decide)),
    includes_eq_false _ "signature verification failed" 'g' (by decide)
      (hmem 'g' (by decide) (by decide) (by decide))]
  rfl

/-! ## The claims on the transaction utilities -/

/-- A string returned by `serializeTransaction` decodes from base64 to at most 1232 bytes,
whatever the method `serialize` of the object does. -/
theorem serializeTransaction_ok_length (transaction : TransactionArg)
    (options : SerializeOptions) (base64 : String)
    (h : serializeTransaction transaction options = .ok base64) :
    (bufferFromBase64 base64).length ≤ 1232 := by
  cases transaction with
  | falsy => simp [serializeTransaction] at h
  | notTransaction => simp [serializeTransaction] at h
  | object t =>
    unfold serializeTransaction at h
    cases hs : t.signatures with
    | none => simp [hs] at h
    | some sigs =>
      simp only [hs] at h
      cases hser : t.serialize ⟨options.requireAllSignatures.getD false,
          options.verifySignatures.getD false⟩ with
      | error m => simp [hser] at h
      | ok serialized =>
        simp only [hser] at h
        by_cases hlen : serialized.length > 1232
        · simp [hlen] at h
        · simp only [hlen, if_false] at h
          injection h with h
          rw [← h, length_bufferFromBase64_toStringBase64]
          omega

/-- C13: the server and the client `deserializeTransaction` throw, and so return no
transaction, for `undefined`, for `null`, for the empty string, for a value that is not a
string, for a string that is not made of characters of the base64 alphabet followed by at most
two `=`, and for a string whose base64 decoding is shorter than 10 bytes or longer than 1232
bytes, whatever `Transaction.from` does. -/
theorem deserializeTransaction_rejects {α : Type} (transactionFrom : Buffer → Except String α)
    (base64Transaction : JsArg)
    (h : base64Transaction = .undefined ∨ base64Transaction = .null ∨
      base64Transaction = .str "" ∨ (∃ typeName truthy, base64Transaction = .other typeName truthy) ∨
      ∃ s, base64Transaction = .str s ∧ (¬ MatchesBase64Pattern s ∨
        (bufferFromBase64 s).length < 10 ∨ 1232 < (bufferFromBase64 s).length)) :
    (∃ e, deserializeTransaction transactionFrom base64Transaction = .error e) ∧
    (∃ e, deserializeTransaction_client transactionFrom base64Transaction = .error e) := by
  rcases h with rfl | rfl | rfl | ⟨typeName, truthy, rfl⟩ | ⟨s, rfl, h⟩
  · exact ⟨⟨_, rfl⟩, ⟨_, rfl⟩⟩
  · exact ⟨⟨_, rfl⟩, ⟨_, rfl⟩⟩
  · exact ⟨⟨_, rfl⟩, ⟨_, rfl⟩⟩
  · cases truthy
    · exact ⟨⟨_, rfl⟩, ⟨_, rfl⟩⟩
    · exact ⟨⟨_, rfl⟩, ⟨_, rfl⟩⟩
  · unfold deserializeTransaction deserializeTransaction_client
    by_cases ht : (JsArg.str s).truthy = true
    · simp only [ht, Bool.not_true, Bool.false_eq_true, if_false]
      by_cases hre : base64Regex s = true
      · have hpat := (base64Regex_iff s).1 hre
        simp only [hre, Bool.not_true, Bool.false_eq_true, if_false]
        rcases h with h | h | h
        · exact absurd hpat h
        · simp only [if_pos h]
          exact ⟨⟨_, rfl⟩, ⟨_, rfl⟩⟩
        · have h10 : ¬ (bufferFromBase64 s).length < 10 := by omega
          simp only [if_neg h10, if_pos (show (bufferFromBase64 s).length > 1232 from h)]
          exact ⟨⟨_, rfl⟩, ⟨_, rfl⟩⟩
      · simp only [Bool.not_eq_true] at hre
        simp only [hre, Bool.not_false, if_true]
        exact ⟨⟨_, rfl⟩, ⟨_, rfl⟩⟩
    · simp only [Bool.not_eq_true] at ht
      simp only [ht, Bool.not_false, if_true]
      exact ⟨⟨_, rfl⟩, ⟨_, rfl⟩⟩

/-- C13, at the text `aGVsbG8gd29ybGQ=` of the tests, which decodes to 11 bytes, cut to
`aGVsbG8=`, which decodes to 5 bytes. -/
theorem deserializeTransaction_rejects_witness :
    (∃ e, deserializeTransaction (fun b => Except.ok b) (.str "aGVsbG8=") = .error e) ∧
    (∃ e, deserializeTransaction_client (fun b => Except.ok b) (.str "aGVsbG8=") = .error e) :=
  deserializeTransaction_rejects (fun b => Except.ok b) (.str "aGVsbG8=")
    (Or.inr (Or.inr (Or.inr (Or.inr ⟨_, rfl, Or.inr (Or.inl (by decide))⟩))))

/-! ## Auxiliary facts: base58 -/

theorem beBytesAux_eq (fuel n : Nat) (acc : Buffer) (h : n < 256 ^ fuel) :
    beBytesAux fuel n acc = (Nat.digits 256 n).reverse ++ acc := by
  induction fuel generalizing n acc with
  | zero =>
    have : n = 0 := by simpa using h
    subst this
    simp [beBytesAux]
  | succ fuel ih =>
    unfold beBytesAux
    split_ifs with h0
    · subst h0; simp
    · rw [ih _ _ (by rw [Nat.div_lt_iff_lt_mul (by norm_num)]; rw [pow_succ] at h; exact h),
        Nat.digits_def' (by norm_num) (Nat.pos_of_ne_zero h0)]
      simp

theorem base58Digits_eq (fuel n : Nat) (acc : List Char) (h : n < 58 ^ fuel) :
    base58Digits fuel n acc
      = (Nat.digits 58 n).reverse.map (fun d => base58Alphabet.getD d '1') ++ acc := by
  induction fuel generalizing n acc with
  | zero =>
    have : n = 0 := by simpa using h
    subst this
    simp [base58Digits]
  | succ fuel ih =>
    unfold base58Digits
    split_ifs with h0
    · subst h0; simp
    · rw [ih _ _ (by rw [Nat.div_lt_iff_lt_mul (by norm_num)]; rw [pow_succ] at h; exact h),
        Nat.digits_def' (by norm_num) (Nat.pos_of_ne_zero h0)]
      simp

theorem base58Alphabet_index : ∀ c ∈ base58Alphabet,
    base58Alphabet.getD (base58Alphabet.indexOf c) '1' = c := by
  decide

theorem base58Alphabet_getD : ∀ d < 58,
    base58Alphabet.indexOf (base58Alphabet.getD d '1') = d ∧
    base58Alphabet.getD d '1' ∈ base58Alphabet ∧
    ((base58Alphabet.getD d '1' == '1') = true → d = 0) := by
  decide

theorem base58Value_eq_some (cs : List Char) (acc : Nat) (h : ∀ c ∈ cs, c ∈ base58Alphabet) :
    base58Value cs acc = some (acc * 58 ^ cs.length
      + Nat.ofDigits 58 (cs.reverse.map (fun c => base58Alphabet.indexOf c))) := by
  induction cs generalizing acc with
  | nil => simp [base58Value]
  | cons c cs ih =>
    have hc : base58Alphabet.indexOf c < 58 :=
      List.indexOf_lt_length.2 (h c (List.mem_cons_self _ _))
    unfold base58Value
    simp only [hc, if_true]
    rw [ih _ (fun x hx => h x (List.mem_cons_of_mem _ hx))]
    simp only [List.reverse_cons, List.map_append, List.map_cons, List.map_nil,
      Nat.ofDigits_append, Nat.ofDigits_singleton, List.length_map, List.length_reverse,
      List.length_cons]
    congr 1
    ring

theorem base58Value_mem (cs : List Char) (acc v : Nat) (h : base58Value cs acc = some v) :
    ∀ c ∈ cs, c ∈ base58Alphabet := by
  induction cs generalizing acc with
  | nil => simp
  | cons c cs ih =>
    unfold base58Value at h
    by_cases hc : base58Alphabet.indexOf c < 58
    · simp only [hc, if_true] at h
      intro x hx
      rcases List.mem_cons.1 hx with rfl | hx
      · exact List.indexOf_lt_length.1 hc
      · exact ih _ h x hx
    · simp [hc] at h

theorem foldl_bytes_eq (b : Buffer) (acc : Nat) :
    b.foldl (fun acc x => acc * 256 + x) acc
      = acc * 256 ^ b.length + Nat.ofDigits 256 b.reverse := by
  induction b generalizing acc with
  | nil => simp
  | cons x b ih =>
    rw [List.foldl_cons, ih]
    simp only [List.reverse_cons, Nat.ofDigits_append, Nat.ofDigits_singleton,
      List.length_reverse, List.length_cons]
    ring

/-- A list splits into its leading copies of `a` and a rest that does not start with `a`. -/
theorem takeWhile_beq_split {α : Type} [DecidableEq α] (a : α) (l : List α) :
    ∃ r, l = List.replicate (l.takeWhile (fun x => x == a)).length a ++ r ∧
      r.head? ≠ some a := by
  induction l with
  | nil => exact ⟨[], rfl, by simp⟩
  | cons x l ih =>
    by_cases hx : x = a
    · subst hx
      obtain ⟨r, h1, h2⟩ := ih
      refine ⟨r, ?_, h2⟩
      simp only [List.takeWhile_cons, beq_self_eq_true, if_true, List.length_cons,
        List.replicate_succ, List.cons_append]
      rw [← h1]
    · refine ⟨x :: l, ?_, ?_⟩
      · simp [List.takeWhile_cons, hx]
      · simpa using hx

theorem takeWhile_replicate_append {α : Type} [DecidableEq α] (a : α) (z : Nat) (r : List α)
    (hr : r.head? ≠ some a) :
    (List.replicate z a ++ r).takeWhile (fun x => x == a) = List.replicate z a := by
  induction z with
  | zero =>
    cases r with
    | nil => rfl
    | cons x r =>
      have : x ≠ a := by simpa using hr
      simp [List.takeWhile_cons, this]
  | succ z ih =>
    simp [List.replicate_succ, List.takeWhile_cons, ih]

theorem ofDigits_replicate_zero (base z : Nat) : Nat.ofDigits base (List.replicate z 0) = 0 := by
  induction z with
  | zero => rfl
  | succ z ih => simp [List.replicate_succ, Nat.ofDigits_cons, ih]

theorem getLast_reverse_ne {α : Type} {a : α} {l : List α} (h : l.head? ≠ some a) :
    ∀ hne : l.reverse ≠ [], l.reverse.getLast hne ≠ a := by
  intro hne
  cases l with
  | nil => simp at hne
  | cons x l =>
    have : x ≠ a := by simpa using h
    simpa using this

theorem head?_reverse_map_ne {α β : Type} {a : α} {b : β} (f : α → β) {l : List α}
    (hl : ∀ hne : l ≠ [], l.getLast hne ≠ a) (hf : ∀ x ∈ l, x ≠ a → f x ≠ b) :
    (l.reverse.map f).head? ≠ some b := by
  rcases List.eq_nil_or_concat l with rfl | ⟨l', x, rfl⟩
  · simp
  · have hx : x ≠ a := by simpa using hl (by simp)
    have := hf x (by simp) hx
    simpa using this

theorem pow_256_le (n : Nat) : 256 ^ n ≤ 58 ^ (2 * n) := by
  rw [pow_mul]
  exact Nat.pow_le_pow_left (by norm_num) n

theorem pow_58_le {m n : Nat} (h : m ≤ n) : 58 ^ m ≤ 256 ^ n :=
  le_trans (Nat.pow_le_pow_left (by norm_num) m) (Nat.pow_le_pow_right (by norm_num) h)

/-- Decoding the base58 text of a sequence of bytes gives the bytes back. -/
theorem bs58decode_bs58encode (b : Buffer) (hb : ∀ x ∈ b, x < 256) :
    bs58decode (bs58encode b) = .ok b := by
  obtain ⟨r, hsplit, hr⟩ := takeWhile_beq_split 0 b
  set z := (b.takeWhile (fun x => x == 0)).length with hz
  set N := b.foldl (fun acc x => acc * 256 + x) 0 with hN
  have hrb : ∀ x ∈ r, x < 256 := fun x hx => hb x (by rw [hsplit]; simp [hx])
  have hNr : N = Nat.ofDigits 256 r.reverse := by
    rw [hN, foldl_bytes_eq]
    conv_lhs => rw [hsplit]
    simp [Nat.ofDigits_append, ofDigits_replicate_zero]
  have hdig : Nat.digits 256 N = r.reverse := by
    rw [hNr]
    exact Nat.digits_ofDigits 256 (by norm_num) _ (fun x hx => hrb x (List.mem_reverse.1 hx))
      (getLast_reverse_ne hr)
  have hlen : b.length = z + r.length := by
    conv_lhs => rw [hsplit]
    simp
  have hNlt : N < 58 ^ (2 * b.length) := by
    have h1 : N < 256 ^ r.reverse.length := by
      rw [hNr]
      exact Nat.ofDigits_lt_base_pow_length (by norm_num)
        (fun x hx => hrb x (List.mem_reverse.1 hx))
    have h2 : 256 ^ r.reverse.length ≤ 256 ^ b.length :=
      Nat.pow_le_pow_right (by norm_num) (by simp [hlen])
    exact lt_of_lt_of_le (lt_of_lt_of_le h1 h2) (pow_256_le _)
  set D := (Nat.digits 58 N).reverse.map (fun d => base58Alphabet.getD d '1') with hD
  have henc : (bs58encode b).data = List.replicate z '1' ++ D := by
    show List.replicate z '1' ++ base58Digits (2 * b.length) N [] = _
    rw [base58Digits_eq _ _ _ hNlt, List.append_nil]
  have hDhead : D.head? ≠ some '1' := by
    apply head?_reverse_map_ne (a := 0)
    · intro hne
      exact Nat.getLast_digit_ne_zero 58 (Nat.digits_ne_nil_iff_ne_zero.1 hne)
    · intro d hd hd0 h1
      exact hd0 ((base58Alphabet_getD d (Nat.digits_lt_base (by norm_num) hd)).2.2
        (by rw [h1]; rfl))
  have hDmem : ∀ c ∈ D, c ∈ base58Alphabet := by
    intro c hc
    rw [hD, List.mem_map] at hc
    obtain ⟨d, hd, rfl⟩ := hc
    exact (base58Alphabet_getD d (Nat.digits_lt_base (by norm_num) (List.mem_reverse.1 hd))).2.1
  have hDval : Nat.ofDigits 58 (D.reverse.map (fun c => base58Alphabet.indexOf c)) = N := by
    have : D.reverse.map (fun c => base58Alphabet.indexOf c) = Nat.digits 58 N := by
      rw [hD, ← List.map_reverse, List.reverse_reverse, List.map_map]
      conv_rhs => rw [← List.map_id (Nat.digits 58 N)]
      apply List.map_congr_left
      intro d hd
      exact (base58Alphabet_getD d (Nat.digits_lt_base (by norm_num) hd)).1
    rw [this, Nat.ofDigits_digits]
  have hNlt2 : N < 256 ^ (bs58encode b).length := by
    have h1 : N < 58 ^ (Nat.digits 58 N).length := Nat.lt_base_pow_length_digits (by norm_num)
    have h2 : (Nat.digits 58 N).length ≤ (bs58encode b).length := by
      show _ ≤ (bs58encode b).data.length
      rw [henc]
      simp [hD]
    exact lt_of_lt_of_le h1 (pow_58_le h2)
  unfold bs58decode
  simp only [henc, takeWhile_replicate_append '1' z D hDhead, List.length_replicate,
    List.drop_left' (List.length_replicate z '1')]
  rw [base58Value_eq_some D 0 hDmem, hDval]
  simp only [zero_mul, zero_add]
  rw [beBytesAux_eq _ _ _ hNlt2, hdig, List.reverse_reverse, List.append_nil]
  exact congrArg Except.ok hsplit.symm

/-- A text that `bs58.decode` accepts is the base58 text of the bytes it decodes to. -/
theorem bs58encode_of_bs58decode (s : String) (b : Buffer) (h : bs58decode s = .ok b) :
    bs58encode b = s ∧ ∀ x ∈ b, x < 256 := by
  obtain ⟨R, hsplit, hR⟩ := takeWhile_beq_split '1' s.data
  set z := (s.data.takeWhile (fun c => c == '1')).length with hz
  have hdrop : s.data.drop z = R := by
    conv_lhs => rw [hsplit]
    exact List.drop_left' (List.length_replicate z '1')
  unfold bs58decode at h
  simp only [← hz, hdrop] at h
  cases hv : base58Value R 0 with
  | none => simp [hv] at h
  | some N =>
    simp only [hv] at h
    injection h with h
    have hRmem := base58Value_mem R 0 N hv
    have hN : N = Nat.ofDigits 58 (R.reverse.map (fun c => base58Alphabet.indexOf c)) := by
      have := base58Value_eq_some R 0 hRmem
      rw [hv] at this
      simpa using this
    have hidx : ∀ x ∈ R.reverse.map (fun c => base58Alphabet.indexOf c), x < 58 := by
      intro x hx
      obtain ⟨c, hc, rfl⟩ := List.mem_map.1 hx
      exact List.indexOf_lt_length.2 (hRmem c (List.mem_reverse.1 hc))
    have hslen : s.length = z + R.length := by
      show s.data.length = _
      conv_lhs => rw [hsplit]
      simp
    have hNlt : N < 256 ^ s.length := by
      have h1 : N < 58 ^ (R.reverse.map (fun c => base58Alphabet.indexOf c)).length := by
        rw [hN]
        exact Nat.ofDigits_lt_base_pow_length (by norm_num) hidx
      exact lt_of_lt_of_le h1 (pow_58_le (by simp [hslen]))
    rw [beBytesAux_eq _ _ _ hNlt, List.append_nil] at h
    have hbytes : ∀ x ∈ b, x < 256 := by
      intro x hx
      rw [← h, List.mem_append] at hx
      rcases hx with hx | hx
      · rw [List.eq_of_mem_replicate hx]; norm_num
      · exact Nat.digits_lt_base (by norm_num) (List.mem_reverse.1 hx)
    refine ⟨?_, hbytes⟩
    have hhead : (Nat.digits 256 N).reverse.head? ≠ some 0 := by
      have := head?_reverse_map_ne (a := 0) (b := 0) id (l := Nat.digits 256 N)
        (fun hne => Nat.getLast_digit_ne_zero 256 (Nat.digits_ne_nil_iff_ne_zero.1 hne))
        (fun x _ hx => hx)
      simpa using this
    have hzero : (b.takeWhile (fun x => x == 0)).length = z := by
      rw [← h, takeWhile_replicate_append 0 z _ hhead, List.length_replicate]
    have hfold : b.foldl (fun acc x => acc * 256 + x) 0 = N := by
      rw [foldl_bytes_eq, ← h]
      simp [Nat.ofDigits_append, ofDigits_replicate_zero, Nat.ofDigits_digits]
    have hblen : (Nat.digits 256 N).length ≤ b.length := by
      rw [← h]; simp
    have hNlt2 : N < 58 ^ (2 * b.length) :=
      lt_of_lt_of_le (lt_of_lt_of_le (Nat.lt_base_pow_length_digits (by norm_num))
        (Nat.pow_le_pow_right (by norm_num) hblen)) (pow_256_le _)
    have hdig : Nat.digits 58 N = R.reverse.map (fun c => base58Alphabet.indexOf c) := by
      rw [hN]
      refine Nat.digits_ofDigits 58 (by norm_num) _ hidx ?_
      intro hne
      cases R with
      | nil => simp at hne
      | cons c R' =>
        have hc1 : c ≠ '1' := by simpa using hR
        have hcm := hRmem c (List.mem_cons_self _ _)
        simp only [List.reverse_cons, List.map_append, List.map_cons, List.map_nil,
          List.getLast_append_singleton]
        intro h0
        have := base58Alphabet_index c hcm
        rw [h0] at this
        exact hc1 this.symm
    have hD : (Nat.digits 58 N).reverse.map (fun d => base58Alphabet.getD d '1') = R := by
      simp only [hdig, List.map_reverse, List.reverse_reverse, List.map_map]
      conv_rhs => rw [← List.map_id R]
      apply List.map_congr_left
      intro c hc
      exact base58Alphabet_index c (hRmem c hc)
    show String.mk (List.replicate (b.takeWhile (fun x => x == 0)).length '1'
      ++ base58Digits (2 * b.length) (b.foldl (fun acc x => acc * 256 + x) 0) []) = s
    rw [hzero, hfold, base58Digits_eq _ _ _ hNlt2, List.append_nil, hD, ← hsplit]

/-! ## Auxiliary facts: the wire format of a transaction -/

theorem decodeLengthAux_encodeLengthAux (fuel m : Nat) (rest : List Nat) (size len : Nat)
    (h : m < 128 ^ (fuel + 1)) :
    decodeLengthAux (encodeLengthAux fuel m ++ rest) size len = (len + m * 128 ^ size, rest) := by
  induction fuel generalizing m size len with
  | zero =>
    have hm : m < 128 := by simpa using h
    simp [encodeLengthAux, decodeLengthAux, Nat.mod_eq_of_lt hm, Nat.div_eq_of_lt hm]
  | succ fuel ih =>
    unfold encodeLengthAux
    split_ifs with h0
    · have hm : m < 128 := by
        by_contra hc
        have := Nat.div_pos (not_lt.1 hc) (by norm_num : 0 < 128)
        omega
      simp [decodeLengthAux, Nat.mod_eq_of_lt hm, Nat.div_eq_of_lt hm]
    · have h1 : (m % 128 + 128) % 128 = m % 128 := by omega
      have h2 : (m % 128 + 128) / 128 % 2 = 1 := by omega
      have h3 : m / 128 < 128 ^ (fuel + 1) := by
        rw [Nat.div_lt_iff_lt_mul (by norm_num)]
        rw [pow_succ] at h
        exact h
      rw [List.cons_append, decodeLengthAux]
      simp only [h1, h2, one_ne_zero, if_false]
      rw [ih _ _ _ h3]
      congr 1
      rw [pow_succ]
      have hm := Nat.div_add_mod m 128
      calc len + m % 128 * 128 ^ size + m / 128 * (128 ^ size * 128)
          = len + (128 * (m / 128) + m % 128) * 128 ^ size := by ring
        _ = len + m * 128 ^ size := by rw [hm]

/-- Reading a length written by `encodeLength` gives the length and the bytes after it. -/
theorem decodeLength_encodeLength (n : Nat) (rest : List Nat) :
    decodeLength (encodeLength n ++ rest) = (n, rest) := by
  unfold decodeLength encodeLength
  rw [decodeLengthAux_encodeLengthAux n n rest 0 0
    (lt_of_lt_of_le (Nat.lt_pow_self (by norm_num) n) (Nat.pow_le_pow_right (by norm_num) (by omega)))]
  simp

theorem encodeLengthAux_lt (fuel m : Nat) : ∀ x ∈ encodeLengthAux fuel m, x < 256 := by
  induction fuel generalizing m with
  | zero =>
    intro x hx
    simp only [encodeLengthAux, List.mem_singleton] at hx
    omega
  | succ fuel ih =>
    intro x hx
    unfold encodeLengthAux at hx
    split_ifs at hx
    · simp only [List.mem_singleton] at hx
      omega
    · rcases List.mem_cons.1 hx with rfl | hx
      · omega
      · exact ih _ x hx

theorem encodeLength_lt (n : Nat) : ∀ x ∈ encodeLength n, x < 256 :=
  encodeLengthAux_lt n n

/-- The application `traverse f l` succeeds when `f` does on every element, and the results
are related to the elements as those of `f` are. -/
theorem traverse_forall₂ {α β : Type} (f : α → Except String β) (P : α → β → Prop)
    (l : List α) (h : ∀ a ∈ l, ∃ b, f a = .ok b ∧ P a b) :
    ∃ bs, traverse f l = .ok bs ∧ List.Forall₂ P l bs := by
  induction l with
  | nil => exact ⟨[], rfl, List.Forall₂.nil⟩
  | cons a l ih =>
    obtain ⟨b, hb, hP⟩ := h a (List.mem_cons_self _ _)
    obtain ⟨bs, hbs, hF⟩ := ih (fun x hx => h x (List.mem_cons_of_mem _ hx))
    exact ⟨b :: bs, by simp [traverse, hb, hbs], List.Forall₂.cons hP hF⟩

theorem forall₂_map_eq {α β γ : Type} (f : α → γ) (g : β → γ) (l : List α) (bs : List β)
    (h : List.Forall₂ (fun a b => g b = f a) l bs) : bs.map g = l.map f := by
  induction h with
  | nil => rfl
  | cons hab _ ih => simp [hab, ih]

/-! ### Facts on `compileMessage` -/

theorem markSigner_head (publicKey : PublicKey) (m : AccountMeta) (rest l : List AccountMeta)
    (h : markSigner publicKey (m :: rest) = some l) (hm : m.isSigner = true) :
    ∃ m' rest', l = m' :: rest' ∧ m'.pubkey = m.pubkey ∧ m'.isSigner = true := by
  unfold markSigner at h
  split_ifs at h with hk
  · injection h with h
    exact ⟨_, rest, h.symm, rfl, rfl⟩
  · cases hr : markSigner publicKey rest with
    | none => simp [hr] at h
    | some rest' =>
      simp only [hr, Option.map_some'] at h
      injection h with h
      exact ⟨m, rest', h.symm, rfl, hm⟩

theorem markSigner_pubkeys (publicKey : PublicKey) (metas l : List AccountMeta)
    (h : markSigner publicKey metas = some l) :
    l.map (fun x => x.pubkey) = metas.map (fun x => x.pubkey) := by
  induction metas generalizing l with
  | nil => simp [markSigner] at h
  | cons m rest ih =>
    unfold markSigner at h
    split_ifs at h with hk
    · injection h with h
      rw [← h]
      rfl
    · cases hr : markSigner publicKey rest with
      | none => simp [hr] at h
      | some rest' =>
        simp only [hr, Option.map_some'] at h
        injection h with h
        rw [← h, List.map_cons, List.map_cons, ih rest' hr]

theorem checkSigners_spec (signatures : List SignaturePubkeyPair) (m : AccountMeta)
    (rest metas : List AccountMeta) (h : checkSigners signatures (m :: rest) = .ok metas)
    (hm : m.isSigner = true) :
    (∃ m' rest', metas = m' :: rest' ∧ m'.pubkey = m.pubkey ∧ m'.isSigner = true) ∧
    metas.map (fun x => x.pubkey) = (m :: rest).map (fun x => x.pubkey) := by
  induction signatures generalizing m rest with
  | nil =>
    simp only [checkSigners] at h
    injection h with h
    subst h
    exact ⟨⟨m, rest, rfl, rfl, hm⟩, rfl⟩
  | cons s signatures ih =>
    unfold checkSigners at h
    cases hmark : markSigner s.publicKey (m :: rest) with
    | none => simp [hmark] at h
    | some l =>
      simp only [hmark] at h
      obtain ⟨m', rest', rfl, hk, hs⟩ := markSigner_head _ _ _ _ hmark hm
      obtain ⟨⟨m'', rest'', h1, h2, h3⟩, h4⟩ := ih m' rest' h hs
      refine ⟨⟨m'', rest'', h1, h2.trans hk, h3⟩, ?_⟩
      rw [h4, markSigner_pubkeys _ _ _ hmark]

theorem mergeMeta_pubkeys (accountMeta : AccountMeta) (metas : List AccountMeta) :
    ∀ x ∈ mergeMeta accountMeta metas,
      x.pubkey = accountMeta.pubkey ∨ ∃ y ∈ metas, x.pubkey = y.pubkey := by
  induction metas with
  | nil =>
    intro x hx
    simp only [mergeMeta, List.mem_singleton] at hx
    exact Or.inl (by rw [hx])
  | cons m rest ih =>
    intro x hx
    unfold mergeMeta at hx
    split_ifs at hx with hk
    · rcases List.mem_cons.1 hx with rfl | hx
      · exact Or.inr ⟨m, List.mem_cons_self _ _, rfl⟩
      · exact Or.inr ⟨x, List.mem_cons_of_mem _ hx, rfl⟩
    · rcases List.mem_cons.1 hx with rfl | hx
      · exact Or.inr ⟨x, List.mem_cons_self _ _, rfl⟩
      · rcases ih x hx with h | ⟨y, hy, h⟩
        · exact Or.inl h
        · exact Or.inr ⟨y, List.mem_cons_of_mem _ hy, h⟩

theorem foldl_mergeMeta_pubkeys (accountMetas acc : List AccountMeta) :
    ∀ x ∈ accountMetas.foldl (fun metas accountMeta => mergeMeta accountMeta metas) acc,
      ∃ y ∈ acc ++ accountMetas, x.pubkey = y.pubkey := by
  induction accountMetas generalizing acc with
  | nil =>
    intro x hx
    exact ⟨x, by simpa using hx, rfl⟩
  | cons a rest ih =>
    intro x hx
    rw [List.foldl_cons] at hx
    obtain ⟨y, hy, hxy⟩ := ih _ x hx
    rcases List.mem_append.1 hy with hy | hy
    · rcases mergeMeta_pubkeys a acc y hy with h | ⟨w, hw, h⟩
      · exact ⟨a, by simp, hxy.trans h⟩
      · exact ⟨w, by simp [hw], hxy.trans h⟩
    · exact ⟨y, by simp [hy], hxy⟩

theorem foldl_programIds_mem (instructions : List TransactionInstruction) (acc : List PublicKey) :
    ∀ k ∈ instructions.foldl (fun ids instruction =>
        if ids.contains instruction.programId then ids else ids ++ [instruction.programId]) acc,
      k ∈ acc ∨ ∃ instruction ∈ instructions, k = instruction.programId := by
  induction instructions generalizing acc with
  | nil =>
    intro k hk
    exact Or.inl (by simpa using hk)
  | cons i rest ih =>
    intro k hk
    rw [List.foldl_cons] at hk
    rcases ih _ k hk with h | ⟨j, hj, h⟩
    · split_ifs at h
      · exact Or.inl h
      · rcases List.mem_append.1 h with h | h
        · exact Or.inl h
        · exact Or.inr ⟨i, List.mem_cons_self _ _, by simpa using h⟩
    · exact Or.inr ⟨j, List.mem_cons_of_mem _ hj, h⟩

theorem moveFeePayerFirst_spec (feePayer : PublicKey) (uniqueMetas : List AccountMeta) :
    ∃ m rest, moveFeePayerFirst feePayer uniqueMetas = m :: rest ∧ m.pubkey = feePayer ∧
      m.isSigner = true ∧ ∀ x ∈ rest, x ∈ uniqueMetas := by
  unfold moveFeePayerFirst
  cases hf : uniqueMetas.find? (fun x => x.pubkey == feePayer) with
  | none => exact ⟨_, _, rfl, rfl, rfl, fun x hx => hx⟩
  | some payerMeta =>
    have := List.find?_some hf
    refine ⟨_, _, rfl, by simpa using this, rfl, fun x hx => List.mem_of_mem_eraseP hx⟩

/-- What a successful `compileMessage` returns for a transaction with a fee payer: the
blockhash of the transaction, the fee payer as the first key and as a signer, and the
instructions compiled against the account keys, every index within the keys. -/
theorem compileMessage_spec (localeCompare : String → String → Int) (tx : Transaction)
    (message : Message) (feePayer : PublicKey) (recentBlockhash : String)
    (hfee : tx.feePayer = some feePayer) (hblock : tx.recentBlockhash = some recentBlockhash)
    (h : compileMessage localeCompare tx = .ok message) :
    message.recentBlockhash = recentBlockhash ∧
    message.instructions = tx.instructions.map (compileInstruction message.accountKeys) ∧
    (∀ instruction ∈ message.instructions,
      instruction.programIdIndex < message.accountKeys.length ∧
      ∀ keyIndex ∈ instruction.accounts, keyIndex < message.accountKeys.length) ∧
    message.accountKeys.head? = some feePayer ∧
    0 < message.header.numRequiredSignatures ∧
    message.header.numRequiredSignatures ≤ message.accountKeys.length ∧
    ∀ key ∈ message.accountKeys, key ∈ tx.publicKeys := by
  unfold compileMessage at h
  simp only [hfee, hblock] at h
  split_ifs at h with hempty
  unfold compileSortedMetas at h
  obtain ⟨m, rest, hmove, hmk, hms, hrest⟩ := moveFeePayerFirst_spec feePayer
    ((uniqueAccountMetas tx.instructions).insertionSort
      (fun x y => compareMetas localeCompare x y ≤ 0))
  rw [hmove] at h
  cases hcheck : checkSigners tx.signatures (m :: rest) with
  | error e => simp [hcheck] at h
  | ok metas =>
    simp only [hcheck] at h
    split_ifs at h with hall
    injection h with h
    obtain ⟨⟨m', rest', hmetas, hk', hs'⟩, hkeys⟩ := checkSigners_spec _ _ _ _ hcheck hms
    subst h
    refine ⟨rfl, rfl, ?_, ?_, ?_, ?_, ?_⟩
    · intro instruction hi
      have := List.all_eq_true.1 hall instruction hi
      simp only [Bool.and_eq_true, decide_eq_true_eq, List.all_eq_true] at this
      exact this
    · rw [hmetas]
      simp [List.filter_cons, hs', hk', hmk]
    · rw [hmetas]
      simp [List.filter_cons, hs']
    · simp
    · intro key hkey
      have hkey' : key ∈ metas.map (fun x => x.pubkey) := by
        simp only [List.map_append, List.mem_append, List.mem_map, List.mem_filter] at hkey
        rcases hkey with ⟨x, ⟨hx, _⟩, rfl⟩ | ⟨x, ⟨hx, _⟩, rfl⟩
        · exact List.mem_map_of_mem _ hx
        · exact List.mem_map_of_mem _ hx
      rw [hkeys, List.map_cons, List.mem_cons] at hkey'
      unfold Transaction.publicKeys
      rcases hkey' with rfl | hkey'
      · simp [hfee, hmk]
      · obtain ⟨x, hx, rfl⟩ := List.mem_map.1 hkey'
        have hx' := (List.perm_insertionSort _ _).mem_iff.1 (hrest x hx)
        unfold uniqueAccountMetas at hx'
        obtain ⟨y, hy, hxy⟩ := foldl_mergeMeta_pubkeys _ _ x hx'
        rw [hxy]
        simp only [List.nil_append, List.mem_append, List.mem_flatMap, List.mem_map] at hy
        rcases hy with ⟨instruction, hi, hy⟩ | ⟨programId, hp, rfl⟩
        · simp only [List.mem_append, List.mem_flatMap, List.mem_cons, List.mem_map]
          exact Or.inr ⟨instruction, hi, Or.inr ⟨y, hy, rfl⟩⟩
        · rcases foldl_programIds_mem _ _ programId hp with h0 | ⟨instruction, hi, rfl⟩
          · simp at h0
          · simp only [List.mem_append, List.mem_flatMap, List.mem_cons, List.mem_map]
            exact Or.inr ⟨instruction, hi, Or.inl rfl⟩

/-! ### Facts on `message.serialize` and `Message.from` -/

theorem PublicKey.ofBytes_bytes (key : PublicKey) : PublicKey.ofBytes key.bytes = .ok key := by
  unfold PublicKey.ofBytes
  rw [dif_pos key.size_eq]

theorem readAccountKeys_flatMap (keys : List PublicKey) (rest : List Nat) :
    readAccountKeys keys.length (keys.flatMap (fun key => key.toBuffer) ++ rest)
      = .ok (keys, rest) := by
  induction keys with
  | nil => rfl
  | cons key keys ih =>
    have h32 : key.toBuffer.length = 32 := key.size_eq
    simp only [List.length_cons, List.flatMap_cons, List.append_assoc, readAccountKeys]
    rw [List.take_left' h32, List.drop_left' h32, ih]
    show (match PublicKey.ofBytes key.bytes with
      | .error _ => Except.error "Invalid public key input"
      | .ok key => Except.ok (key :: keys, rest)) = _
    rw [PublicKey.ofBytes_bytes]

theorem length_flatMap_toBuffer (keys : List PublicKey) :
    (keys.flatMap (fun key => key.toBuffer)).length = 32 * keys.length := by
  induction keys with
  | nil => rfl
  | cons key keys ih =>
    have h32 : key.toBuffer.length = 32 := key.size_eq
    simp only [List.flatMap_cons, List.length_append, List.length_cons, ih, h32]
    ring

theorem encodeInstruction_spec (instruction : CompiledInstruction) (bytes : Buffer)
    (h : encodeInstruction instruction = .ok bytes) :
    ∃ data, bs58decode instruction.data = .ok data ∧
      bytes = instruction.programIdIndex :: (encodeLength instruction.accounts.length
        ++ (instruction.accounts ++ (encodeLength data.length ++ data))) ∧
      instruction.programIdIndex < 256 ∧ ∀ i ∈ instruction.accounts, i < 256 := by
  unfold encodeInstruction at h
  cases hd : bs58decode instruction.data with
  | error e => simp [hd] at h
  | ok data =>
    simp only [hd] at h
    split_ifs at h with hr
    injection h with h
    refine ⟨data, rfl, ?_, ?_, ?_⟩
    · rw [← h]
      simp
    · have := not_or.1 hr
      omega
    · intro i hi
      have := (not_or.1 hr).2
      simp only [List.any_eq_true, decide_eq_true_eq, not_exists, not_and, not_lt] at this
      have := this i hi
      omega

/-- Reading the bytes of the instructions of a message gives the instructions back. -/
theorem readInstructions_encodeInstructions (instructions : List CompiledInstruction)
    (bytes : Buffer) (rest : List Nat) (h : encodeInstructions instructions = .ok bytes) :
    readInstructions instructions.length (bytes ++ rest) = .ok (instructions, rest) ∧
    ∀ x ∈ bytes, x < 256 := by
  induction instructions generalizing bytes with
  | nil =>
    simp only [encodeInstructions] at h
    injection h with h
    subst h
    exact ⟨rfl, by simp⟩
  | cons instruction instructions ih =>
    unfold encodeInstructions at h
    cases h1 : encodeInstruction instruction with
    | error e => simp [h1] at h
    | ok first =>
      simp only [h1] at h
      cases h2 : encodeInstructions instructions with
      | error e => simp [h2] at h
      | ok others =>
        simp only [h2] at h
        injection h with h
        obtain ⟨data, hdata, hfirst, hp, ha⟩ := encodeInstruction_spec _ _ h1
        obtain ⟨hdata', hbytes⟩ := bs58encode_of_bs58decode _ _ hdata
        obtain ⟨ih1, ih2⟩ := ih others h2
        subst h
        constructor
        · rw [hfirst]
          simp only [List.length_cons, List.cons_append, List.append_assoc, readInstructions,
            decodeLength_encodeLength, List.take_left', List.drop_left', ih1, hdata']
        · intro x hx
          rw [hfirst] at hx
          simp only [List.mem_append, List.mem_cons] at hx
          rcases hx with (rfl | hx | hx | hx | hx) | hx
          · exact hp
          · exact encodeLength_lt _ x hx
          · exact ha x hx
          · exact encodeLength_lt _ x hx
          · exact hbytes x hx
          · exact ih2 x hx

theorem length_encodeInstructions (instructions : List CompiledInstruction) (bytes : Buffer)
    (h : encodeInstructions instructions = .ok bytes) :
    ∀ instruction ∈ instructions, ∃ data, bs58decode instruction.data = .ok data := by
  induction instructions generalizing bytes with
  | nil => simp
  | cons instruction instructions ih =>
    unfold encodeInstructions at h
    cases h1 : encodeInstruction instruction with
    | error e => simp [h1] at h
    | ok first =>
      simp only [h1] at h
      cases h2 : encodeInstructions instructions with
      | error e => simp [h2] at h
      | ok others =>
        obtain ⟨data, hdata, _⟩ := encodeInstruction_spec _ _ h1
        intro x hx
        rcases List.mem_cons.1 hx with rfl | hx
        · exact ⟨data, hdata⟩
        · exact ih others h2 x hx

/-- Reading the bytes of a message gives the message back, the header counts as bytes. -/
theorem messageFrom_serialize (message : Message) (signData : Buffer)
    (h : message.serialize = .ok signData) (hlen : signData.length < 2048)
    (hn : message.header.numRequiredSignatures % 256 < 128) :
    messageFrom signData = .ok ⟨⟨message.header.numRequiredSignatures % 256,
        message.header.numReadonlySignedAccounts % 256,
        message.header.numReadonlyUnsignedAccounts % 256⟩,
      message.accountKeys, message.recentBlockhash, message.instructions⟩ ∧
    32 * message.accountKeys.length ≤ signData.length ∧
    ((∀ key ∈ message.accountKeys, ∀ x ∈ key.bytes, x < 256) → ∀ x ∈ signData, x < 256) ∧
    ∀ instruction ∈ message.instructions, ∃ data, bs58decode instruction.data = .ok data := by
  unfold Message.serialize at h
  cases h1 : encodeInstructions message.instructions with
  | error e => simp [h1] at h
  | ok instructionBytes =>
    simp only [h1] at h
    cases ho : instructionOverflow (encodeLength message.instructions.length).length
        message.instructions with
    | some e => simp [ho] at h
    | none =>
    simp only [ho] at h
    cases h2 : bs58decode message.recentBlockhash with
    | error e => simp [h2] at h
    | ok recentBlockhash =>
      simp only [h2] at h
      split_ifs at h with hk h32 hk2
      injection h with h
      have hfull : ∀ l : List Nat, l.take 2048 = signData → l = signData := by
        intro l hl
        have h1 : (l.take 2048).length < 2048 := by rw [hl]; exact hlen
        rw [List.length_take] at h1
        rw [← hl, List.take_of_length_le (by omega)]
      have h := hfull _ h
      obtain ⟨hread, hbytes⟩ := readInstructions_encodeInstructions _ _ [] h1
      obtain ⟨hblock, hblockBytes⟩ := bs58encode_of_bs58decode _ _ h2
      rw [List.append_nil] at hread
      have h32' : recentBlockhash.length = 32 := not_not.1 h32
      subst h
      refine ⟨?_, ?_, ?_, length_encodeInstructions _ _ h1⟩
      · unfold messageFrom
        have hne : ¬ message.header.numRequiredSignatures % 256
            ≠ message.header.numRequiredSignatures % 256 % 128 := by
          rw [Nat.mod_eq_of_lt hn]
          exact not_not.2 rfl
        simp only [List.cons_append, List.nil_append, List.append_assoc, if_neg hne,
          decodeLength_encodeLength, readAccountKeys_flatMap, List.take_left' h32',
          List.drop_left' h32', hread, hblock]
      · simp only [List.length_append, length_flatMap_toBuffer]
        omega
      · intro hkeys x hx
        simp only [List.mem_append, List.mem_cons, List.mem_flatMap, List.not_mem_nil,
          or_false] at hx
        rcases hx with ((((hx | hx) | hx) | hx) | hx) | hx
        · rcases hx with rfl | rfl | rfl <;> exact Nat.mod_lt _ (by norm_num)
        · exact encodeLength_lt _ x hx
        · obtain ⟨key, hk, hx⟩ := hx
          exact hkeys key hk x hx
        · exact hblockBytes x hx
        · exact encodeLength_lt _ x hx
        · exact hbytes x hx

/-! ### Facts on `transaction.serialize` and `Transaction.from` -/

theorem readSignatures_flatMap (signatures : List SignaturePubkeyPair) (rest : List Nat)
    (h : ∀ pair ∈ signatures, ∀ signature, pair.signature = some signature →
      signature.length = 64) :
    readSignatures signatures.length
        (signatures.flatMap (fun pair => pair.signature.getD (List.replicate 64 0)) ++ rest)
      = (signatures.map (fun pair => bs58encode (pair.signature.getD (List.replicate 64 0))),
          rest) := by
  induction signatures with
  | nil => rfl
  | cons pair signatures ih =>
    have h64 : (pair.signature.getD (List.replicate 64 0)).length = 64 := by
      cases hs : pair.signature with
      | none => simp
      | some signature => simpa using h pair (List.mem_cons_self _ _) signature hs
    simp only [List.length_cons, List.flatMap_cons, List.append_assoc, readSignatures,
      List.take_left' h64, List.drop_left' h64, List.map_cons,
      ih (fun p hp => h p (List.mem_cons_of_mem _ hp))]

theorem Transaction._compile_spec (localeCompare : String → String → Int) (tx : Transaction)
    (message : Message) (signatures : List SignaturePubkeyPair)
    (h : tx._compile localeCompare = .ok (message, signatures)) :
    compileMessage localeCompare tx = .ok message ∧
    signatures.map (fun pair => pair.publicKey)
      = message.accountKeys.take message.header.numRequiredSignatures ∧
    ∀ pair ∈ signatures, pair ∈ tx.signatures ∨ pair.signature = none := by
  unfold Transaction._compile at h
  cases hc : compileMessage localeCompare tx with
  | error e => simp [hc] at h
  | ok m =>
    simp only [hc] at h
    split_ifs at h with heq
    · injection h with h
      injection h with h1 h2
      subst h1 h2
      exact ⟨rfl, heq, fun p hp => Or.inl hp⟩
    · injection h with h
      injection h with h1 h2
      subst h1 h2
      refine ⟨rfl, ?_, ?_⟩
      · rw [List.map_map]
        exact List.map_id _
      · intro p hp
        obtain ⟨k, _, rfl⟩ := List.mem_map.1 hp
        exact Or.inr rfl

/-- The shape of the bytes a successful `transaction.serialize` returns. -/
theorem Transaction.serialize_spec (localeCompare : String → String → Int)
    (verify : Buffer → Buffer → PublicKey → Bool) (tx : Transaction) (config : SerializeConfig)
    (wire : Buffer) (h : tx.serialize localeCompare verify config = .ok wire) :
    ∃ message signatures signData,
      tx._compile localeCompare = .ok (message, signatures) ∧
      message.serialize = .ok signData ∧
      (∀ pair ∈ signatures, ∀ signature, pair.signature = some signature →
        signature.length = 64) ∧
      wire = encodeLength signatures.length
        ++ (signatures.flatMap (fun pair => pair.signature.getD (List.replicate 64 0))
          ++ signData) ∧
      wire.length ≤ 1232 := by
  unfold Transaction.serialize at h
  cases hc : tx._compile localeCompare with
  | error e => simp [hc] at h
  | ok r =>
    obtain ⟨message, signatures⟩ := r
    simp only [hc] at h
    cases hs : message.serialize with
    | error e => simp [hs] at h
    | ok signData =>
      simp only [hs] at h
      split_ifs at h with hv
      unfold Transaction._serialize at h
      split_ifs at h with h256 hany
      dsimp only at h
      split_ifs at h with hlen
      injection h with h
      refine ⟨message, signatures, signData, rfl, hs, ?_, ?_, ?_⟩
      · intro pair hp signature hsig
        by_contra hne
        apply hany
        rw [List.any_eq_true]
        exact ⟨pair, hp, by simp [hsig, hne]⟩
      · rw [← h, List.append_assoc]
      · rw [← h]
        exact hlen

theorem base64Encode_ne_nil (b : Buffer) (h : b ≠ []) : base64Encode b ≠ [] := by
  match b, h with
  | [_], _ => simp [base64Encode]
  | [_, _], _ => simp [base64Encode]
  | _ :: _ :: _ :: _, _ => simp [base64Encode]

theorem Message.serialize_length (message : Message) (signData : Buffer)
    (h : message.serialize = .ok signData) :
    32 * message.accountKeys.length ≤ signData.length := by
  unfold Message.serialize at h
  cases h1 : encodeInstructions message.instructions with
  | error e => simp [h1] at h
  | ok instructionBytes =>
    simp only [h1] at h
    cases ho : instructionOverflow (encodeLength message.instructions.length).length
        message.instructions with
    | some e => simp [ho] at h
    | none =>
    simp only [ho] at h
    cases h2 : bs58decode message.recentBlockhash with
    | error e => simp [h2] at h
    | ok recentBlockhash =>
      simp only [h2] at h
      split_ifs at h with hk h32 hk2
      injection h with h
      subst h
      simp only [List.length_take, List.length_append, length_flatMap_toBuffer]
      omega

theorem populateSignature_ok (message : Message) (chunk : Buffer) (index : Nat)
    (hchunk : ∀ x ∈ chunk, x < 256) (hindex : index < message.accountKeys.length) :
    ∃ pair, populateSignature message (bs58encode chunk, index) = .ok pair := by
  unfold populateSignature
  simp only [List.getElem?_eq_getElem hindex]
  split_ifs
  · exact ⟨_, rfl⟩
  · rw [bs58decode_bs58encode chunk hchunk]
    exact ⟨_, rfl⟩

theorem populateInstruction_ok (message : Message) (signatures : List SignaturePubkeyPair)
    (instruction : CompiledInstruction)
    (hp : instruction.programIdIndex < message.accountKeys.length)
    (ha : ∀ keyIndex ∈ instruction.accounts, keyIndex < message.accountKeys.length)
    (hd : ∃ data, bs58decode instruction.data = .ok data) :
    ∃ populated, populateInstruction message signatures instruction = .ok populated ∧
      message.accountKeys[instruction.programIdIndex]? = some populated.programId ∧
      populated.keys.length = instruction.accounts.length := by
  obtain ⟨keys, hkeys, hF⟩ := traverse_forall₂ (populateKey message signatures)
    (fun _ _ => True) instruction.accounts (by
      intro account hacc
      unfold populateKey
      simp only [List.getElem?_eq_getElem (ha account hacc)]
      exact ⟨_, rfl, trivial⟩)
  obtain ⟨data, hdata⟩ := hd
  unfold populateInstruction
  simp only [hkeys, List.getElem?_eq_getElem hp, hdata]
  exact ⟨_, rfl, rfl, hF.length_eq.symm⟩

/-- Reading the bytes that `transaction.serialize` returns gives a transaction with the same
recent blockhash and fee payer and, instruction by instruction, the same program and the
same number of accounts; the bytes are below 256. -/
theorem transactionFrom_serialize (localeCompare : String → String → Int)
    (verify : Buffer → Buffer → PublicKey → Bool) (tx : Transaction) (config : SerializeConfig)
    (feePayer : PublicKey) (recentBlockhash : String) (wire : Buffer)
    (hfee : tx.feePayer = some feePayer) (hblock : tx.recentBlockhash = some recentBlockhash)
    (htyped : tx.WellTyped) (h : tx.serialize localeCompare verify config = .ok wire) :
    (∀ x ∈ wire, x < 256) ∧
    ∃ deserialized, transactionFrom wire = .ok deserialized ∧
      deserialized.recentBlockhash = some recentBlockhash ∧
      deserialized.feePayer = some feePayer ∧
      deserialized.instructions.map (fun instruction =>
          (instruction.programId, instruction.keys.length))
        = tx.instructions.map (fun instruction =>
          (instruction.programId, instruction.keys.length)) := by
  obtain ⟨message, signatures, signData, hc, hs, h64, hw, hlen⟩ :=
    Transaction.serialize_spec _ _ _ _ _ h
  obtain ⟨hcm, hsigkeys, hsigsrc⟩ := Transaction._compile_spec _ _ _ _ hc
  obtain ⟨hbh, hinstr, hidx, hhead, hpos, hle, hmem⟩ :=
    compileMessage_spec _ _ _ _ _ hfee hblock hcm
  have hkeysBytes : ∀ key ∈ message.accountKeys, ∀ x ∈ key.bytes, x < 256 :=
    fun key hk => htyped.1 key (hmem key hk)
  have hsiglen : signatures.length = message.header.numRequiredSignatures := by
    have := congrArg List.length hsigkeys
    simpa [List.length_take, hle] using this
  have hkeys38 : message.accountKeys.length ≤ 38 := by
    have h1 := Message.serialize_length _ _ hs
    have h2 : signData.length ≤ wire.length := by
      rw [hw]
      simp only [List.length_append]
      omega
    omega
  have hn : message.header.numRequiredSignatures % 256 < 128 := by
    rw [Nat.mod_eq_of_lt (by omega)]
    omega
  have hsign : signData.length < 2048 := by
    have h2 : signData.length ≤ wire.length := by
      rw [hw]
      simp only [List.length_append]
      omega
    omega
  obtain ⟨hfrom, _, hsignBytes, hdata⟩ := messageFrom_serialize _ _ hs hsign hn
  have hchunk : ∀ pair ∈ signatures,
      ∀ x ∈ pair.signature.getD (List.replicate 64 0), x < 256 := by
    intro pair hp x hx
    cases hsig : pair.signature with
    | none =>
      rw [hsig] at hx
      rw [List.eq_of_mem_replicate hx]
      norm_num
    | some signature =>
      rw [hsig] at hx
      rcases hsigsrc pair hp with hsrc | hnone
      · exact htyped.2 pair hsrc signature hsig x hx
      · rw [hsig] at hnone
        cases hnone
  constructor
  · intro x hx
    rw [hw] at hx
    simp only [List.mem_append, List.mem_flatMap] at hx
    rcases hx with hx | ⟨pair, hp, hx⟩ | hx
    · exact encodeLength_lt _ x hx
    · exact hchunk pair hp x hx
    · exact hsignBytes hkeysBytes x hx
  · set parsed : Message := ⟨⟨message.header.numRequiredSignatures % 256,
        message.header.numReadonlySignedAccounts % 256,
        message.header.numReadonlyUnsignedAccounts % 256⟩,
      message.accountKeys, message.recentBlockhash, message.instructions⟩ with hparsed
    obtain ⟨pairs, hpairs, _⟩ := traverse_forall₂ (populateSignature parsed)
      (fun _ _ => True)
      ((signatures.map (fun pair => bs58encode (pair.signature.getD (List.replicate 64 0)))).zip
        (List.range (signatures.map
          (fun pair => bs58encode (pair.signature.getD (List.replicate 64 0)))).length))
      (by
        rintro ⟨text, index⟩ hentry
        obtain ⟨htext, hindex⟩ := List.of_mem_zip hentry
        obtain ⟨pair, hp, rfl⟩ := List.mem_map.1 htext
        have hi : index < parsed.accountKeys.length := by
          have := List.mem_range.1 hindex
          simp only [List.length_map] at this
          show index < message.accountKeys.length
          omega
        obtain ⟨b, hb⟩ := populateSignature_ok parsed _ index (hchunk pair hp) hi
        exact ⟨b, hb, trivial⟩)
    obtain ⟨instructions, hinstructions, hF⟩ := traverse_forall₂
      (populateInstruction parsed pairs)
      (fun compiled populated =>
        compiled.programIdIndex < message.accountKeys.length ∧
        message.accountKeys[compiled.programIdIndex]? = some populated.programId ∧
        populated.keys.length = compiled.accounts.length)
      message.instructions
      (by
        intro compiled hcompiled
        obtain ⟨hp, ha⟩ := hidx compiled hcompiled
        obtain ⟨populated, h1, h2, h3⟩ := populateInstruction_ok parsed pairs compiled hp ha
          (hdata compiled hcompiled)
        exact ⟨populated, h1, hp, h2, h3⟩)
    refine ⟨⟨pairs, if 0 < parsed.header.numRequiredSignatures then parsed.accountKeys.head?
      else none, instructions, some parsed.recentBlockhash⟩, ?_, ?_, ?_, ?_⟩
    · unfold transactionFrom
      simp only [hw, decodeLength_encodeLength, readSignatures_flatMap signatures signData h64,
        hfrom]
      unfold Transaction.populate
      simp only [hpairs, hinstructions]
    · show some message.recentBlockhash = some recentBlockhash
      rw [hbh]
    · show (if 0 < message.header.numRequiredSignatures % 256 then message.accountKeys.head?
        else none) = some feePayer
      rw [Nat.mod_eq_of_lt (by omega), if_pos hpos, hhead]
    · show instructions.map _ = _
      rw [hinstr, List.forall₂_map_left_iff] at hF
      apply forall₂_map_eq
      refine hF.imp ?_
      intro original populated hP
      obtain ⟨h1, h2, h3⟩ := hP
      have hmemk : original.programId ∈ message.accountKeys := List.indexOf_lt_length.1 h1
      have h4 : message.accountKeys[(compileInstruction message.accountKeys
          original).programIdIndex]? = some original.programId :=
        List.getElem?_indexOf hmemk
      rw [h4] at h2
      injection h2 with h2
      rw [← h2, h3]
      simp [compileInstruction]

/-! ### The transaction of the tests -/

set_option maxRecDepth 100000 in
theorem uniqueAccountMetas_createTestTransaction :
    uniqueAccountMetas createTestTransaction.instructions
      = [⟨fromWallet, true, true⟩, ⟨toWallet, false, true⟩,
          ⟨SystemProgram_programId, false, false⟩] := by
  decide!

/-- The sort of the account metas of the test transaction is settled by the flags, whatever
the collation. -/
theorem insertionSort_createTestTransaction (localeCompare : String → String → Int) :
    (uniqueAccountMetas createTestTransaction.instructions).insertionSort
        (fun x y => compareMetas localeCompare x y ≤ 0)
      = [⟨fromWallet, true, true⟩, ⟨toWallet, false, true⟩,
          ⟨SystemProgram_programId, false, false⟩] := by
  rw [uniqueAccountMetas_createTestTransaction]
  simp [List.insertionSort, List.orderedInsert, compareMetas]

theorem compileMessage_createTestTransaction (localeCompare : String → String → Int) :
    compileMessage localeCompare createTestTransaction
      = compileMessage (fun _ _ => 0) createTestTransaction := by
  unfold compileMessage
  simp only [insertionSort_createTestTransaction]

/-- Without verification the bytes do not depend on `requireAllSignatures` nor on the
verification function. -/
theorem Transaction.serialize_unverified (localeCompare : String → String → Int)
    (verify verify' : Buffer → Buffer → PublicKey → Bool) (tx : Transaction)
    (requireAllSignatures requireAllSignatures' : Bool) :
    tx.serialize localeCompare verify ⟨requireAllSignatures, false⟩
      = tx.serialize localeCompare verify' ⟨requireAllSignatures', false⟩ := by
  unfold Transaction.serialize
  simp only [Bool.false_and, Bool.false_eq_true, if_false]

set_option maxRecDepth 100000 in
theorem serialize_createTestTransaction (localeCompare : String → String → Int)
    (verify : Buffer → Buffer → PublicKey → Bool) (requireAllSignatures : Bool) :
    createTestTransaction.serialize localeCompare verify ⟨requireAllSignatures, false⟩
      = .ok (bufferFromBase64 "AQAAAAAAAAAAAAAAAAAAAAAAAAAAAAAAAAAAAAAAAAAAAAAAAAAAAAAAAAAAAAAAAAAAAAAAAAAAAAAAAAAAAAABAAEDQ7chiAehiD/ZKjOs+k163F3nXYIQo4DvWYKwnZ3E7GcMZGAOhddJuvo/aRkx/GIqbGvcmcd0YXgfnnGMtJA3PAAAAAAAAAAAAAAAAAAAAAAAAAAAAAAAAAAAAAAAAAAAxRNdEaUcfUrKifPgPTDXnw7n0PSBhQfp3iOpNQRbqQABAgIAAQwCAAAAQEIPAAAAAAA=") := by
  have h : createTestTransaction.serialize localeCompare verify ⟨requireAllSignatures, false⟩
      = createTestTransaction.serialize (fun _ _ => 0) (fun _ _ _ => true) ⟨false, false⟩ := by
    rw [Transaction.serialize_unverified localeCompare verify (fun _ _ _ => true) _
      requireAllSignatures false]
    unfold Transaction.serialize Transaction._compile
    rw [compileMessage_createTestTransaction]
  rw [h]
  decide!

set_option maxRecDepth 100000 in
theorem _compile_createTestTransaction (localeCompare : String → String → Int) :
    (createTestTransaction._compile localeCompare).map (fun r => r.2)
      = .ok [⟨none, fromWallet⟩] := by
  have h : createTestTransaction._compile localeCompare
      = createTestTransaction._compile (fun _ _ => 0) := by
    unfold Transaction._compile
    rw [compileMessage_createTestTransaction]
  rw [h]
  decide!

/-- With verification, `transaction.serialize` throws when a signature slot is empty and all
signatures are required. -/
theorem Transaction.serialize_missing_signature (localeCompare : String → String → Int)
    (verify : Buffer → Buffer → PublicKey → Bool) (tx : Transaction)
    (h : ∀ message signatures, tx._compile localeCompare = .ok (message, signatures) →
      ∃ pair ∈ signatures, pair.signature = none) :
    ∃ e, tx.serialize localeCompare verify ⟨true, true⟩ = .error e := by
  unfold Transaction.serialize
  cases hc : tx._compile localeCompare with
  | error e => exact ⟨e, rfl⟩
  | ok r =>
    obtain ⟨message, signatures⟩ := r
    dsimp only
    cases hs : message.serialize with
    | error e => exact ⟨e, rfl⟩
    | ok signData =>
      dsimp only
      obtain ⟨pair, hp, hnone⟩ := h message signatures hc
      have hv : Transaction._verifySignatures verify signatures signData true = false := by
        unfold Transaction._verifySignatures
        rw [List.all_eq_false]
        exact ⟨pair, hp, by simp [hnone]⟩
      rw [hv]
      exact ⟨_, rfl⟩

set_option maxRecDepth 100000 in
theorem uniqueAccountMetas_createOversizeTestTransaction :
    uniqueAccountMetas createOversizeTestTransaction.instructions
      = uniqueAccountMetas createTestTransaction.instructions := by
  decide!

theorem compileMessage_createOversizeTestTransaction (localeCompare : String → String → Int) :
    compileMessage localeCompare createOversizeTestTransaction
      = compileMessage (fun _ _ => 0) createOversizeTestTransaction := by
  unfold compileMessage
  simp only [uniqueAccountMetas_createOversizeTestTransaction,
    insertionSort_createTestTransaction]

set_option maxRecDepth 100000 in
/-- The library refuses the oversize transaction of the tests while it fills the instruction
buffer, whatever the configuration. -/
theorem serialize_createOversizeTestTransaction (localeCompare : String → String → Int)
    (verify : Buffer → Buffer → PublicKey → Bool) (config : SerializeConfig) :
    createOversizeTestTransaction.serialize localeCompare verify config
      = .error offsetOutOfRangeMessage := by
  have hm : createOversizeTestTransaction._compile localeCompare
      = createOversizeTestTransaction._compile (fun _ _ => 0) := by
    unfold Transaction._compile
    rw [compileMessage_createOversizeTestTransaction]
  have hc : (createOversizeTestTransaction._compile (fun _ _ => 0)).bind
      (fun r => r.1.serialize) = .error offsetOutOfRangeMessage := by
    decide!
  unfold Transaction.serialize
  rw [hm]
  cases h : createOversizeTestTransaction._compile (fun _ _ => 0) with
  | error e =>
    rw [h] at hc
    exact hc
  | ok r =>
    obtain ⟨message, signatures⟩ := r
    rw [h] at hc
    have hs : message.serialize = .error offsetOutOfRangeMessage := hc
    simp only [hs]


/-! ## The claims on serialization with the library -/

set_option maxRecDepth 100000 in
/-- C11: for the oversize transaction of the tests, the test transfer and 100 more transfers,
`serializeTransactionForClientSigning` throws an error with the code
`TRANSACTION_SERIALIZE_ERROR` whose message is the fixed prefix followed by the text of the
`RangeError` that the library throws while it fills its instruction buffer: it holds neither
the word `크기` that the test expects nor a size of the transaction. For every transaction of
the library the size test of `serializeTransaction` is never met: an error that leaves is the
error of `transaction.serialize` under the prefix chosen by `serializeErrorMessage`, and the
bytes that `transaction.serialize` returns number at most 1232, so that a string returned
decodes to at most 1232 bytes. -/
theorem serializeTransaction_oversize_without_size (localeCompare : String → String → Int)
    (verify : Buffer → Buffer → PublicKey → Bool) :
    (createOversizeTestTransaction.instructions.length = 101 ∧
      serializeTransactionForClientSigning
          (createOversizeTestTransaction.toArg localeCompare verify)
        = .error (.enhanced
          "트랜잭션 직렬화 실패: The value of \x22offset\x22 is out of range. It must be >= 0 and <= 1231. Received 1232"
          "TRANSACTION_SERIALIZE_ERROR"
          "The value of \x22offset\x22 is out of range. It must be >= 0 and <= 1231. Received 1232"
          none) ∧
      ¬ "크기".data <:+:
        "트랜잭션 직렬화 실패: The value of \x22offset\x22 is out of range. It must be >= 0 and <= 1231. Received 1232".data) ∧
    (∀ (tx : Transaction) (options : SerializeOptions) (e : UtilError),
      serializeTransaction (tx.toArg localeCompare verify) options = .error e →
      ∃ original,
        tx.serialize localeCompare verify
            ⟨options.requireAllSignatures.getD false, options.verifySignatures.getD false⟩
          = .error original ∧
        e = .enhanced (serializeErrorMessage original) "TRANSACTION_SERIALIZE_ERROR" original
          none) ∧
    (∀ (tx : Transaction) (config : SerializeConfig) (wire : Buffer),
      tx.serialize localeCompare verify config = .ok wire → wire.length ≤ 1232) ∧
    (∀ (tx : Transaction) (options : SerializeOptions) (base64 : String),
      serializeTransaction (tx.toArg localeCompare verify) options = .ok base64 →
      (bufferFromBase64 base64).length ≤ 1232) := by
  have hwire : ∀ (tx : Transaction) (config : SerializeConfig) (wire : Buffer),
      tx.serialize localeCompare verify config = .ok wire → wire.length ≤ 1232 := by
    intro tx config wire h
    obtain ⟨_, _, _, _, _, _, _, hlen⟩ := Transaction.serialize_spec _ _ _ _ _ h
    exact hlen
  refine ⟨⟨by decide!, ?_, by decide!⟩, ?_, hwire,
    fun tx options base64 h => serializeTransaction_ok_length _ _ _ h⟩
  · unfold serializeTransactionForClientSigning serializeTransaction Transaction.toArg
    simp only [serialize_createOversizeTestTransaction]
    decide!
  · intro tx options e h
    unfold serializeTransaction Transaction.toArg at h
    dsimp only at h
    cases hser : tx.serialize localeCompare verify
        ⟨options.requireAllSignatures.getD false, options.verifySignatures.getD false⟩ with
    | error original =>
      rw [hser] at h
      dsimp only at h
      injection h with h
      exact ⟨original, rfl, h.symm⟩
    | ok serialized =>
      rw [hser] at h
      have hlen := hwire tx _ serialized hser
      have hnot : ¬ serialized.length > 1232 := by omega
      simp only [hnot, if_false] at h
      cases h

/-- C11, at the oversize transaction of the tests: the error that leaves
`serializeTransaction` is the error of the library under the general prefix. -/
theorem serializeTransaction_oversize_without_size_witness :
    ∃ original,
      createOversizeTestTransaction.serialize (fun _ _ => 0) (fun _ _ _ => true)
          ⟨false, false⟩ = .error original ∧
      UtilError.enhanced
          "트랜잭션 직렬화 실패: The value of \x22offset\x22 is out of range. It must be >= 0 and <= 1231. Received 1232"
          "TRANSACTION_SERIALIZE_ERROR"
          "The value of \x22offset\x22 is out of range. It must be >= 0 and <= 1231. Received 1232"
          none
        = .enhanced (serializeErrorMessage original) "TRANSACTION_SERIALIZE_ERROR" original
          none :=
  (serializeTransaction_oversize_without_size (fun _ _ => 0) (fun _ _ _ => true)).2.1
    createOversizeTestTransaction ⟨some false, some false⟩ _
    (serializeTransaction_oversize_without_size (fun _ _ => 0) (fun _ _ _ => true)).1.2.1

set_option maxRecDepth 100000 in
/-- C12: the transaction of the tests, unsigned, passed to `serializeTransaction` with
`requireAllSignatures: true`, is serialized, not refused: the string returned decodes to the
count 1 followed by 64 zero bytes in the signature slot. The option changes nothing for any
transaction as long as `verifySignatures` is not set. With `serializeTransactionWithSignatures`
a transaction with an empty signature slot is refused. -/
theorem serializeTransaction_requireAllSignatures_unsigned
    (localeCompare : String → String → Int) (verify : Buffer → Buffer → PublicKey → Bool) :
    serializeTransaction (createTestTransaction.toArg localeCompare verify) ⟨some true, none⟩
      = .ok "AQAAAAAAAAAAAAAAAAAAAAAAAAAAAAAAAAAAAAAAAAAAAAAAAAAAAAAAAAAAAAAAAAAAAAAAAAAAAAAAAAAAAAABAAEDQ7chiAehiD/ZKjOs+k163F3nXYIQo4DvWYKwnZ3E7GcMZGAOhddJuvo/aRkx/GIqbGvcmcd0YXgfnnGMtJA3PAAAAAAAAAAAAAAAAAAAAAAAAAAAAAAAAAAAAAAAAAAAxRNdEaUcfUrKifPgPTDXnw7n0PSBhQfp3iOpNQRbqQABAgIAAQwCAAAAQEIPAAAAAAA=" ∧
    (bufferFromBase64 "AQAAAAAAAAAAAAAAAAAAAAAAAAAAAAAAAAAAAAAAAAAAAAAAAAAAAAAAAAAAAAAAAAAAAAAAAAAAAAAAAAAAAAABAAEDQ7chiAehiD/ZKjOs+k163F3nXYIQo4DvWYKwnZ3E7GcMZGAOhddJuvo/aRkx/GIqbGvcmcd0YXgfnnGMtJA3PAAAAAAAAAAAAAAAAAAAAAAAAAAAAAAAAAAAAAAAAAAAxRNdEaUcfUrKifPgPTDXnw7n0PSBhQfp3iOpNQRbqQABAgIAAQwCAAAAQEIPAAAAAAA=").take 65
      = 1 :: List.replicate 64 0 ∧
    (∀ tx : Transaction,
      serializeTransaction (tx.toArg localeCompare verify) ⟨some true, none⟩
        = serializeTransaction (tx.toArg localeCompare verify) ⟨some false, none⟩) ∧
    (∀ tx : Transaction,
      (∀ message signatures, tx._compile localeCompare = .ok (message, signatures) →
        ∃ pair ∈ signatures, pair.signature = none) →
      ∃ e, serializeTransactionWithSignatures (tx.toArg localeCompare verify) = .error e) := by
  refine ⟨?_, ?_, ?_, ?_⟩
  · unfold serializeTransaction Transaction.toArg
    simp only [Option.getD_some, Option.getD_none, serialize_createTestTransaction]
    decide!
  · decide!
  · intro tx
    unfold serializeTransaction Transaction.toArg
    simp only [Option.getD_some, Option.getD_none]
    rw [Transaction.serialize_unverified localeCompare verify verify tx true false]
  · intro tx h
    obtain ⟨e, he⟩ := Transaction.serialize_missing_signature localeCompare verify tx h
    unfold serializeTransactionWithSignatures serializeTransaction Transaction.toArg
    simp only [Option.getD_some, he]
    exact ⟨_, rfl⟩

/-- C12, at the unsigned transaction of the tests: `serializeTransactionWithSignatures`
throws. -/
theorem serializeTransaction_requireAllSignatures_unsigned_witness :
    ∃ e, serializeTransactionWithSignatures
      (createTestTransaction.toArg (fun _ _ => 0) (fun _ _ _ => true)) = .error e :=
  (serializeTransaction_requireAllSignatures_unsigned (fun _ _ => 0) (fun _ _ _ => true)).2.2.2
    createTestTransaction (by
      intro message signatures h
      have hc := _compile_createTestTransaction (fun _ _ => 0)
      rw [h] at hc
      injection hc with hc
      have hs : signatures = [⟨none, fromWallet⟩] := hc
      exact ⟨⟨none, fromWallet⟩, by rw [hs]; simp, rfl⟩)

/-- C14: for a transaction with fee payer and recent blockhash set whose wire form, the
bytes `transaction.serialize` returns without verification, has between 10 and 1232 bytes,
`serializeTransactionForClientSigning` returns a string of the base64 format, the server and
the client `deserializeTransaction` accept it, and the transaction they return has the same
recent blockhash, the same fee payer, as many instructions and, instruction by instruction,
the same program and the same number of account keys. -/
theorem deserializeTransaction_serializeTransactionForClientSigning
    (localeCompare : String → String → Int) (verify : Buffer → Buffer → PublicKey → Bool)
    (tx : Transaction) (feePayer : PublicKey) (recentBlockhash : String) (wire : Buffer)
    (hfee : tx.feePayer = some feePayer) (hblock : tx.recentBlockhash = some recentBlockhash)
    (htyped : tx.WellTyped)
    (hwire : tx.serialize localeCompare verify ⟨false, false⟩ = .ok wire)
    (h10 : 10 ≤ wire.length) (h1232 : wire.length ≤ 1232) :
    ∃ base64 deserialized,
      serializeTransactionForClientSigning (tx.toArg localeCompare verify) = .ok base64 ∧
      MatchesBase64Pattern base64 ∧
      deserializeTransaction transactionFrom (.str base64) = .ok deserialized ∧
      deserializeTransaction_client transactionFrom (.str base64) = .ok deserialized ∧
      deserialized.recentBlockhash = tx.recentBlockhash ∧
      deserialized.feePayer = tx.feePayer ∧
      deserialized.instructions.length = tx.instructions.length ∧
      deserialized.instructions.map (fun instruction =>
          (instruction.programId, instruction.keys.length))
        = tx.instructions.map (fun instruction =>
          (instruction.programId, instruction.keys.length)) := by
  obtain ⟨hbytes, deserialized, hfrom, h1, h2, h3⟩ :=
    transactionFrom_serialize localeCompare verify tx ⟨false, false⟩ feePayer recentBlockhash
      wire hfee hblock htyped hwire
  have hdecode := bufferFromBase64_toStringBase64 wire hbytes
  have hregex := base64Regex_toStringBase64 wire
  have htruthy : (JsArg.str (toStringBase64 wire)).truthy = true := by
    have hne : wire ≠ [] := by
      intro h0
      rw [h0] at h10
      simp at h10
    have : toStringBase64 wire ≠ "" := by
      intro h0
      exact base64Encode_ne_nil wire hne (congrArg String.data h0)
    simpa [JsArg.truthy] using this
  have hlt : ¬ wire.length < 10 := by omega
  have hgt : ¬ wire.length > 1232 := by omega
  refine ⟨toStringBase64 wire, deserialized, ?_, (base64Regex_iff _).1 hregex, ?_, ?_,
    by rw [h1, hblock], by rw [h2, hfee], ?_, h3⟩
  · unfold serializeTransactionForClientSigning serializeTransaction Transaction.toArg
    simp only [Option.getD_some, hwire, if_neg hgt]
  · unfold deserializeTransaction
    simp only [htruthy, hregex, hdecode, Bool.not_true, Bool.false_eq_true, if_false,
      if_neg hlt, if_neg hgt, hfrom]
  · unfold deserializeTransaction_client
    simp only [htruthy, hregex, hdecode, Bool.not_true, Bool.false_eq_true, if_false,
      if_neg hlt, if_neg hgt, hfrom]
  · have := congrArg List.length h3
    simpa using this

set_option maxRecDepth 100000 in
/-- C14, at the transaction of the tests: one transfer, the fee payer and the blockhash of
the tests, 215 bytes on the wire. -/
theorem deserializeTransaction_serializeTransactionForClientSigning_witness :
    ∃ base64 deserialized,
      serializeTransactionForClientSigning
        (createTestTransaction.toArg (fun _ _ => 0) (fun _ _ _ => true)) = .ok base64 ∧
      MatchesBase64Pattern base64 ∧
      deserializeTransaction transactionFrom (.str base64) = .ok deserialized ∧
      deserializeTransaction_client transactionFrom (.str base64) = .ok deserialized ∧
      deserialized.recentBlockhash = createTestTransaction.recentBlockhash ∧
      deserialized.feePayer = createTestTransaction.feePayer ∧
      deserialized.instructions.length = createTestTransaction.instructions.length ∧
      deserialized.instructions.map (fun instruction =>
          (instruction.programId, instruction.keys.length))
        = createTestTransaction.instructions.map (fun instruction =>
          (instruction.programId, instruction.keys.length)) :=
  deserializeTransaction_serializeTransactionForClientSigning (fun _ _ => 0)
    (fun _ _ _ => true) createTestTransaction fromWallet
    "EGJScpJKZToCQxwn3TXfoVBnLRzjKhvXRQtdNxWuFiG7"
    (bufferFromBase64 "AQAAAAAAAAAAAAAAAAAAAAAAAAAAAAAAAAAAAAAAAAAAAAAAAAAAAAAAAAAAAAAAAAAAAAAAAAAAAAAAAAAAAAABAAEDQ7chiAehiD/ZKjOs+k163F3nXYIQo4DvWYKwnZ3E7GcMZGAOhddJuvo/aRkx/GIqbGvcmcd0YXgfnnGMtJA3PAAAAAAAAAAAAAAAAAAAAAAAAAAAAAAAAAAAAAAAAAAAxRNdEaUcfUrKifPgPTDXnw7n0PSBhQfp3iOpNQRbqQABAgIAAQwCAAAAQEIPAAAAAAA=")
    rfl rfl
    ⟨by decide!, by intro pair hp; cases hp⟩
    (by decide!) (by decide!) (by decide!)

set_option maxRecDepth 100000 in
/-- C15: for the transaction of the tests, freshly built and unsigned, `transaction.signatures`
is empty and `isFullySigned` returns `true`; once the transaction is compiled, which gives it
one empty slot for the fee payer, `isFullySigned` returns `false`; in general it returns
`true` exactly when no slot of the array is empty. -/
theorem isFullySigned_unsigned_transaction (localeCompare : String → String → Int) :
    createTestTransaction.signatures = [] ∧
    isFullySigned createTestTransaction.signatures = true ∧
    (createTestTransaction._compile localeCompare).map (fun r => (r.2, isFullySigned r.2))
      = .ok ([⟨none, fromWallet⟩], false) ∧
    (∀ signatures, isFullySigned signatures = true
      ↔ ∀ pair ∈ signatures, pair.signature ≠ none) := by
  refine ⟨rfl, rfl, ?_, ?_⟩
  · have h := _compile_createTestTransaction localeCompare
    cases hc : createTestTransaction._compile localeCompare with
    | error e =>
      rw [hc] at h
      cases h
    | ok r =>
      rw [hc] at h
      injection h with h
      have hs : r.2 = [⟨none, fromWallet⟩] := h
      show Except.ok (r.2, isFullySigned r.2) = _
      rw [hs]
      rfl
  · intro signatures
    unfold isFullySigned
    simp [List.all_eq_true]

/-- C15, at the slot of the tests filled with 64 bytes of value 1. -/
theorem isFullySigned_unsigned_transaction_witness :
    isFullySigned [⟨some (List.replicate 64 1), fromWallet⟩] = true :=
  ((isFullySigned_unsigned_transaction (fun _ _ => 0)).2.2.2 _).2 (by simp)

/-! ## Auxiliary facts: monotonicity of the rounding -/

theorem roundHalfEven_mono (x y : ℚ) (h : x ≤ y) : roundHalfEven x ≤ roundHalfEven y := by
  have hf : ⌊x⌋ ≤ ⌊y⌋ := Int.floor_mono h
  rcases lt_or_eq_of_le hf with hlt | heq
  · have h1 : roundHalfEven x ≤ ⌊x⌋ + 1 := by
      rcases roundHalfEven_cases x with ⟨h1, _⟩ | ⟨h1, _⟩ <;> omega
    have h2 : ⌊y⌋ ≤ roundHalfEven y := by
      rcases roundHalfEven_cases y with ⟨h1, _⟩ | ⟨h1, _⟩ <;> omega
    omega
  · unfold roundHalfEven
    simp only [← heq]
    split_ifs <;> first | omega | (exfalso; linarith)

theorem toDouble_nonneg (q : ℚ) (h : 0 ≤ q) : 0 ≤ toDouble q := by
  by_cases h0 : q = 0
  · simp [toDouble, h0]
  · have hu : (0 : ℚ) < 2 ^ (binaryExponent q - 52) := zpow_pos (by norm_num) _
    simp only [toDouble, h0, if_false]
    have : (0 : ℤ) ≤ roundHalfEven (q / 2 ^ (binaryExponent q - 52)) :=
      le_roundHalfEven _ 0 (by simpa using div_nonneg h (le_of_lt hu))
    have : (0 : ℚ) ≤ (roundHalfEven (q / 2 ^ (binaryExponent q - 52)) : ℚ) := by
      exact_mod_cast this
    positivity

/-- The double nearest to a positive `q` lies between the powers of two around `q`. -/
theorem toDouble_between (q : ℚ) (h : 0 < q) :
    (2 : ℚ) ^ binaryExponent q ≤ toDouble q ∧ toDouble q ≤ 2 ^ (binaryExponent q + 1) := by
  have h0 : q ≠ 0 := ne_of_gt h
  obtain ⟨he1, he2⟩ := binaryExponent_spec q h0
  rw [abs_of_pos h] at he1 he2
  set e := binaryExponent q with he
  have hu : (0 : ℚ) < 2 ^ (e - 52) := zpow_pos (by norm_num) _
  have hfl : toDouble q = (roundHalfEven (q / 2 ^ (e - 52)) : ℚ) * 2 ^ (e - 52) := by
    simp only [toDouble, h0, if_false, ← he]
  have hlo : (2 : ℚ) ^ e = ((2 ^ 52 : ℤ) : ℚ) * 2 ^ (e - 52) := by
    rw [zpow_sub₀ (by norm_num)]; push_cast; field_simp; ring
  have hhi : (2 : ℚ) ^ (e + 1) = ((2 ^ 53 : ℤ) : ℚ) * 2 ^ (e - 52) := by
    rw [zpow_sub₀ (by norm_num), zpow_add₀ (by norm_num)]; push_cast; field_simp; ring
  rw [hfl, hlo, hhi]
  constructor
  · have : ((2 ^ 52 : ℤ) : ℚ) ≤ q / 2 ^ (e - 52) := by
      rw [le_div_iff₀ hu, ← hlo]; exact he1
    have := le_roundHalfEven _ _ this
    have : ((2 ^ 52 : ℤ) : ℚ) ≤ (roundHalfEven (q / 2 ^ (e - 52)) : ℚ) := by exact_mod_cast this
    exact mul_le_mul_of_nonneg_right this (le_of_lt hu)
  · have : q / 2 ^ (e - 52) ≤ ((2 ^ 53 : ℤ) : ℚ) := by
      rw [div_le_iff₀ hu, ← hhi]; exact le_of_lt he2
    have := roundHalfEven_le _ _ this
    have : (roundHalfEven (q / 2 ^ (e - 52)) : ℚ) ≤ ((2 ^ 53 : ℤ) : ℚ) := by exact_mod_cast this
    exact mul_le_mul_of_nonneg_right this (le_of_lt hu)

/-- Rounding to the nearest double is monotone on the non-negative rationals. -/
theorem toDouble_mono (p q : ℚ) (hp : 0 ≤ p) (h : p ≤ q) : toDouble p ≤ toDouble q := by
  rcases eq_or_lt_of_le hp with hp0 | hp0
  · rw [← hp0]
    simpa [toDouble] using toDouble_nonneg q (le_trans hp h)
  · have hq0 : 0 < q := lt_of_lt_of_le hp0 h
    obtain ⟨p1, p2⟩ := binaryExponent_spec p (ne_of_gt hp0)
    obtain ⟨q1, q2⟩ := binaryExponent_spec q (ne_of_gt hq0)
    rw [abs_of_pos hp0] at p1 p2
    rw [abs_of_pos hq0] at q1 q2
    have hlt : (2 : ℚ) ^ binaryExponent p < 2 ^ (binaryExponent q + 1) :=
      lt_of_le_of_lt p1 (lt_of_le_of_lt h q2)
    have hle : binaryExponent p < binaryExponent q + 1 :=
      (zpow_lt_zpow_iff_right₀ (by norm_num : (1 : ℚ) < 2)).1 hlt
    rcases lt_or_eq_of_le (Int.lt_add_one_iff.1 hle) with hl | heq
    · have h1 := (toDouble_between p hp0).2
      have h2 := (toDouble_between q hq0).1
      have h3 : (2 : ℚ) ^ (binaryExponent p + 1) ≤ 2 ^ binaryExponent q :=
        zpow_le_zpow_right₀ (by norm_num) (by omega)
      linarith
    · have hu : (0 : ℚ) < 2 ^ (binaryExponent q - 52) := zpow_pos (by norm_num) _
      simp only [toDouble, ne_of_gt hp0, ne_of_gt hq0, if_false, heq]
      have := roundHalfEven_mono (p / 2 ^ (binaryExponent q - 52))
        (q / 2 ^ (binaryExponent q - 52)) (div_le_div_of_nonneg_right h (le_of_lt hu))
      have : (roundHalfEven (p / 2 ^ (binaryExponent q - 52)) : ℚ)
          ≤ (roundHalfEven (q / 2 ^ (binaryExponent q - 52)) : ℚ) := by exact_mod_cast this
      exact mul_le_mul_of_nonneg_right this (le_of_lt hu)

/-! ## Auxiliary facts: amounts of the penalty, estimated rewards -/

/-- The amounts of a premature unstake, as the function computes them. -/
theorem penaltyAmounts_premature (now : ℚ) (s : StakingInfo) (h : ¬ s.release_date ≤ now) :
    (calculateEarlyUnstakingPenalty now s).penaltyAmount
      = mathFloor (jsMul (s.earned_so_far.getD 0)
          (jsDiv (calculateEarlyUnstakingPenalty now s).penaltyPercentage 100)) ∧
    (calculateEarlyUnstakingPenalty now s).finalReward
      = jsSub (s.earned_so_far.getD 0) (calculateEarlyUnstakingPenalty now s).penaltyAmount := by
  simp only [calculateEarlyUnstakingPenalty, h, if_false, and_self]

/-- Half of an integer below `2^53` is a double. -/
theorem toDouble_natCast_half (n : ℕ) (hn : n < 2 ^ 53) : toDouble ((n : ℚ) / 2) = (n : ℚ) / 2 := by
  have hq : |(n : ℚ) / 2| * 2 ^ 1 < 2 ^ 53 := by
    rw [abs_of_nonneg (by positivity)]
    have : (n : ℚ) < 2 ^ 53 := by exact_mod_cast hn
    linarith
  have h := toDouble_mono_dyadic ((n : ℚ) / 2) (n : ℤ) 1 hq
  have h1 : (((n : ℤ) : ℚ)) / 2 ^ 1 = (n : ℚ) / 2 := by norm_num
  rw [h1] at h
  exact le_antisymm (h.2 le_rfl) (h.1 le_rfl)

/-- The floor of half of a natural number. -/
theorem floor_natCast_half (n : ℕ) : ⌊(n : ℚ) / 2⌋ = ((n / 2 : ℕ) : ℤ) := by
  rw [Int.floor_eq_iff]
  have h1 : 2 * (n / 2) ≤ n := Nat.mul_div_le n 2
  have h2 : n < 2 * (n / 2) + 2 := by omega
  have h1q : (2 : ℚ) * ((n / 2 : ℕ) : ℚ) ≤ (n : ℚ) := by exact_mod_cast h1
  have h2q : (n : ℚ) < 2 * ((n / 2 : ℕ) : ℚ) + 2 := by exact_mod_cast h2
  rw [Int.cast_natCast]
  constructor <;> linarith

/-- The rate of a tier name that is no inherited member is one of the four rates. -/
theorem tierBaseRate_cases (tier : String) (h : tier ∉ OBJECT_PROTOTYPE_KEYS) :
    tierBaseRate tier = some 200 ∨ tierBaseRate tier = some 100 ∨ tierBaseRate tier = some 50 ∨
      tierBaseRate tier = some 25 := by
  unfold tierBaseRate
  by_cases h1 : tier = "LEGENDARY"
  · subst h1; left; decide
  by_cases h2 : tier = "EPIC"
  · subst h2; right; left; decide
  by_cases h3 : tier = "RARE"
  · subst h3; right; right; left; decide
  by_cases h4 : tier = "COMMON"
  · subst h4; right; right; right; decide
  right; right; right
  have e1 : (tier == "LEGENDARY") = false := by simpa using h1
  have e2 : (tier == "EPIC") = false := by simpa using h2
  have e3 : (tier == "RARE") = false := by simpa using h3
  have e4 : (tier == "COMMON") = false := by simpa using h4
  have hl : dailyRewardsByTier.lookup tier = none := by
    simp only [dailyRewardsByTier, List.lookup, e1, e2, e3, e4]
  rw [hl]
  simp only [h, if_false]
  decide

/-- The rate of a name that is neither a tier nor an inherited member is the rate of COMMON. -/
theorem tierBaseRate_other (tier : String) (h : tier ∉ OBJECT_PROTOTYPE_KEYS)
    (h' : tier ∉ ["LEGENDARY", "EPIC", "RARE", "COMMON"]) : tierBaseRate tier = some 25 := by
  unfold tierBaseRate
  simp only [List.mem_cons, List.mem_singleton, List.not_mem_nil, or_false, not_or] at h'
  have e1 : (tier == "LEGENDARY") = false := by simpa using h'.1
  have e2 : (tier == "EPIC") = false := by simpa using h'.2.1
  have e3 : (tier == "RARE") = false := by simpa using h'.2.2.1
  have e4 : (tier == "COMMON") = false := by simpa using h'.2.2.2
  have hl : dailyRewardsByTier.lookup tier = none := by
    simp only [dailyRewardsByTier, List.lookup, e1, e2, e3, e4]
  rw [hl]
  simp only [h, if_false]
  decide

set_option maxRecDepth 100000 in
/-- The three multipliers that are not integers, as exact rationals. -/
theorem multiplier_values :
    toDouble (6 / 5) = 5404319552844595 / 4503599627370496 ∧
    toDouble (7 / 5) = 3152519739159347 / 2251799813685248 ∧
    toDouble (17 / 10) = 7656119366529843 / 4503599627370496 := by
  decide!

/-- The multiplier is at least 1. -/
theorem one_le_timeMultiplier (d : ℤ) : 1 ≤ timeMultiplier d := by
  obtain ⟨h1, h2, h3⟩ := multiplier_values
  unfold timeMultiplier
  rw [h1, h2, h3]
  split_ifs <;> norm_num

/-- The multiplier does not decrease with the period. -/
theorem timeMultiplier_mono (d1 d2 : ℤ) (h : d1 ≤ d2) : timeMultiplier d1 ≤ timeMultiplier d2 := by
  obtain ⟨h1, h2, h3⟩ := multiplier_values
  unfold timeMultiplier
  rw [h1, h2, h3]
  split_ifs <;> first | omega | norm_num

/-- The total of a rate and a period does not decrease with the period. -/
theorem totalRewards_mono (rate : ℚ) (hrate : 0 ≤ rate) (d1 d2 : ℤ) (h0 : 0 ≤ d1) (h : d1 ≤ d2) :
    mathFloor (jsMul (jsMul rate d1) (timeMultiplier d1))
      ≤ mathFloor (jsMul (jsMul rate d2) (timeMultiplier d2)) := by
  unfold mathFloor jsMul
  have hd1 : (0 : ℚ) ≤ d1 := by exact_mod_cast h0
  have hd : (d1 : ℚ) ≤ d2 := by exact_mod_cast h
  have hx0 : 0 ≤ toDouble (rate * d1) := toDouble_nonneg _ (mul_nonneg hrate hd1)
  have hx : toDouble (rate * d1) ≤ toDouble (rate * d2) :=
    toDouble_mono _ _ (mul_nonneg hrate hd1) (mul_le_mul_of_nonneg_left hd hrate)
  have hm0 : 0 ≤ timeMultiplier d1 := le_trans (by norm_num) (one_le_timeMultiplier d1)
  have hm := timeMultiplier_mono d1 d2 h
  have hy : toDouble (toDouble (rate * d1) * timeMultiplier d1)
      ≤ toDouble (toDouble (rate * d2) * timeMultiplier d2) :=
    toDouble_mono _ _ (mul_nonneg hx0 hm0) (mul_le_mul hx hm hm0 (le_trans hx0 hx))
  exact_mod_cast Int.floor_mono hy

set_option maxRecDepth 100000 in
/-- At each threshold of the multiplier the total is larger than the day before. -/
theorem totalRewards_breakpoints :
    ∀ rate ∈ [(200 : ℚ), 100, 50, 25], ∀ d ∈ [(30 : ℤ), 90, 180, 365],
      mathFloor (jsMul (jsMul rate ((d - 1 : ℤ) : ℚ)) (timeMultiplier (d - 1)))
        < mathFloor (jsMul (jsMul rate (d : ℚ)) (timeMultiplier d)) := by
  decide!

/-- The earned amount is not negative when the rate is not negative and the stake has not
started after the end of the interval. -/
theorem calculateEarnedRewards_nonneg (now : ℚ) (s : StakingInfo)
    (hrate : 0 ≤ s.daily_reward_rate.getD 0) (htime : s.staked_at ≤ min now s.release_date) :
    0 ≤ calculateEarnedRewards now s := by
  unfold calculateEarnedRewards mathFloor jsMul jsDiv jsSub
  simp only
  have h1 : 0 ≤ toDouble (min now s.release_date - s.staked_at) :=
    toDouble_nonneg _ (by linarith)
  have h2 : 0 ≤ toDouble (toDouble (min now s.release_date - s.staked_at) / (24 * 60 * 60)) :=
    toDouble_nonneg _ (div_nonneg h1 (by norm_num))
  have h3 := toDouble_nonneg _ (mul_nonneg hrate h2)
  have : (0 : ℤ) ≤ ⌊toDouble (s.daily_reward_rate.getD 0 *
      toDouble (toDouble (min now s.release_date - s.staked_at) / (24 * 60 * 60)))⌋ :=
    Int.floor_nonneg.2 h3
  exact_mod_cast this

/-! ## The claims on rewards and penalties -/

set_option maxRecDepth 100000 in
/-- C21, refuted as stated: for the 30-day stake unstaked after 5 whole days with 3 earned,
the penalty percentage is 50 and the final reward is 2, while the half of 3 rounded down
is 1. -/
theorem finalReward_not_floor_of_half :
    (calculateEarlyUnstakingPenalty 432000 ⟨0, 2592000, 30, some 3, none⟩).penaltyPercentage = 50 ∧
    (calculateEarlyUnstakingPenalty 432000 ⟨0, 2592000, 30, some 3, none⟩).finalReward = 2 ∧
    ⌊((432000 - 0 : ℤ) : ℚ) / 86400⌋ = 5 ∧ ⌊(3 : ℚ) / 2⌋ = 1 := by
  decide!

/-- C21, amended: for a stake of period 30 with integer times, unstaked before the release
date after 5 whole elapsed days, with an earned amount that is a natural number below `2^53`,
the penalty percentage is 50, the penalty amount is the half of the earned amount rounded down,
and the final reward is the earned amount less that penalty, that is, the half rounded up; it
is the half rounded down exactly when the earned amount is even. -/
theorem finalReward_five_days_of_thirty (stakedAt releaseDate now : ℤ) (earned : ℕ)
    (rate : Option ℚ)
    (hdays : ⌊((now - stakedAt : ℤ) : ℚ) / 86400⌋ = 5) (hpremature : now < releaseDate)
    (hearned : earned < 2 ^ 53) :
    (calculateEarlyUnstakingPenalty now
      ⟨stakedAt, releaseDate, 30, some earned, rate⟩).penaltyPercentage = 50 ∧
    (calculateEarlyUnstakingPenalty now
      ⟨stakedAt, releaseDate, 30, some earned, rate⟩).penaltyAmount = ((earned / 2 : ℕ) : ℚ) ∧
    (calculateEarlyUnstakingPenalty now
      ⟨stakedAt, releaseDate, 30, some earned, rate⟩).finalReward
        = ((earned - earned / 2 : ℕ) : ℚ) ∧
    ((calculateEarlyUnstakingPenalty now
      ⟨stakedAt, releaseDate, 30, some earned, rate⟩).finalReward = ((earned / 2 : ℕ) : ℚ)
        ↔ earned % 2 = 0) := by
  set s : StakingInfo := ⟨stakedAt, releaseDate, 30, some earned, rate⟩ with hs
  have hrel : ¬ s.release_date ≤ (now : ℚ) := by
    have : (now : ℚ) < releaseDate := by exact_mod_cast hpremature
    simpa [hs] using this
  obtain ⟨hlo, hhi⟩ := Int.floor_eq_iff.1 hdays
  have hrange : |((now - stakedAt : ℤ) : ℚ)| < 2 ^ 53 := by
    rw [le_div_iff₀ (by norm_num)] at hlo
    rw [div_lt_iff₀ (by norm_num)] at hhi
    rw [abs_lt]
    constructor
    · push_cast at hlo ⊢; linarith
    · push_cast at hhi ⊢; norm_num at hhi ⊢; linarith
  have hel : calculateDaysElapsed s.staked_at now = 5 := by
    have := calculateDaysElapsed_int stakedAt now hrange
    rw [hdays] at this
    simpa [hs] using this
  have hpct : (calculateEarlyUnstakingPenalty now s).penaltyPercentage = 50 := by
    rw [penaltyPercentage_premature now s hrel (by simp [hs]), hel, if_pos (by norm_num)]
  obtain ⟨hamount, hfinal⟩ := penaltyAmounts_premature now s hrel
  have hearn : s.earned_so_far.getD 0 = (earned : ℚ) := rfl
  have hamount' : (calculateEarlyUnstakingPenalty now s).penaltyAmount
      = ((earned / 2 : ℕ) : ℚ) := by
    rw [hamount, hpct, hearn]
    unfold mathFloor jsMul jsDiv
    have h1 : (50 : ℚ) / 100 = 1 / 2 := by norm_num
    rw [h1, toDouble_half]
    have h2 : (earned : ℚ) * (1 / 2) = (earned : ℚ) / 2 := by ring
    rw [h2, toDouble_natCast_half earned hearned, floor_natCast_half]
    norm_cast
  have hle : earned / 2 ≤ earned := Nat.div_le_self _ _
  have hfinal' : (calculateEarlyUnstakingPenalty now s).finalReward
      = ((earned - earned / 2 : ℕ) : ℚ) := by
    rw [hfinal, hamount', hearn]
    unfold jsSub
    have h3 : (earned : ℚ) - ((earned / 2 : ℕ) : ℚ) = (((earned - earned / 2 : ℕ) : ℤ) : ℚ) := by
      rw [Int.cast_natCast, Nat.cast_sub hle]
    rw [h3, toDouble_intCast]
    · norm_cast
    · rw [abs_of_nonneg (by positivity)]
      have : earned - earned / 2 < 2 ^ 53 := by omega
      exact_mod_cast this
  refine ⟨hpct, hamount', hfinal', ?_⟩
  rw [hfinal']
  constructor
  · intro h
    have : earned - earned / 2 = earned / 2 := by exact_mod_cast h
    omega
  · intro h
    have : earned - earned / 2 = earned / 2 := by omega
    rw [this]

/-- C21 amended, at the stake of 30 days unstaked after 5 days with 7 earned. -/
theorem finalReward_five_days_of_thirty_witness :
    (calculateEarlyUnstakingPenalty ((432000 : ℤ) : ℚ)
      ⟨((0 : ℤ) : ℚ), ((2592000 : ℤ) : ℚ), 30, some ((7 : ℕ) : ℚ), none⟩).finalReward
        = ((7 - 7 / 2 : ℕ) : ℚ) :=
  (finalReward_five_days_of_thirty 0 2592000 432000 7 none
    (by rw [Int.floor_eq_iff]; norm_num) (by decide) (by norm_num)).2.2.1

/-- C22: whenever the current time has reached `release_date`,
`calculateEarlyUnstakingPenalty` returns `isPremature = false`, the earned amount (the stored
`earned_so_far`, 0 when it is absent) as `earnedRewards` and as `finalReward`, and 0 as penalty
percentage, penalty amount and days remaining. -/
theorem penalty_none_after_release (now : ℚ) (s : StakingInfo) (h : s.release_date ≤ now) :
    calculateEarlyUnstakingPenalty now s
      = { isPremature := false, earnedRewards := s.earned_so_far.getD 0, penaltyPercentage := 0,
          penaltyAmount := 0, finalReward := s.earned_so_far.getD 0, daysRemaining := 0 } := by
  simp only [calculateEarlyUnstakingPenalty, h, if_true]

/-- C22, at a stake of period 30 with exactly 30 days elapsed and 6000 earned. -/
theorem penalty_none_after_release_witness :
    calculateEarlyUnstakingPenalty 2592000 ⟨0, 2592000, 30, some 6000, none⟩
      = { isPremature := false, earnedRewards := 6000, penaltyPercentage := 0,
          penaltyAmount := 0, finalReward := 6000, daysRemaining := 0 } :=
  penalty_none_after_release 2592000 ⟨0, 2592000, 30, some 6000, none⟩ (by norm_num)

/-- C23: for every tier name whose rate is a number (every name that is no inherited member of
the rate table), `totalRewards` of `calculateEstimatedRewards` is a number for every period, it
does not decrease from `d1` to `d2` for integers `0 ≤ d1 ≤ d2`, and at each of the periods 30,
90, 180 and 365 it is strictly larger than at the period one day shorter. -/
theorem totalRewards_monotone (tier : String) (htier : tier ∉ OBJECT_PROTOTYPE_KEYS) :
    (∀ d1 d2 : ℤ, 0 ≤ d1 → d1 ≤ d2 → ∃ t1 t2 : ℚ,
      (calculateEstimatedRewards tier d1).totalRewards = some t1 ∧
      (calculateEstimatedRewards tier d2).totalRewards = some t2 ∧ t1 ≤ t2) ∧
    (∀ d ∈ [(30 : ℤ), 90, 180, 365], ∃ t1 t2 : ℚ,
      (calculateEstimatedRewards tier (d - 1)).totalRewards = some t1 ∧
      (calculateEstimatedRewards tier d).totalRewards = some t2 ∧ t1 < t2) := by
  have hmem : ∃ rate ∈ [(200 : ℚ), 100, 50, 25], tierBaseRate tier = some rate := by
    rcases tierBaseRate_cases tier htier with h | h | h | h
    · exact ⟨200, by simp, h⟩
    · exact ⟨100, by simp, h⟩
    · exact ⟨50, by simp, h⟩
    · exact ⟨25, by simp, h⟩
  obtain ⟨rate, hrate, hbase⟩ := hmem
  have htotal : ∀ d : ℤ, (calculateEstimatedRewards tier d).totalRewards
      = some (mathFloor (jsMul (jsMul rate d) (timeMultiplier d))) := by
    intro d
    simp only [calculateEstimatedRewards, hbase, Option.map_some']
  have hpos : 0 ≤ rate := by
    simp only [List.mem_cons, List.mem_singleton, List.not_mem_nil, or_false] at hrate
    rcases hrate with h | h | h | h <;> rw [h] <;> norm_num
  constructor
  · intro d1 d2 h0 h
    exact ⟨_, _, htotal d1, htotal d2, totalRewards_mono rate hpos d1 d2 h0 h⟩
  · intro d hd
    refine ⟨_, _, htotal (d - 1), htotal d, ?_⟩
    exact totalRewards_breakpoints rate hrate d hd

/-- C23, at the tier EPIC, for the periods 29, 30 and 45. -/
theorem totalRewards_monotone_witness :
    (∃ t1 t2 : ℚ, (calculateEstimatedRewards "EPIC" 30).totalRewards = some t1 ∧
      (calculateEstimatedRewards "EPIC" 45).totalRewards = some t2 ∧ t1 ≤ t2) ∧
    (∃ t1 t2 : ℚ, (calculateEstimatedRewards "EPIC" (30 - 1)).totalRewards = some t1 ∧
      (calculateEstimatedRewards "EPIC" 30).totalRewards = some t2 ∧ t1 < t2) :=
  ⟨(totalRewards_monotone "EPIC" (by decide)).1 30 45 (by decide) (by decide),
   (totalRewards_monotone "EPIC" (by decide)).2 30 (by simp)⟩

set_option maxRecDepth 100000 in
/-- C24: the rates of the four tiers are 200, 100, 50 and 25 and the two copies of the
function agree, but for the tier COMMON and the period 105 `calculateEstimatedRewards` returns
the total 3674 while the floor of the exact product `25 * 105 * 1.4` is 3675, and for the name
`constructor` the rate is no number, so that the total is `NaN` and not a multiple of 25. -/
theorem totalRewards_below_exact_floor :
    ((calculateEstimatedRewards "LEGENDARY" 105).baseRate = some 200 ∧
     (calculateEstimatedRewards "EPIC" 105).baseRate = some 100 ∧
     (calculateEstimatedRewards "RARE" 105).baseRate = some 50 ∧
     (calculateEstimatedRewards "COMMON" 105).baseRate = some 25) ∧
    (calculateEstimatedRewards "COMMON" 105).totalRewards = some 3674 ∧
    ⌊(25 : ℚ) * 105 * (7 / 5)⌋ = 3675 ∧
    ((calculateEstimatedRewards "constructor" 30).baseRate = none ∧
     (calculateEstimatedRewards "constructor" 30).totalRewards = none) ∧
    (∀ (tier : String) (d : ℤ),
      calculateEstimatedRewards_completeStaking tier d = calculateEstimatedRewards tier d) := by
  refine ⟨by decide!, by decide!, by decide!, by decide!, fun _ _ => rfl⟩

set_option maxRecDepth 100000 in
/-- C25: for the record staked at second 172800 with the daily rate 25, read at second 86400,
one day before `staked_at`, `calculateEarnedRewards` returns the negative amount -25; the
amount is not negative whenever the rate is not negative and `staked_at` is at most the
current time and the release date. -/
theorem calculateEarnedRewards_negative_before_start :
    calculateEarnedRewards 86400 ⟨172800, 2764800, 30, none, some 25⟩ = -25 ∧
    (∀ (now : ℚ) (s : StakingInfo), 0 ≤ s.daily_reward_rate.getD 0 →
      s.staked_at ≤ min now s.release_date → 0 ≤ calculateEarnedRewards now s) := by
  refine ⟨by decide!, calculateEarnedRewards_nonneg⟩

/-- C25, the second part at a record read two days after the start. -/
theorem calculateEarnedRewards_negative_before_start_witness :
    0 ≤ calculateEarnedRewards 345600 ⟨172800, 2764800, 30, none, some 25⟩ :=
  calculateEarnedRewards_negative_before_start.2 345600 ⟨172800, 2764800, 30, none, some 25⟩
    (by norm_num) (by norm_num)

/-- C26: the collection bonus is 0 for the counts 0 and 1, 1000 for the count 2 and 2000 for
every count from 3 on; it does not decrease with the count and never exceeds 2000. -/
theorem collectionBonus_spec :
    collectionBonus 0 = 0 ∧ collectionBonus 1 = 0 ∧ collectionBonus 2 = 1000 ∧
    (∀ n, 3 ≤ n → collectionBonus n = 2000) ∧
    (∀ m n, m ≤ n → collectionBonus m ≤ collectionBonus n) ∧
    (∀ n, collectionBonus n ≤ 2000) := by
  refine ⟨rfl, rfl, rfl, fun n h => ?_, fun m n h => ?_, fun n => ?_⟩
  · simp [collectionBonus, h]
  · unfold collectionBonus
    split_ifs <;> omega
  · unfold collectionBonus
    split_ifs <;> omega

/-- C26, at the counts 2 and 7. -/
theorem collectionBonus_spec_witness :
    collectionBonus 7 = 2000 ∧ collectionBonus 2 ≤ collectionBonus 7 :=
  ⟨collectionBonus_spec.2.2.2.1 7 (by decide), collectionBonus_spec.2.2.2.2.1 2 7 (by decide)⟩

/-! ### Facts on the signers of a compiled message -/

theorem mergeMeta_signer (a : AccountMeta) (l : List AccountMeta) (k : PublicKey)
    (h : (∃ x ∈ l, x.pubkey = k ∧ x.isSigner = true) ∨ (a.pubkey = k ∧ a.isSigner = true)) :
    ∃ x ∈ mergeMeta a l, x.pubkey = k ∧ x.isSigner = true := by
  induction l with
  | nil =>
    rcases h with ⟨x, hx, _⟩ | h
    · cases hx
    · exact ⟨a, by simp [mergeMeta], h⟩
  | cons m rest ih =>
    unfold mergeMeta
    split_ifs with hk
    · rcases h with ⟨x, hx, hxk, hxs⟩ | ⟨hak, has⟩
      · rcases List.mem_cons.1 hx with rfl | hx
        · exact ⟨_, List.mem_cons_self _ _, hxk, by simp [hxs]⟩
        · exact ⟨x, List.mem_cons_of_mem _ hx, hxk, hxs⟩
      · exact ⟨_, List.mem_cons_self _ _, hk.trans hak, by simp [has]⟩
    · rcases h with ⟨x, hx, hxk, hxs⟩ | h
      · rcases List.mem_cons.1 hx with rfl | hx
        · exact ⟨x, List.mem_cons_self _ _, hxk, hxs⟩
        · obtain ⟨y, hy, h1, h2⟩ := ih (Or.inl ⟨x, hx, hxk, hxs⟩)
          exact ⟨y, List.mem_cons_of_mem _ hy, h1, h2⟩
      · obtain ⟨y, hy, h1, h2⟩ := ih (Or.inr h)
        exact ⟨y, List.mem_cons_of_mem _ hy, h1, h2⟩

theorem foldl_mergeMeta_signer (accountMetas acc : List AccountMeta) (k : PublicKey)
    (h : (∃ x ∈ acc, x.pubkey = k ∧ x.isSigner = true) ∨
      (∃ a ∈ accountMetas, a.pubkey = k ∧ a.isSigner = true)) :
    ∃ x ∈ accountMetas.foldl (fun metas accountMeta => mergeMeta accountMeta metas) acc,
      x.pubkey = k ∧ x.isSigner = true := by
  induction accountMetas generalizing acc with
  | nil =>
    rcases h with h | ⟨a, ha, _⟩
    · exact h
    · cases ha
  | cons a rest ih =>
    rw [List.foldl_cons]
    apply ih
    rcases h with h | ⟨b, hb, hbk, hbs⟩
    · exact Or.inl (mergeMeta_signer a acc k (Or.inl h))
    · rcases List.mem_cons.1 hb with rfl | hb
      · exact Or.inl (mergeMeta_signer b acc k (Or.inr ⟨hbk, hbs⟩))
      · exact Or.inr ⟨b, hb, hbk, hbs⟩

theorem moveFeePayerFirst_signer (feePayer : PublicKey) (l : List AccountMeta) (k : PublicKey)
    (h : ∃ x ∈ l, x.pubkey = k ∧ x.isSigner = true) :
    ∃ x ∈ moveFeePayerFirst feePayer l, x.pubkey = k ∧ x.isSigner = true := by
  obtain ⟨x, hx, hxk, hxs⟩ := h
  unfold moveFeePayerFirst
  cases hf : l.find? (fun x => x.pubkey == feePayer) with
  | none => exact ⟨x, List.mem_cons_of_mem _ hx, hxk, hxs⟩
  | some payerMeta =>
    by_cases hkf : x.pubkey = feePayer
    · have hp : payerMeta.pubkey = feePayer := by simpa using List.find?_some hf
      exact ⟨_, List.mem_cons_self _ _, by rw [← hxk, hkf]; exact hp, rfl⟩
    · refine ⟨x, List.mem_cons_of_mem _ ?_, hxk, hxs⟩
      exact (List.mem_eraseP_of_neg (by simpa using hkf)).2 hx

theorem markSigner_signer (publicKey : PublicKey) (l l' : List AccountMeta) (k : PublicKey)
    (h : markSigner publicKey l = some l') (hs : ∃ x ∈ l, x.pubkey = k ∧ x.isSigner = true) :
    ∃ x ∈ l', x.pubkey = k ∧ x.isSigner = true := by
  induction l generalizing l' with
  | nil => simp [markSigner] at h
  | cons m rest ih =>
    obtain ⟨x, hx, hxk, hxs⟩ := hs
    unfold markSigner at h
    split_ifs at h with hk
    · injection h with h
      subst h
      rcases List.mem_cons.1 hx with rfl | hx
      · exact ⟨_, List.mem_cons_self _ _, hxk, rfl⟩
      · exact ⟨x, List.mem_cons_of_mem _ hx, hxk, hxs⟩
    · cases hr : markSigner publicKey rest with
      | none => simp [hr] at h
      | some rest' =>
        simp only [hr, Option.map_some'] at h
        injection h with h
        subst h
        rcases List.mem_cons.1 hx with rfl | hx
        · exact ⟨x, List.mem_cons_self _ _, hxk, hxs⟩
        · obtain ⟨y, hy, h1, h2⟩ := ih rest' hr ⟨x, hx, hxk, hxs⟩
          exact ⟨y, List.mem_cons_of_mem _ hy, h1, h2⟩

theorem checkSigners_signer (signatures : List SignaturePubkeyPair) (l metas : List AccountMeta)
    (k : PublicKey) (h : checkSigners signatures l = .ok metas)
    (hs : ∃ x ∈ l, x.pubkey = k ∧ x.isSigner = true) :
    ∃ x ∈ metas, x.pubkey = k ∧ x.isSigner = true := by
  induction signatures generalizing l with
  | nil =>
    simp only [checkSigners] at h
    injection h with h
    subst h
    exact hs
  | cons s signatures ih =>
    unfold checkSigners at h
    cases hmark : markSigner s.publicKey l with
    | none => simp [hmark] at h
    | some l' =>
      simp only [hmark] at h
      exact ih l' h (markSigner_signer _ _ _ _ hmark hs)

theorem compileSortedMetas_signer (tx : Transaction) (recentBlockhash : String)
    (feePayer : PublicKey) (sorted : List AccountMeta) (message : Message) (k : PublicKey)
    (h : compileSortedMetas tx recentBlockhash feePayer sorted = .ok message)
    (hs : ∃ x ∈ sorted, x.pubkey = k ∧ x.isSigner = true) :
    k ∈ message.accountKeys.take message.header.numRequiredSignatures := by
  unfold compileSortedMetas at h
  cases hcheck : checkSigners tx.signatures (moveFeePayerFirst feePayer sorted) with
  | error e => simp [hcheck] at h
  | ok metas =>
    simp only [hcheck] at h
    split_ifs at h with hall
    injection h with h
    subst h
    obtain ⟨x, hx, h1, h2⟩ := checkSigners_signer _ _ _ k hcheck
      (moveFeePayerFirst_signer feePayer sorted k hs)
    simp only [List.map_append]
    rw [List.take_left' (by simp)]
    rw [← h1]
    exact List.mem_map_of_mem _ (List.mem_filter.2 ⟨hx, h2⟩)

/-- The key of every account that an instruction flags as signer is among the first
`numRequiredSignatures` account keys of the compiled message. -/
theorem compileMessage_signer (localeCompare : String → String → Int) (tx : Transaction)
    (message : Message) (h : compileMessage localeCompare tx = .ok message)
    (instruction : TransactionInstruction) (hi : instruction ∈ tx.instructions)
    (a : AccountMeta) (ha : a ∈ instruction.keys) (hs : a.isSigner = true) :
    a.pubkey ∈ message.accountKeys.take message.header.numRequiredSignatures := by
  have hu : ∃ x ∈ (uniqueAccountMetas tx.instructions).insertionSort
      (fun x y => compareMetas localeCompare x y ≤ 0), x.pubkey = a.pubkey ∧ x.isSigner = true := by
    have : ∃ x ∈ uniqueAccountMetas tx.instructions, x.pubkey = a.pubkey ∧ x.isSigner = true := by
      unfold uniqueAccountMetas
      apply foldl_mergeMeta_signer
      right
      refine ⟨a, ?_, rfl, hs⟩
      simp only [List.mem_append, List.mem_flatMap]
      exact Or.inl ⟨instruction, hi, ha⟩
    obtain ⟨x, hx, h1, h2⟩ := this
    exact ⟨x, (List.perm_insertionSort _ _).mem_iff.2 hx, h1, h2⟩
  unfold compileMessage at h
  split at h
  · cases h
  · split_ifs at h with hempty
    split at h
    · exact compileSortedMetas_signer _ _ _ _ _ _ h hu
    · dsimp only at h
      split at h
      · cases h
      · exact compileSortedMetas_signer _ _ _ _ _ _ h hu

theorem two_le_of_mem_take {α : Type} (l : List α) (n : Nat) (a b : α)
    (ha : a ∈ l.take n) (hb : b ∈ l.take n) (hab : a ≠ b) : 2 ≤ n := by
  have hlen : (l.take n).length ≤ n := List.length_take_le n l
  match hl : l.take n with
  | [] => rw [hl] at ha; cases ha
  | [x] =>
    rw [hl] at ha hb
    rw [List.mem_singleton] at ha hb
    exact absurd (ha.trans hb.symm) hab
  | x :: y :: rest =>
    rw [hl] at hlen
    simp only [List.length_cons] at hlen
    omega

/-! ## The claim on the signers of the instructions -/

/-- C27: the instructions of `createStakeNftInstruction`, `createClaimRewardsInstruction` and
`createInitUserStakingInfoInstruction` flag their first account, the owner or user wallet, as
signer and no other; the instruction of `createUnstakeNftInstruction` flags two accounts, the
owner and the user token account, so that every message compiled from a transaction that
holds it, with a token account other than the owner, requires at least two signatures. -/
theorem unstake_instruction_second_signer (owner nftMint poolState user rewardMint
    userStakingInfo : PublicKey) (sa : StakeAccounts) (ca : ClaimAccounts) (stakingPeriod : Nat)
    (nftTier : Int) (autoCompound : Bool) (hperiod : stakingPeriod < 2 ^ 64) :
    (∃ ix, createStakeNftInstruction owner nftMint poolState stakingPeriod nftTier autoCompound
        sa = .ok ix ∧
      ix.keys.map (fun k => k.isSigner) = true :: List.replicate 10 false ∧
      (ix.keys.filter (fun k => k.isSigner)).map (fun k => k.pubkey) = [owner]) ∧
    (∃ ix, createClaimRewardsInstruction user nftMint rewardMint ca = .ok ix ∧
      ix.keys.map (fun k => k.isSigner) = true :: List.replicate 12 false ∧
      (ix.keys.filter (fun k => k.isSigner)).map (fun k => k.pubkey) = [user]) ∧
    (∃ ix, createInitUserStakingInfoInstruction user userStakingInfo = .ok ix ∧
      ix.keys.map (fun k => k.isSigner) = true :: List.replicate 2 false ∧
      (ix.keys.filter (fun k => k.isSigner)).map (fun k => k.pubkey) = [user]) ∧
    (∃ ix, createUnstakeNftInstruction owner nftMint poolState sa = .ok ix ∧
      ix.keys.map (fun k => k.isSigner)
        = [true, false, false, false, false, true, false, false, false, false, false, false] ∧
      (ix.keys.filter (fun k => k.isSigner)).map (fun k => k.pubkey)
        = [owner, sa.userTokenAccount] ∧
      ∀ (localeCompare : String → String → Int) (tx : Transaction) (message : Message),
        ix ∈ tx.instructions → owner ≠ sa.userTokenAccount →
        compileMessage localeCompare tx = .ok message →
        2 ≤ message.header.numRequiredSignatures) := by
  refine ⟨?_, ?_, ?_, ?_⟩
  · rw [createStakeNftInstruction, writeBigUInt64LE_natCast _ hperiod, newPublicKey_SYSVAR_RENT,
      newPublicKey_PROGRAM_ID]
    exact ⟨_, rfl, rfl, rfl⟩
  · rw [createClaimRewardsInstruction, newPublicKey_SYSVAR_RENT, newPublicKey_PROGRAM_ID]
    exact ⟨_, rfl, rfl, rfl⟩
  · rw [createInitUserStakingInfoInstruction, newPublicKey_PROGRAM_ID]
    exact ⟨_, rfl, rfl, rfl⟩
  · rw [createUnstakeNftInstruction, newPublicKey_SYSVAR_RENT, newPublicKey_PROGRAM_ID]
    refine ⟨_, rfl, rfl, rfl, ?_⟩
    intro localeCompare tx message hi hne h
    have h1 := compileMessage_signer localeCompare tx message h _ hi
      ⟨owner, true, true⟩ (by simp) rfl
    have h2 := compileMessage_signer localeCompare tx message h _ hi
      ⟨sa.userTokenAccount, true, true⟩ (by simp) rfl
    exact two_le_of_mem_take _ _ _ _ h1 h2 hne

set_option maxRecDepth 100000 in
/-- C27, at the unstake transaction of the wallet `fromWallet` with the token account
`toWallet`, the wallet being the fee payer. -/
theorem unstake_instruction_second_signer_witness :
    ∃ ix message,
      createUnstakeNftInstruction fromWallet TOKEN_PROGRAM_ID SystemProgram_programId
        ⟨TOKEN_PROGRAM_ID, TOKEN_PROGRAM_ID, TOKEN_PROGRAM_ID, toWallet, TOKEN_PROGRAM_ID⟩
        = .ok ix ∧
      compileMessage (fun _ _ => 0)
        ⟨[], some fromWallet, [ix], some "EGJScpJKZToCQxwn3TXfoVBnLRzjKhvXRQtdNxWuFiG7"⟩
        = .ok message ∧
      2 ≤ message.header.numRequiredSignatures := by
  obtain ⟨ix, hix, _, _, hsig⟩ := (unstake_instruction_second_signer fromWallet TOKEN_PROGRAM_ID
    SystemProgram_programId fromWallet TOKEN_PROGRAM_ID TOKEN_PROGRAM_ID
    ⟨TOKEN_PROGRAM_ID, TOKEN_PROGRAM_ID, TOKEN_PROGRAM_ID, toWallet, TOKEN_PROGRAM_ID⟩
    ⟨TOKEN_PROGRAM_ID, TOKEN_PROGRAM_ID, TOKEN_PROGRAM_ID, TOKEN_PROGRAM_ID, TOKEN_PROGRAM_ID,
      TOKEN_PROGRAM_ID⟩ 30 0 false (by decide)).2.2.2
  have hok : ((createUnstakeNftInstruction fromWallet TOKEN_PROGRAM_ID SystemProgram_programId
      ⟨TOKEN_PROGRAM_ID, TOKEN_PROGRAM_ID, TOKEN_PROGRAM_ID, toWallet, TOKEN_PROGRAM_ID⟩).bind
      (fun ix => (compileMessage (fun _ _ => 0)
        ⟨[], some fromWallet, [ix], some "EGJScpJKZToCQxwn3TXfoVBnLRzjKhvXRQtdNxWuFiG7"⟩).mapError
          (fun _ => JsError.typeError))).toBool = true := by
    decide!
  rw [hix] at hok
  cases hm : compileMessage (fun _ _ => 0)
      ⟨[], some fromWallet, [ix], some "EGJScpJKZToCQxwn3TXfoVBnLRzjKhvXRQtdNxWuFiG7"⟩ with
  | error e =>
    simp only [Except.bind, hm, Except.mapError, Except.toBool] at hok
    exact absurd hok (by decide)
  | ok message =>
    exact ⟨ix, message, hix, hm, hsig _ _ message (by simp) (by decide) hm⟩

/-! ## Auxiliary facts: the option encoder on `params.x || null` -/

/-- The option encoder behind `|| null`, for a parameter that is absent, 0 or in range. -/
theorem encodeOption_or_null (value : JsValue)
    (h : ∀ v, value = .int v → 0 ≤ v ∧ v < 2 ^ 64) :
    encodeOption (value.or .null) = .ok (rewardParamBlock value) := by
  cases value with
  | undefined => rfl
  | null => rfl
  | int v =>
    obtain ⟨h0, h1⟩ := h v rfl
    obtain ⟨n, rfl⟩ := Int.eq_ofNat_of_zero_le h0
    have hn : n < 2 ^ 64 := by exact_mod_cast h1
    by_cases hz : n = 0
    · subst hz
      rfl
    · have ht : (JsValue.int (n : Int)).or .null = .int (n : Int) := by
        have : (JsValue.int (n : Int)).truthy = true := by
          simp only [JsValue.truthy, bne_iff_ne, ne_eq]
          exact_mod_cast hz
        simp only [JsValue.or, this, if_true]
      rw [ht, encodeOption_natCast n hn]
      have hz' : ¬ ((n : Int) = 0) := by exact_mod_cast hz
      simp only [rewardParamBlock, hz', if_false, Int.toNat_ofNat, leBytes64_eq_range]

/-- The option encoder behind `|| null` throws for a value outside `0 .. 2^64 - 1`. -/
theorem encodeOption_or_null_outOfRange (v : Int) (h : v < 0 ∨ 2 ^ 64 ≤ v) :
    encodeOption ((JsValue.int v).or .null) = .error .rangeError := by
  have hz : v ≠ 0 := by
    rcases h with h | h
    · omega
    · intro h0; rw [h0] at h; norm_num at h
  have ht : (JsValue.int v).or .null = .int v := by
    have : (JsValue.int v).truthy = true := by
      simp only [JsValue.truthy, bne_iff_ne, ne_eq]
      exact hz
    simp only [JsValue.or, this, if_true]
  rw [ht]
  simp only [encodeOption, reduceCtorEq, if_false, u64ToLEBytes, toBigInt, bind, Except.bind,
    writeBigUInt64LE_outOfRange v h]

/-! ## The claims on the error responses and on the reward parameters -/

set_option maxRecDepth 100000 in
/-- C28: an error without structured code and without logs whose message holds the text
`0x1` is translated to the insufficient-funds message, and the hexadecimal text of every code
of `ERROR_CODES`, 6000 to 6025, that is `0x1770` to `0x1789`, holds `0x1`: the message
`custom program error: 0x1774` of the code 6004 and the like messages of all 26 codes are
translated to the insufficient-funds message. -/
theorem hex_program_error_read_as_insufficient_funds :
    (∀ m : String, "0x1".data <:+: m.data →
      getErrorMessage (.obj ⟨none, none, .undefined, some m⟩)
        = some "SOL 잔액이 부족합니다. 지갑에 SOL을 충전하세요") ∧
    (∀ c ∈ ERROR_CODES.map Prod.fst,
      getErrorMessage (.obj ⟨none, none, .undefined, some (customProgramErrorText c)⟩)
        = some "SOL 잔액이 부족합니다. 지갑에 SOL을 충전하세요") ∧
    customProgramErrorText 6004 = "custom program error: 0x1774" ∧
    (CLIENT_ERROR_CODES.lookup "InsufficientFunds").map (fun info => info.message)
      = some "SOL 잔액이 부족합니다. 지갑에 SOL을 충전하세요" := by
  have hhex : ∀ c ∈ ERROR_CODES.map Prod.fst, "0x1".data <:+: (customProgramErrorText c).data := by
    decide!
  have hgeneral : ∀ m : String, "0x1".data <:+: m.data →
      getErrorMessage (.obj ⟨none, none, .undefined, some m⟩)
        = some "SOL 잔액이 부족합니다. 지갑에 SOL을 충전하세요" := ?_
  · exact ⟨hgeneral, fun c hc => hgeneral _ (hhex c hc), by decide!, by decide!⟩
  intro m hm
  have hinc : includes m "0x1" = true := by simpa [includes] using hm
  have hne : (m != "") = true := by
    rw [bne_iff_ne]
    rintro rfl
    exact absurd hm (by decide)
  have hpat : messagePatternMessage m = some "SOL 잔액이 부족합니다. 지갑에 SOL을 충전하세요" := by
    simp only [messagePatternMessage, hinc, Bool.or_true, if_true]
    decide
  simp only [getErrorMessage, Option.getD_none, List.findSome?_nil, JsCode.truthy,
    Bool.false_eq_true, if_false, Option.getD_some, hne, if_true, hpat]

/-- C28, at the message of the code 6004. -/
theorem hex_program_error_read_as_insufficient_funds_witness :
    getErrorMessage (.obj ⟨none, none, .undefined, some "custom program error: 0x1774"⟩)
        = some "SOL 잔액이 부족합니다. 지갑에 SOL을 충전하세요" ∧
    getErrorMessage (.obj ⟨none, none, .undefined, some (customProgramErrorText 6004)⟩)
        = some "SOL 잔액이 부족합니다. 지갑에 SOL을 충전하세요" :=
  ⟨hex_program_error_read_as_insufficient_funds.1 "custom program error: 0x1774" (by decide),
   hex_program_error_read_as_insufficient_funds.2.1 6004 (by decide)⟩

/-- C29: a failure with the error argument omitted or `null` makes `createApiResponse` throw
a `TypeError`; with every other combination of arguments it returns a response, in which
`data` is `null` when `success` is false and `error` is `null` when `success` is true. -/
theorem createApiResponse_null_error_throws {α : Type} (message : String) (data : Option α) :
    createApiResponse false message data .omitted = .error .typeError ∧
    createApiResponse false message data .null = .error .typeError ∧
    (∀ (success : Bool) (error : ApiErrorArg),
      (success = true ∨ (error ≠ .omitted ∧ error ≠ .null)) →
      ∃ r, createApiResponse success message data error = .ok r ∧
        r.success = success ∧ r.message = message ∧
        (success = false → r.data = none ∧ r.error ≠ none) ∧
        (success = true → r.error = none ∧ r.data = data)) := by
  refine ⟨rfl, rfl, ?_⟩
  intro success error h
  cases success with
  | true => exact ⟨_, rfl, rfl, rfl, fun h => Bool.noConfusion h, fun _ => ⟨rfl, rfl⟩⟩
  | false =>
    rcases h with h | ⟨h1, h2⟩
    · cases h
    · cases error with
      | omitted => exact absurd rfl h1
      | null => exact absurd rfl h2
      | obj e => exact ⟨_, rfl, rfl, rfl, fun _ => ⟨rfl, by simp⟩, fun h => Bool.noConfusion h⟩
      | str s => exact ⟨_, rfl, rfl, rfl, fun _ => ⟨rfl, by simp⟩, fun h => Bool.noConfusion h⟩
      | num v => exact ⟨_, rfl, rfl, rfl, fun _ => ⟨rfl, by simp⟩, fun h => Bool.noConfusion h⟩

/-- C29, the second part at a failure that carries the text `MissingParameters`. -/
theorem createApiResponse_null_error_throws_witness :
    ∃ r, createApiResponse false "Method Not Allowed" (some (7 : Nat))
        (.str "MissingParameters") = .ok r ∧
      r.success = false ∧ r.message = "Method Not Allowed" ∧
      (false = false → r.data = none ∧ r.error ≠ none) ∧
      (false = true → r.error = none ∧ r.data = some 7) :=
  (createApiResponse_null_error_throws "Method Not Allowed" (some (7 : Nat))).2.2 false
    (.str "MissingParameters") (Or.inr ⟨by decide, by decide⟩)

/-- C30: when each parameter of `updateRewardParams` is missing, `null`, or an integer in
`0 .. 2^64 - 1`, the data is the discriminator followed, per parameter in order, by the byte 0
for a parameter that is 0 or absent and by the byte 1 and the eight little-endian bytes of the
value otherwise; whenever the function returns data at all, the data is of this form and no
block is the byte 1 followed by the bytes of zero. -/
theorem updateRewardParams_data_blocks (params : RewardParams) :
    ((∀ p ∈ [params.timeMultiplierIncrement, params.timeMultiplierPeriodDays,
        params.maxTimeMultiplier], ∀ v, p = JsValue.int v → 0 ≤ v ∧ v < 2 ^ 64) →
      updateRewardParams_data params = .ok ([146, 73, 176, 37, 49, 138, 89, 174]
        ++ rewardParamBlock params.timeMultiplierIncrement
        ++ rewardParamBlock params.timeMultiplierPeriodDays
        ++ rewardParamBlock params.maxTimeMultiplier)) ∧
    (∀ data, updateRewardParams_data params = .ok data →
      data = [146, 73, 176, 37, 49, 138, 89, 174]
        ++ rewardParamBlock params.timeMultiplierIncrement
        ++ rewardParamBlock params.timeMultiplierPeriodDays
        ++ rewardParamBlock params.maxTimeMultiplier ∧
      ∀ p ∈ [params.timeMultiplierIncrement, params.timeMultiplierPeriodDays,
        params.maxTimeMultiplier], rewardParamBlock p ≠ 1 :: leBytes64 0) ∧
    (∀ p, rewardParamBlock p = [0] ↔ p = .undefined ∨ p = .null ∨ p = .int 0) := by
  have hdisc : tableGet DISCRIMINATORS "updateRewardParams"
      = [146, 73, 176, 37, 49, 138, 89, 174] := by decide
  have hok : (∀ p ∈ [params.timeMultiplierIncrement, params.timeMultiplierPeriodDays,
        params.maxTimeMultiplier], ∀ v, p = JsValue.int v → 0 ≤ v ∧ v < 2 ^ 64) →
      updateRewardParams_data params = .ok ([146, 73, 176, 37, 49, 138, 89, 174]
        ++ rewardParamBlock params.timeMultiplierIncrement
        ++ rewardParamBlock params.timeMultiplierPeriodDays
        ++ rewardParamBlock params.maxTimeMultiplier) := by
    intro h
    have h1 := encodeOption_or_null _ (h params.timeMultiplierIncrement (by simp))
    have h2 := encodeOption_or_null _ (h params.timeMultiplierPeriodDays (by simp))
    have h3 := encodeOption_or_null _ (h params.maxTimeMultiplier (by simp))
    simp only [updateRewardParams_data, h1, h2, h3, hdisc, bind, Except.bind, pure, Except.pure,
      bufferConcat, List.flatten, List.append_nil, List.append_assoc]
  have hrange : ∀ data, updateRewardParams_data params = .ok data →
      ∀ p ∈ [params.timeMultiplierIncrement, params.timeMultiplierPeriodDays,
        params.maxTimeMultiplier], ∀ v, p = JsValue.int v → 0 ≤ v ∧ v < 2 ^ 64 := by
    intro data hdata p hp v hv
    by_contra hcon
    have hout : v < 0 ∨ 2 ^ 64 ≤ v := by
      by_cases h0 : 0 ≤ v
      · right
        by_contra h1
        exact hcon ⟨h0, not_le.1 h1⟩
      · left
        exact not_le.1 h0
    have herr := encodeOption_or_null_outOfRange v hout
    subst hv
    simp only [List.mem_cons, List.mem_singleton, List.not_mem_nil, or_false] at hp
    unfold updateRewardParams_data at hdata
    rcases hp with hp | hp | hp
    · rw [← hp, herr] at hdata
      cases hdata
    · rw [← hp, herr] at hdata
      cases h1 : encodeOption (params.timeMultiplierIncrement.or .null) <;>
        rw [h1] at hdata <;> cases hdata
    · rw [← hp, herr] at hdata
      cases h1 : encodeOption (params.timeMultiplierIncrement.or .null) <;>
        rw [h1] at hdata
      · cases hdata
      · cases h2 : encodeOption (params.timeMultiplierPeriodDays.or .null) <;>
          rw [h2] at hdata <;> cases hdata
  refine ⟨hok, fun data hdata => ?_, fun p => ?_⟩
  · have hr := hrange data hdata
    have := hok hr
    rw [hdata] at this
    injection this with this
    refine ⟨this, fun p hp => ?_⟩
    cases p with
    | undefined => simp [rewardParamBlock]
    | null => simp [rewardParamBlock]
    | int v =>
      obtain ⟨h0, h1⟩ := hr _ hp v rfl
      obtain ⟨n, rfl⟩ := Int.eq_ofNat_of_zero_le h0
      have hn : n < 2 ^ 64 := by exact_mod_cast h1
      by_cases hz : n = 0
      · subst hz
        simp [rewardParamBlock]
      · have hz' : ¬ ((n : Int) = 0) := by exact_mod_cast hz
        simp only [rewardParamBlock, hz', if_false, Int.toNat_ofNat]
        intro heq
        injection heq with _ heq
        have h2 := readBigUInt64LE_leBytes64 n hn []
        rw [heq, readBigUInt64LE_leBytes64 0 (by norm_num) []] at h2
        injection h2 with h2
        exact hz h2.symm
  · cases p with
    | undefined => simp [rewardParamBlock]
    | null => simp [rewardParamBlock]
    | int v =>
      by_cases hz : v = 0
      · subst hz
        simp [rewardParamBlock]
      · simp [rewardParamBlock, hz]

/-- C30, at the parameters 0, missing and 500. -/
theorem updateRewardParams_data_blocks_witness :
    updateRewardParams_data ⟨.int 0, .undefined, .int 500⟩
      = .ok ([146, 73, 176, 37, 49, 138, 89, 174] ++ rewardParamBlock (.int 0)
        ++ rewardParamBlock .undefined ++ rewardParamBlock (.int 500)) ∧
    [146, 73, 176, 37, 49, 138, 89, 174] ++ rewardParamBlock (.int 0)
        ++ rewardParamBlock .undefined ++ rewardParamBlock (.int 500)
      = [146, 73, 176, 37, 49, 138, 89, 174, 0, 0, 1, 244, 1, 0, 0, 0, 0, 0, 0] :=
  ⟨(updateRewardParams_data_blocks ⟨.int 0, .undefined, .int 500⟩).1 (by
      intro p hp v hv
      simp only [List.mem_cons, List.mem_singleton, List.not_mem_nil, or_false] at hp
      rcases hp with rfl | rfl | rfl
      · cases hv; decide
      · cases hv
      · cases hv; decide),
   by decide⟩

end TTSS
